import Mathlib

/-!
A shallow embedding of the `vectormap` LFU cache shard (`LFUMap` in package
`vectormap`, source file `src/unnamed/part_002`) together with proofs about
its operations.

Conventions of the embedding:
* Machine integers (`uint32`, `uint64`, `int8`) are modelled as `Nat` / `Int`.
  Subtraction on `uint32` counters is rendered as truncated `Nat` subtraction;
  along the states considered by the theorems below the Go code never
  underflows (the proofs establish the counters are positive at every
  decrement), so the two semantics agree there.  Where a bit-field is
  extracted the embedding uses explicit `/ 2^k % 2^j` arithmetic.
* The byte arena is modelled as a total function `Nat → Nat`; Go's `copy`
  into `data[off:]` becomes a pointwise functional update.
* Locks, atomics and the byte pools are concurrency / allocation artefacts
  with no effect on the sequential semantics and are dropped.
* The SIMD primitives `metaMatchH2` / `metaMatchEmpty` / `nextMatch`
  (src/unnamed/part_002 lines 1122-1136) produce a 16-bit mask over the 16
  slots of a group and iterate its set bits in ascending order; the
  embedding renders this directly as an ascending scan of the slot indices
  (`scanSlots`), which computes the same first-match semantics.
-/

namespace VMap

/-- `groupSize = 16`: slots per group (src/unnamed/part_002 line 1116). -/
def groupSize : Nat := 16

/-- `maxAvgGroupLoad = 14` (src/unnamed/part_002 line 1117). -/
def maxAvgGroupLoad : Nat := 14

/-- Modelled from the spec: the EMPTY control byte is `-128`. -/
def emptyByte : Int := -128

/-- Modelled from the spec: the TOMBSTONE control byte is `-2`. -/
def tombByte : Int := -2

/-- Modelled from the spec: `MAX_COUNT = 255`, the LFU counter saturation. -/
def maxCount : Nat := 255

/-- Modelled from the spec: `OVER_SHORT = 256`, the small-inline bound. -/
def overShortSize : Nat := 256

/-- Modelled from the spec: `OVER_LONG`, the medium/long boundary and the
sentinel reconstructed size of a long value.  The sentinel is the size
`smallByte + big7 * 256` with `big7 = 0x7F`, `smallByte = 0xFF`, the largest
value representable in the 7+8 bit size fields, i.e. `32767`.  (The spec
rounds this to "32 768".) -/
def overLongSize : Nat := 32767

/-- Modelled from the spec: `LIMIT = 2^24`, the hard per-value cap. -/
def limitSize : Nat := 16777216

/-- Modelled from the spec: bit 31 of Word A is the `valType` flag. -/
def mapTypeHeader : Nat := 2147483648

/-- Modelled from the spec: Word-A part of the long-value sentinel,
`0x7F` in the 7-bit `capOrBigSize` field (bits 24..30). -/
def overLongStoreHeaderH : Nat := 0x7F * 16777216

/-- Modelled from the spec: Word-B part of the long-value sentinel,
`0xFF` in the 8-bit small-size field (bits 24..31). -/
def overLongStoreHeaderL : Nat := 0xFF * 16777216

/-- Modelled from the spec: descriptor offsets are in 4-byte units. -/
def storeUintBytes : Nat := 4

/-- Modelled from the spec: `maxShardMemSize` caps the per-shard arena;
offsets in 4-byte units must fit the 24-bit descriptor field, so the cap is
`2^26`. -/
def maxShardMemSize : Nat := 67108864

/-- Modelled from the spec: maintenance skip reason codes. -/
def skipReason1 : Nat := 1

/-- Modelled from the spec: second skip reason code. -/
def skipReason2 : Nat := 2

/-- Modelled from the spec: third skip reason code. -/
def skipReason3 : Nat := 3

/-- Modelled from the spec: `Cap4Size(n) = ceil(n/4)*4`, the 4-byte
allocation granularity of the arena. -/
def Cap4Size (n : Nat) : Nat := (n + 3) / 4 * 4

/-- Modelled from the spec: Word-A / Word-B low 24 bits are an offset in
4-byte units (`w & IdxOffsetMask`). -/
def offsetOf (w : Nat) : Nat := w % 16777216

/-- Modelled from the spec: Word-B bits 24..31 are the low 8 bits of the
value size (`w & IdxSmallSizeMask >> 24`). -/
def smallSizeOf (w : Nat) : Nat := w / 16777216 % 256

/-- Modelled from the spec: Word-A bits 24..30 are the spare capacity in
4-byte units (type 0) or the high 7 bits of the value size (type 1). -/
def capOrBigSizeOf (w : Nat) : Nat := w / 16777216 % 128

/-- Modelled from the spec: Word-A bit 31 is the value-layout type. -/
def valTypeOf (w : Nat) : Nat := w / 2147483648 % 2

/-- Modelled from the spec: `splitHash` splits the 64-bit hash into
`H1 = L >> 7` and `H2 = L & 0x7F`. -/
def splitHash (l : Nat) : Nat × Nat := (l / 128, l % 128)

/-- The `H2` tag stored as a control byte (`int8(lo)`); `lo < 128` so the
conversion is the numeric inclusion. -/
def h2i (l : Nat) : Int := Int.ofNat (l % 128)

/-- Modelled from the spec: `probeStart(hi, G) = H1 mod G`. -/
def probeStart (hi : Nat) (gl : Nat) : Nat := hi % gl

/-- Modelled from the spec: `numGroups(sz) = ceil(sz / 14)`, always `≥ 1`. -/
def numGroups (sz : Nat) : Nat := max 1 ((sz + maxAvgGroupLoad - 1) / maxAvgGroupLoad)

/-! ### The byte arena -/

/-- Pointwise update of the arena function (one byte store). -/
def upd (d : Nat → Nat) (i : Nat) (b : Nat) : Nat → Nat :=
  fun j => if j = i then b else d j

/-- Go's `copy(data[off:], bs)`: store the bytes of `bs` starting at `off`. -/
def writeBytes (d : Nat → Nat) (off : Nat) : List Nat → (Nat → Nat)
  | [] => d
  | b :: bs => writeBytes (upd d off b) (off + 1) bs

/-- Read `n` consecutive bytes starting at `off`. -/
def readBytes (d : Nat → Nat) (off : Nat) : Nat → List Nat
  | 0 => []
  | n + 1 => d off :: readBytes d (off + 1) n

/-- Go's `StoreUint32` (little endian, as in the repository's `LoadUint32` /
`StoreUint32` pair): store the 4 bytes of `v % 2^32` at `off`. -/
def store32 (d : Nat → Nat) (off : Nat) (v : Nat) : Nat → Nat :=
  writeBytes d off [v % 256, v / 256 % 256, v / 65536 % 256, v / 16777216 % 256]

/-- Go's `LoadUint32`: read 4 little-endian bytes at `off`. -/
def load32 (d : Nat → Nat) (off : Nat) : Nat :=
  d off + 256 * d (off + 1) + 65536 * d (off + 2) + 16777216 * d (off + 3)

/-! ### State -/

/-- Modelled from the spec: the arena (`kvHolder`).  `data` is the byte
buffer, `tail` the monotone allocation pointer, `cap` the capacity, `limit`
the high-water mark checked by `RePut`, `items` the live record count and
`valUsed` the sum of value capacities. -/
structure KVHolder where
  data : Nat → Nat
  tail : Nat
  cap : Nat
  limit : Nat
  items : Nat
  valUsed : Nat

/-- Modelled from the spec: a fresh arena.  The first 4 bytes are reserved
(`ItemsUsedMem` counts them and a zero Word A marks an unused slot, so byte
offset 0 is never a valid key offset); hence `tail` starts at 4. -/
def newKVHolder (cap : Nat) : KVHolder :=
  { data := fun _ => 0, tail := 4, cap := cap, limit := cap
    items := 0, valUsed := 0 }

/-- The `LFUMap` shard state (src/unnamed/part_002 lines 28-44).  `ctrl`,
`counters` and `groups` are parallel arrays of 16-slot groups; `ctrl` holds
control bytes (`int8`), `counters` the LFU counters (`uint8`), `groups` the
Word-A descriptors (`uint32`). -/
structure Shard where
  ctrl : List (List Int)
  counters : List (List Nat)
  groups : List (List Nat)
  resident : Nat
  dead : Nat
  limit : Nat
  kv : KVHolder
  queryCnt : Nat
  missCnt : Nat
  rehashing : Bool

/-- `newInnerLFUMap` (src/unnamed/part_002 lines 46-64): `numGroups sz`
groups of 16 empty slots, zero counters and descriptors,
`limit = groups * maxAvgGroupLoad`, and a fresh arena of the clamped
capacity. -/
def initShard (sz : Nat) (memMax : Nat) : Shard :=
  let g := numGroups sz
  let mm := if memMax > maxShardMemSize || memMax = 0 then maxShardMemSize else memMax
  { ctrl := List.replicate g (List.replicate groupSize emptyByte)
    counters := List.replicate g (List.replicate groupSize 0)
    groups := List.replicate g (List.replicate groupSize 0)
    resident := 0, dead := 0, limit := g * maxAvgGroupLoad
    kv := newKVHolder mm
    queryCnt := 0, missCnt := 0, rehashing := false }

/-- Update one slot of a two-level array. -/
def setSlot {α : Type} (a : List (List α)) (g s : Nat) (x : α) : List (List α) :=
  a.set g ((a.getD g []).set s x)

/-! ### Probing -/

/-- Scan slot indices `s, s+1, …` (with `fuel` steps) for the first slot
satisfying `p`; this is the ascending-bit iteration of a 16-bit SIMD match
mask (`nextMatch`, src/unnamed/part_002 lines 1132-1136). -/
def scanSlots (p : Nat → Bool) : Nat → Nat → Option Nat
  | 0, _ => none
  | fuel + 1, s => if p s then some s else scanSlots p fuel (s + 1)

/-- `getKey` of the arena (modelled from the spec): the 16 key bytes at
`offset(w) * 4`. -/
def getKey (d : Nat → Nat) (w : Nat) : List Nat :=
  readBytes d (offsetOf w * 4) 16

/-- The inner match loop of `Put` / `RePut` / `Delete`
(src/unnamed/part_002 lines 226-234): among the slots of group `cg` whose
control byte equals the tag `lo`, the first one whose stored key equals
`key`. -/
def findKeyInGroup (d : Nat → Nat) (cg : List Int) (gv : List Nat)
    (lo : Int) (key : List Nat) : Option Nat :=
  scanSlots (fun s => decide (cg.getD s emptyByte = lo) &&
    decide (getKey d (gv.getD s 0) = key)) 16 0

/-- `metaMatchEmpty` followed by `nextMatch`: the first EMPTY slot of a
group, if any. -/
def firstEmptySlot (cg : List Int) : Option Nat :=
  scanSlots (fun s => decide (cg.getD s emptyByte = emptyByte)) 16 0

/-- Result of the probe loop: a slot holding the key, or the first empty
slot of the terminating group, or fuel exhaustion (the Go loop would spin
forever; unreachable when the table has an empty slot). -/
inductive PRes where
  | found (g s : Nat)
  | missAt (g s : Nat)
  | nofuel
  deriving DecidableEq

/-- The probe loop of `Put` / `RePut` / `Delete` (src/unnamed/part_002
lines 225-234, 376-385): linear scan of groups from `g` with wrap-around at
`gl = len(groups)`; in each group first try the `H2` matches, then stop at
the first group containing an EMPTY slot. -/
def probeLoop (ctrl : List (List Int)) (groups : List (List Nat))
    (d : Nat → Nat) (key : List Nat) (lo : Int) (gl : Nat) :
    Nat → Nat → PRes
  | 0, _ => .nofuel
  | fuel + 1, g =>
    match findKeyInGroup d (ctrl.getD g []) (groups.getD g []) lo key with
    | some s => .found g s
    | none =>
      match firstEmptySlot (ctrl.getD g []) with
      | some s => .missAt g s
      | none => probeLoop ctrl groups d key lo gl fuel (if g + 1 ≥ gl then 0 else g + 1)

/-- The probe of a mutating operation on shard `m` for hash `l`, key `key`:
starts at `probeStart (h1 l) G` with fuel `G` (the Go loop is unbounded but
visits every group within `G` steps). -/
def probeShard (m : Shard) (l : Nat) (key : List Nat) : PRes :=
  probeLoop m.ctrl m.groups m.kv.data key (h2i l) m.groups.length
    m.groups.length (probeStart (splitHash l).1 m.groups.length)

/-! ### The update path of `Put` -/

/-- The old-capacity computation repeated in every update branch
(src/unnamed/part_002 lines 241-253 etc.): the amount subtracted from
`valUsed` for the value being replaced.  `w` is Word A, `vHeader` Word B. -/
def oldValCap (d : Nat → Nat) (w : Nat) (vHeader : Nat) : Nat :=
  if valTypeOf w = 0 then
    capOrBigSizeOf w
  else
    let vSize := smallSizeOf vHeader + capOrBigSizeOf w * 256
    if vSize = overLongSize then
      Cap4Size (load32 d (offsetOf vHeader * 4)) + 4
    else
      Cap4Size vSize

/-- Tombstone the slot `(g, s)` of `m` and subtract `du` from `valUsed`
(the failure path of the update branches: src/unnamed/part_002 lines
237-240, 274-279, 310-315, 352-359).  `clearIdx` additionally zeroes the
descriptor (only the generic branch does). -/
def tombstoneSlot (m : Shard) (g s : Nat) (du : Nat) (clearIdx : Bool) : Shard :=
  { m with
    ctrl := setSlot m.ctrl g s tombByte
    dead := m.dead + 1
    counters := setSlot m.counters g s 0
    groups := if clearIdx then setSlot m.groups g s 0 else m.groups
    kv := { m.kv with items := m.kv.items - 1, valUsed := m.kv.valUsed - du } }

/-- The update block of `Put` once the key has been matched at `(g, s)`
(src/unnamed/part_002 lines 231-372). -/
def putUpdate (m : Shard) (g s : Nat) (value : List Nat) : Bool × Shard :=
  let w := (m.groups.getD g []).getD s 0
  let kOffset := offsetOf w * 4
  let kEnd := kOffset + 16
  let vHeader := load32 m.kv.data kEnd
  let vType := valTypeOf w
  let lv := value.length
  if lv ≥ limitSize then
    (false, tombstoneSlot m g s (oldValCap m.kv.data w vHeader) false)
  else if lv ≥ overLongSize then
    -- long-value append (lines 257-292)
    let vCap := Cap4Size lv + 4
    let ntail := m.kv.tail + 20 + vCap
    let vu := m.kv.valUsed - oldValCap m.kv.data w vHeader
    if ntail > m.kv.cap then
      (false, tombstoneSlot m g s (oldValCap m.kv.data w vHeader) false)
    else
      let vOffset := m.kv.tail
      let d1 := store32 m.kv.data vOffset lv
      let d2 := writeBytes d1 (vOffset + 4) value
      let d3 := store32 d2 kEnd (vOffset / storeUintBytes + overLongStoreHeaderL)
      (true, { m with
        groups := setSlot m.groups g s (kOffset / storeUintBytes + overLongStoreHeaderH + mapTypeHeader)
        kv := { m.kv with data := d3, tail := ntail, valUsed := vu + vCap } })
  else if lv ≥ overShortSize then
    -- medium-value append (lines 293-328)
    let vCap := Cap4Size lv
    let ntail := m.kv.tail + vCap
    let vu := m.kv.valUsed - oldValCap m.kv.data w vHeader
    if ntail > m.kv.cap then
      (false, tombstoneSlot m g s (oldValCap m.kv.data w vHeader) false)
    else
      let vBig := lv / 256 % 128
      let vSmall := lv % 256
      let d1 := writeBytes m.kv.data m.kv.tail value
      let d2 := store32 d1 kEnd (m.kv.tail / 4 + vSmall * 16777216)
      (true, { m with
        groups := setSlot m.groups g s (kOffset / 4 + vBig * 16777216 + mapTypeHeader)
        kv := { m.kv with data := d2, tail := ntail, valUsed := vu + vCap } })
  else if vType = 0 ∧ lv ≤ capOrBigSizeOf w * 4 then
    -- in-place update fast path (lines 329-335); `lv < overShortSize` holds here
    let vOffset := offsetOf vHeader
    let d1 := store32 m.kv.data kEnd (vOffset + lv * 16777216)
    let d2 := writeBytes d1 (vOffset * 4) value
    (true, { m with kv := { m.kv with data := d2 } })
  else
    -- generic append (lines 336-369)
    let vCap := Cap4Size lv
    let ntail := m.kv.tail + vCap
    let vu := m.kv.valUsed - oldValCap m.kv.data w vHeader
    if ntail > m.kv.cap then
      (false, tombstoneSlot m g s (oldValCap m.kv.data w vHeader) true)
    else
      let d1 := writeBytes m.kv.data m.kv.tail value
      let d2 := store32 d1 kEnd (m.kv.tail / 4 + lv * 16777216)
      (true, { m with
        groups := setSlot m.groups g s (kOffset / 4 + vCap / 4 * 16777216)
        kv := { m.kv with data := d2, tail := ntail, valUsed := vu + vCap } })

/-- `LFUMap.Put` (src/unnamed/part_002 lines 221-386): update-only; probing
to an empty slot without a key match returns `false` and changes nothing. -/
def Put (m : Shard) (l : Nat) (key value : List Nat) : Bool × Shard :=
  match probeShard m l key with
  | .found g s => putUpdate m g s value
  | .missAt _ _ => (false, m)
  | .nofuel => (false, m)

/-! ### Reading a slot's value (`Get`) -/

/-- The value extraction of `Get` once the key has been confirmed
(src/unnamed/part_002 lines 176-198): small-inline, medium, or long with a
4-byte length prefix behind the sentinel size. -/
def readVal (d : Nat → Nat) (w : Nat) : List Nat :=
  let kEnd := offsetOf w * 4 + 16
  let vHeader := load32 d kEnd
  if valTypeOf w = 0 then
    readBytes d (offsetOf vHeader * 4) (smallSizeOf vHeader)
  else
    let vSize := smallSizeOf vHeader + capOrBigSizeOf w * 256
    if vSize = overLongSize then
      readBytes d (offsetOf vHeader * 4 + 4) (load32 d (offsetOf vHeader * 4))
    else
      readBytes d (offsetOf vHeader * 4) vSize

/-- `kvHolder.getKVUnlock` (modelled from the spec): the key and value of a
slot, as read by rehash / GCCopy. -/
def readSlotKV (d : Nat → Nat) (w : Nat) : List Nat × List Nat :=
  (getKey d w, readVal d w)

/-- The inner match loop of `Get` (src/unnamed/part_002 lines 164-206):
like `findKeyInGroup` but slots with a zero descriptor are skipped. -/
def findKeyInGroupGet (d : Nat → Nat) (cg : List Int) (gv : List Nat)
    (lo : Int) (key : List Nat) : Option Nat :=
  scanSlots (fun s => decide (cg.getD s emptyByte = lo) &&
    decide (gv.getD s 0 ≠ 0) &&
    decide (readBytes d (offsetOf (gv.getD s 0) * 4) 16 = key)) 16 0

/-- The probe loop of `Get` (src/unnamed/part_002 lines 163-218). -/
def probeGetLoop (ctrl : List (List Int)) (groups : List (List Nat))
    (d : Nat → Nat) (key : List Nat) (lo : Int) (gl : Nat) :
    Nat → Nat → PRes
  | 0, _ => .nofuel
  | fuel + 1, g =>
    match findKeyInGroupGet d (ctrl.getD g []) (groups.getD g []) lo key with
    | some s => .found g s
    | none =>
      match firstEmptySlot (ctrl.getD g []) with
      | some s => .missAt g s
      | none => probeGetLoop ctrl groups d key lo gl fuel (if g + 1 ≥ gl then 0 else g + 1)

/-- `LFUMap.add` (src/unnamed/part_002 lines 152-156): saturating counter
bump. -/
def addCounter (m : Shard) (g s : Nat) : Shard :=
  let c := (m.counters.getD g []).getD s 0
  { m with counters := setSlot m.counters g s (if c < maxCount then c + 1 else c) }

/-- `LFUMap.Get` (src/unnamed/part_002 lines 158-219): returns the copied
value and the hit flag; bumps `queryCnt`, the slot counter on hit and
`missCnt` on miss.  (The pooled buffer and its closer are an allocation
artefact and are dropped.) -/
def Get (m : Shard) (l : Nat) (key : List Nat) : List Nat × Bool × Shard :=
  let m1 : Shard := { m with queryCnt := m.queryCnt + 1 }
  match probeGetLoop m1.ctrl m1.groups m1.kv.data key (h2i l) m1.groups.length
      m1.groups.length (probeStart (splitHash l).1 m1.groups.length) with
  | .found g s =>
      let w := (m1.groups.getD g []).getD s 0
      (readVal m1.kv.data w, true, addCounter m1 g s)
  | .missAt _ _ => ([], false, { m1 with missCnt := m1.missCnt + 1 })
  | .nofuel => ([], false, m1)

/-! ### `Delete` -/

/-- `kvHolder.del` (modelled from the spec): marks the record dead —
decrements `items` and moves the value capacity from `valUsed` to garbage. -/
def kvDel (kv : KVHolder) (w : Nat) : KVHolder :=
  { kv with items := kv.items - 1
            valUsed := kv.valUsed - oldValCap kv.data w (load32 kv.data (offsetOf w * 4 + 16)) }

/-- `LFUMap.Delete` (src/unnamed/part_002 lines 815-850).  On hit, the slot
reverts to EMPTY (and `resident` drops) when its group still has an EMPTY
byte, otherwise becomes a TOMBSTONE (and `dead` grows); the counter is
zeroed. -/
def Delete (m : Shard) (l : Nat) (key : List Nat) : Bool × Shard :=
  match probeShard m l key with
  | .found g s =>
      let w := (m.groups.getD g []).getD s 0
      let m1 : Shard := { m with kv := kvDel m.kv w }
      if (firstEmptySlot (m.ctrl.getD g [])).isSome then
        (true, { m1 with ctrl := setSlot m.ctrl g s emptyByte
                         resident := m.resident - 1
                         counters := setSlot m.counters g s 0 })
      else
        (true, { m1 with ctrl := setSlot m.ctrl g s tombByte
                         dead := m.dead + 1
                         counters := setSlot m.counters g s 0 })
  | .missAt _ _ => (false, m)
  | .nofuel => (false, m)

/-! ### `Clear` -/

/-- `LFUMap.Clear` (src/unnamed/part_002 lines 852-878): reset every
control byte, counter and descriptor in place, zero `resident` and `dead`,
and swap in a fresh arena of the same capacity. -/
def Clear (m : Shard) : Shard :=
  { m with ctrl := m.ctrl.map (fun c => c.map (fun _ => emptyByte))
           counters := m.counters.map (fun c => c.map (fun _ => 0))
           groups := m.groups.map (fun c => c.map (fun _ => 0))
           resident := 0, dead := 0
           kv := newKVHolder m.kv.cap }

/-! ### Introspection -/

/-- `LFUMap.Count` (src/unnamed/part_002 lines 903-905): `resident - dead`
(`uint32` subtraction; under the invariant proved below `dead ≤ resident`,
so truncated `Nat` subtraction agrees). -/
def Count (m : Shard) : Nat := m.resident - m.dead

/-- `LFUMap.Items` (src/unnamed/part_002 lines 92-95). -/
def Items (m : Shard) : Nat := m.kv.items

/-- `LFUMap.UsedMem` (src/unnamed/part_002 lines 82-85). -/
def UsedMem (m : Shard) : Nat := m.kv.tail

/-- `LFUMap.ItemsUsedMem` (src/unnamed/part_002 lines 87-90). -/
def ItemsUsedMem (m : Shard) : Nat := m.kv.valUsed + m.kv.items * 20 + 4

/-- `kvHolder.itemsMemUsage` (modelled from the spec): the fraction of the
arena capacity used by live items.  The Go code computes it in `float32`;
it is rendered here in exact rational arithmetic. -/
def itemsMemUsage (kv : KVHolder) : ℚ :=
  ((kv.valUsed + kv.items * 20 + 4 : Nat) : ℚ) / (kv.cap : ℚ)

/-- `kvHolder.garbageUsage` (modelled from the spec):
`garbage = tail − (items*20 + val_used)`, as a fraction of the capacity. -/
def garbageUsage (kv : KVHolder) : ℚ :=
  ((kv.tail - (kv.items * 20 + kv.valUsed) : Nat) : ℚ) / (kv.cap : ℚ)

/-! ### The rebuild loop shared by `rehash` and `GCCopy` -/

/-- `LFUMap.nextSize` (src/unnamed/part_002 lines 911-918):
`ceil(G * 1.2)` new groups, or `G` when `dead ≥ resident/2`.  The Go code
computes the ceiling in `float64`; it is rendered as the exact
`⌈6G/5⌉ = (6G+4)/5`. -/
def nextSize (m : Shard) : Nat :=
  let n := (6 * m.groups.length + 4) / 5
  if m.dead ≥ m.resident / 2 then m.groups.length else n

/-- `kvHolder.gcSet` (modelled from the spec): append `key` and `value` to
the arena exactly as `RePut`'s insert path does, and return the Word-A
descriptor.  (The capacity check is elided: rehash / GCCopy copy into a
fresh arena of the old capacity.) -/
def gcSet (kv : KVHolder) (key value : List Nat) : KVHolder × Nat :=
  let lv := value.length
  let kEnd := kv.tail + 16
  let vOffset := kEnd + 4
  if lv ≥ overLongSize then
    let vCap := Cap4Size lv + 4
    let d1 := writeBytes kv.data kv.tail key
    let d2 := store32 d1 vOffset lv
    let d3 := writeBytes d2 (vOffset + 4) value
    let d4 := store32 d3 kEnd (vOffset / storeUintBytes + overLongStoreHeaderL)
    ({ kv with data := d4, tail := kv.tail + 20 + vCap
               items := kv.items + 1, valUsed := kv.valUsed + vCap },
      kv.tail / storeUintBytes + overLongStoreHeaderH + mapTypeHeader)
  else if lv ≥ overShortSize then
    let vCap := Cap4Size lv
    let d1 := writeBytes kv.data kv.tail key
    let d2 := writeBytes d1 vOffset value
    let d3 := store32 d2 kEnd (vOffset / 4 + lv % 256 * 16777216)
    ({ kv with data := d3, tail := kv.tail + 20 + vCap
               items := kv.items + 1, valUsed := kv.valUsed + vCap },
      kv.tail / 4 + lv / 256 * 16777216 + mapTypeHeader)
  else
    let vCap := Cap4Size lv
    let d1 := writeBytes kv.data kv.tail key
    let d2 := writeBytes d1 vOffset value
    let d3 := store32 d2 kEnd (vOffset / 4 + lv * 16777216)
    ({ kv with data := d3, tail := kv.tail + 20 + vCap
               items := kv.items + 1, valUsed := kv.valUsed + vCap },
      kv.tail / 4 + vCap / 4 * 16777216)

/-- The empty-slot probe of the rebuild loops (src/unnamed/part_002 lines
941-955 and 1060-1073): scan groups from `g` with wrap-around for the first
group with an EMPTY slot. -/
def probeEmptyLoop (ctrl : List (List Int)) (gl : Nat) :
    Nat → Nat → Option (Nat × Nat)
  | 0, _ => none
  | fuel + 1, g =>
    match firstEmptySlot (ctrl.getD g []) with
    | some s => some (g, s)
    | none => probeEmptyLoop ctrl gl fuel (if g + 1 ≥ gl then 0 else g + 1)

/-- The accumulator of the rebuild loops: the new parallel arrays, the new
arena, and the number of re-inserted records. -/
structure CopyAcc where
  ctrl : List (List Int)
  counters : List (List Nat)
  groups : List (List Nat)
  kv : KVHolder
  res : Nat

/-- Fresh rebuild arrays: `n` empty groups and a fresh arena. -/
def initCopyAcc (n cap : Nat) : CopyAcc :=
  { ctrl := List.replicate n (List.replicate groupSize emptyByte)
    counters := List.replicate n (List.replicate groupSize 0)
    groups := List.replicate n (List.replicate groupSize 0)
    kv := newKVHolder cap, res := 0 }

/-- The `(ctrl byte, Word A, counter)` triples of every slot of the old
table, in the iteration order of the rebuild loops. -/
def slotEntries (m : Shard) : List (Int × Nat × Nat) :=
  (List.range m.ctrl.length).flatMap fun g =>
    (List.range (m.ctrl.getD g []).length).map fun s =>
      ((m.ctrl.getD g []).getD s emptyByte,
       (m.groups.getD g []).getD s 0,
       (m.counters.getD g []).getD s 0)

/-- One iteration of the rebuild loop (src/unnamed/part_002 lines 930-957):
skip EMPTY / TOMBSTONE slots; otherwise read the key/value, re-hash the
key, probe the new table for an empty slot and re-insert, preserving the
counter.  (Fuel exhaustion of the inner probe — impossible when the new
table has an empty slot, as proved below — skips the record.) -/
def copyStep (hashFn : List Nat → Nat) (oldData : Nat → Nat) (n : Nat)
    (acc : CopyAcc) (e : Int × Nat × Nat) : CopyAcc :=
  if e.1 = emptyByte ∨ e.1 = tombByte then acc
  else
    let k := getKey oldData e.2.1
    let v := readVal oldData e.2.1
    let l := hashFn k
    match probeEmptyLoop acc.ctrl n n (probeStart (splitHash l).1 n) with
    | some gs =>
        let p := gcSet acc.kv k v
        { ctrl := setSlot acc.ctrl gs.1 gs.2 (h2i l)
          counters := setSlot acc.counters gs.1 gs.2 e.2.2
          groups := setSlot acc.groups gs.1 gs.2 p.2
          kv := p.1, res := acc.res + 1 }
    | none => acc

/-- The whole rebuild loop. -/
def copyAll (hashFn : List Nat → Nat) (oldData : Nat → Nat) (n : Nat)
    (es : List (Int × Nat × Nat)) (acc0 : CopyAcc) : CopyAcc :=
  es.foldl (copyStep hashFn oldData n) acc0

/-- `LFUMap.rehash` (src/unnamed/part_002 lines 920-968): rebuild into
`nextSize` groups with a fresh arena, preserving counters; afterwards
`limit = n * maxAvgGroupLoad`, `resident` is the number of re-inserted
records and `dead = 0`.  `hashFn` is the MD5-derived 64-bit key hash
(`md5hash.MD5HL`), abstracted as a parameter. -/
def rehash (hashFn : List Nat → Nat) (m : Shard) : Shard :=
  let n := nextSize m
  let acc := copyAll hashFn m.kv.data n (slotEntries m) (initCopyAcc n m.kv.cap)
  { m with groups := acc.groups, ctrl := acc.ctrl, counters := acc.counters
           kv := acc.kv, limit := n * maxAvgGroupLoad
           resident := acc.res, dead := 0 }

/-- `LFUMap.GCCopy` (src/unnamed/part_002 lines 1024-1089): same rebuild
with unchanged dimensions, gated by the garbage ratio and the single-flight
flag; returns `(deadCount, gcMem, skipReason)` and sets
`resident = resident - dead`, `dead = 0`. -/
def GCCopy (hashFn : List Nat → Nat) (gr : ℚ) (m : Shard) :
    Nat × Nat × Nat × Shard :=
  if garbageUsage m.kv < gr then (0, 0, skipReason1, m)
  else if m.rehashing then (0, 0, skipReason2, m)
  else
    let oldUsed := m.kv.tail
    let n := m.groups.length
    let acc := copyAll hashFn m.kv.data n (slotEntries m) (initCopyAcc n m.kv.cap)
    let m2 : Shard := { m with groups := acc.groups, ctrl := acc.ctrl
                               counters := acc.counters, kv := acc.kv
                               resident := m.resident - m.dead, dead := 0 }
    (m.dead, oldUsed - m2.kv.tail, 0, m2)

/-! ### `RePut` -/

/-- The update block of `RePut` once the key has been matched at `(g, s)`
(src/unnamed/part_002 lines 590-711).  The medium / in-place / generic
branches are verbatim those of `Put`; there is no `limitSize` rejection,
and the long branch lays the value out at `tail` with
`ntail = tail + 4 + vCap` (against `Put`'s `tail + 20 + vCap`). -/
def rePutUpdate (m : Shard) (g s : Nat) (value : List Nat) : Bool × Shard :=
  let w := (m.groups.getD g []).getD s 0
  let kOffset := offsetOf w * 4
  let kEnd := kOffset + 16
  let vHeader := load32 m.kv.data kEnd
  let vType := valTypeOf w
  let lv := value.length
  if lv ≥ overLongSize then
    -- long-value append (lines 596-630)
    let vCap := Cap4Size lv + 4
    let vu := m.kv.valUsed - oldValCap m.kv.data w vHeader
    let vOffset := m.kv.tail + 4
    let ntail := vOffset + vCap
    if ntail > m.kv.cap then
      (false, tombstoneSlot m g s (oldValCap m.kv.data w vHeader) false)
    else
      let d1 := store32 m.kv.data m.kv.tail lv
      let d2 := writeBytes d1 vOffset value
      let d3 := store32 d2 kEnd (m.kv.tail / storeUintBytes + overLongStoreHeaderL)
      (true, { m with
        groups := setSlot m.groups g s (kOffset / storeUintBytes + overLongStoreHeaderH + mapTypeHeader)
        kv := { m.kv with data := d3, tail := ntail, valUsed := vu + vCap } })
  else if lv ≥ overShortSize then
    -- medium-value append (lines 631-666)
    let vCap := Cap4Size lv
    let ntail := m.kv.tail + vCap
    let vu := m.kv.valUsed - oldValCap m.kv.data w vHeader
    if ntail > m.kv.cap then
      (false, tombstoneSlot m g s (oldValCap m.kv.data w vHeader) false)
    else
      let vBig := lv / 256 % 128
      let vSmall := lv % 256
      let d1 := writeBytes m.kv.data m.kv.tail value
      let d2 := store32 d1 kEnd (m.kv.tail / 4 + vSmall * 16777216)
      (true, { m with
        groups := setSlot m.groups g s (kOffset / 4 + vBig * 16777216 + mapTypeHeader)
        kv := { m.kv with data := d2, tail := ntail, valUsed := vu + vCap } })
  else if vType = 0 ∧ lv ≤ capOrBigSizeOf w * 4 then
    -- in-place update fast path (lines 667-673)
    let vOffset := offsetOf vHeader
    let d1 := store32 m.kv.data kEnd (vOffset + lv * 16777216)
    let d2 := writeBytes d1 (vOffset * 4) value
    (true, { m with kv := { m.kv with data := d2 } })
  else
    -- generic append (lines 674-708)
    let vCap := Cap4Size lv
    let ntail := m.kv.tail + vCap
    let vu := m.kv.valUsed - oldValCap m.kv.data w vHeader
    if ntail > m.kv.cap then
      (false, tombstoneSlot m g s (oldValCap m.kv.data w vHeader) true)
    else
      let d1 := writeBytes m.kv.data m.kv.tail value
      let d2 := store32 d1 kEnd (m.kv.tail / 4 + lv * 16777216)
      (true, { m with
        groups := setSlot m.groups g s (kOffset / 4 + vCap / 4 * 16777216)
        kv := { m.kv with data := d2, tail := ntail, valUsed := vu + vCap } })

/-- The insert block of `RePut` at the first empty slot `(g, s)`
(src/unnamed/part_002 lines 714-807): write key, 4-byte Word B, and value
(with a 4-byte length prefix for long values) at `tail`; set the
descriptor, the `H2` control byte, counter 1; bump `items` and
`resident`. -/
def rePutInsert (m : Shard) (l : Nat) (g s : Nat) (key value : List Nat) : Bool × Shard :=
  let lv := value.length
  let kEnd := m.kv.tail + 16
  let vOffset := kEnd + 4
  if lv ≥ overLongSize then
    -- long-value insert (lines 719-746)
    let vCap := Cap4Size lv + 4
    let ntail := m.kv.tail + 20 + vCap
    if ntail > m.kv.cap then (false, m)
    else
      let d1 := writeBytes m.kv.data m.kv.tail key
      let d2 := store32 d1 vOffset lv
      let d3 := writeBytes d2 (vOffset + 4) value
      let d4 := store32 d3 kEnd (vOffset / storeUintBytes + overLongStoreHeaderL)
      (true, { m with
        groups := setSlot m.groups g s (m.kv.tail / storeUintBytes + overLongStoreHeaderH + mapTypeHeader)
        ctrl := setSlot m.ctrl g s (h2i l)
        counters := setSlot m.counters g s 1
        resident := m.resident + 1
        kv := { m.kv with data := d4, tail := ntail
                          items := m.kv.items + 1, valUsed := m.kv.valUsed + vCap } })
  else if lv ≥ overShortSize then
    -- medium-value insert (lines 747-776)
    let vCap := Cap4Size lv
    let ntail := m.kv.tail + 20 + vCap
    if ntail > m.kv.cap then (false, m)
    else
      let vBig := lv / 256
      let vSmall := lv % 256
      let d1 := writeBytes m.kv.data m.kv.tail key
      let d2 := writeBytes d1 vOffset value
      let d3 := store32 d2 kEnd (vOffset / 4 + vSmall * 16777216)
      (true, { m with
        groups := setSlot m.groups g s (m.kv.tail / 4 + vBig * 16777216 + mapTypeHeader)
        ctrl := setSlot m.ctrl g s (h2i l)
        counters := setSlot m.counters g s 1
        resident := m.resident + 1
        kv := { m.kv with data := d3, tail := ntail
                          items := m.kv.items + 1, valUsed := m.kv.valUsed + vCap } })
  else
    -- small-inline insert (lines 777-806)
    let vCap := Cap4Size lv
    let ntail := m.kv.tail + 20 + vCap
    if ntail > m.kv.cap then (false, m)
    else
      let vSmall := lv
      let d1 := writeBytes m.kv.data m.kv.tail key
      let d2 := writeBytes d1 vOffset value
      let d3 := store32 d2 kEnd (vOffset / 4 + vSmall * 16777216)
      (true, { m with
        groups := setSlot m.groups g s (m.kv.tail / 4 + vCap / 4 * 16777216)
        ctrl := setSlot m.ctrl g s (h2i l)
        counters := setSlot m.counters g s 1
        resident := m.resident + 1
        kv := { m.kv with data := d3, tail := ntail
                          items := m.kv.items + 1, valUsed := m.kv.valUsed + vCap } })

/-- `LFUMap.RePut` (src/unnamed/part_002 lines 567-813): insert-or-update.
Rejects when `tail ≥ kv.limit` or a rebuild is in flight; rehashes first
when `resident ≥ limit`; then updates an existing key via `rePutUpdate` or
inserts at the first empty slot of the terminating group. -/
def RePut (hashFn : List Nat → Nat) (m : Shard) (l : Nat) (key value : List Nat) :
    Bool × Shard :=
  if m.kv.tail ≥ m.kv.limit then (false, m)
  else if m.rehashing then (false, m)
  else
    let m1 := if m.resident ≥ m.limit then rehash hashFn m else m
    match probeShard m1 l key with
    | .found g s => rePutUpdate m1 g s value
    | .missAt g s => rePutInsert m1 l g s key value
    | .nofuel => (false, m1)

/-! ### `PutMultiValue` -/

/-- Go's sequential `copy` of each chunk of `vals` starting at `off`. -/
def writeVals (d : Nat → Nat) (off : Nat) (vals : List (List Nat)) : Nat → Nat :=
  (vals.foldl (fun p vv => (writeBytes p.1 p.2 vv, p.2 + vv.length)) (d, off)).1

/-- The update block of `PutMultiValue` (src/unnamed/part_002 lines
396-549): as `putUpdate`, with the declared length `vlen` driving the
bookkeeping and the chunks of `vals` written back to back. -/
def putMultiUpdate (m : Shard) (g s : Nat) (vlen : Nat) (vals : List (List Nat)) :
    Bool × Shard :=
  let w := (m.groups.getD g []).getD s 0
  let kOffset := offsetOf w * 4
  let kEnd := kOffset + 16
  let vHeader := load32 m.kv.data kEnd
  let vType := valTypeOf w
  if vlen ≥ limitSize then
    (false, tombstoneSlot m g s (oldValCap m.kv.data w vHeader) false)
  else if vlen ≥ overLongSize then
    let vCap := Cap4Size vlen + 4
    let ntail := m.kv.tail + 20 + vCap
    let vu := m.kv.valUsed - oldValCap m.kv.data w vHeader
    if ntail > m.kv.cap then
      (false, tombstoneSlot m g s (oldValCap m.kv.data w vHeader) false)
    else
      let vOffset := m.kv.tail
      let d1 := store32 m.kv.data vOffset vlen
      let d2 := writeVals d1 (vOffset + 4) vals
      let d3 := store32 d2 kEnd (vOffset / storeUintBytes + overLongStoreHeaderL)
      (true, { m with
        groups := setSlot m.groups g s (kOffset / storeUintBytes + overLongStoreHeaderH + mapTypeHeader)
        kv := { m.kv with data := d3, tail := ntail, valUsed := vu + vCap } })
  else if vlen ≥ overShortSize then
    let vCap := Cap4Size vlen
    let ntail := m.kv.tail + vCap
    let vu := m.kv.valUsed - oldValCap m.kv.data w vHeader
    if ntail > m.kv.cap then
      (false, tombstoneSlot m g s (oldValCap m.kv.data w vHeader) false)
    else
      let vBig := vlen / 256 % 128
      let vSmall := vlen % 256
      let d1 := writeVals m.kv.data m.kv.tail vals
      let d2 := store32 d1 kEnd (m.kv.tail / 4 + vSmall * 16777216)
      (true, { m with
        groups := setSlot m.groups g s (kOffset / 4 + vBig * 16777216 + mapTypeHeader)
        kv := { m.kv with data := d2, tail := ntail, valUsed := vu + vCap } })
  else if vType = 0 ∧ vlen ≤ capOrBigSizeOf w * 4 then
    let vOffset := offsetOf vHeader
    let d1 := store32 m.kv.data kEnd (vOffset + vlen * 16777216)
    let d2 := writeVals d1 (vOffset * 4) vals
    (true, { m with kv := { m.kv with data := d2 } })
  else
    let vCap := Cap4Size vlen
    let ntail := m.kv.tail + vCap
    let vu := m.kv.valUsed - oldValCap m.kv.data w vHeader
    if ntail > m.kv.cap then
      (false, tombstoneSlot m g s (oldValCap m.kv.data w vHeader) true)
    else
      let d1 := writeVals m.kv.data m.kv.tail vals
      let d2 := store32 d1 kEnd (m.kv.tail / 4 + vlen * 16777216)
      (true, { m with
        groups := setSlot m.groups g s (kOffset / 4 + vCap / 4 * 16777216)
        kv := { m.kv with data := d2, tail := ntail, valUsed := vu + vCap } })

/-- `LFUMap.PutMultiValue` (src/unnamed/part_002 lines 388-565):
update-only gather-write of `vals` with declared total length `vlen`. -/
def PutMultiValue (m : Shard) (l : Nat) (key : List Nat) (vlen : Nat)
    (vals : List (List Nat)) : Bool × Shard :=
  match probeShard m l key with
  | .found g s => putMultiUpdate m g s vlen vals
  | .missAt _ _ => (false, m)
  | .nofuel => (false, m)

/-! ### `Eliminate` -/

/-- The occupied (non-EMPTY, non-TOMBSTONE) slot coordinates of the
table. -/
def occCoords (ctrl : List (List Int)) : List (Nat × Nat) :=
  (List.range ctrl.length).flatMap fun g =>
    (List.range 16).filterMap fun s =>
      let b := (ctrl.getD g []).getD s emptyByte
      if b ≠ emptyByte ∧ b ≠ tombByte then some (g, s) else none

/-- Insertion into a list kept sorted by `key` (ascending, stable). -/
def insertSorted (key : Nat × Nat → Nat) (c : Nat × Nat) :
    List (Nat × Nat) → List (Nat × Nat)
  | [] => [c]
  | d :: ds => if key c ≤ key d then c :: d :: ds else d :: insertSorted key c ds

/-- Insertion sort by `key`. -/
def sortByKey (key : Nat × Nat → Nat) (l : List (Nat × Nat)) : List (Nat × Nat) :=
  l.foldr (insertSorted key) []

/-- `BuildMinTopCounter` (modelled from the spec): the `n` occupied slots
with the smallest counters, together with the threshold — the largest
counter among the chosen slots. -/
def BuildMinTopCounter (ctrl : List (List Int)) (counters : List (List Nat))
    (n : Nat) : List (Nat × Nat) × Nat :=
  let key := fun c : Nat × Nat => (counters.getD c.1 []).getD c.2 0
  let taken := (sortByKey key (occCoords ctrl)).take n
  (taken, taken.foldl (fun a c => max a (key c)) 0)

/-- One iteration of `Eliminate`'s drop loop (src/unnamed/part_002 lines
997-1009): skip slots already EMPTY / TOMBSTONE, otherwise mark the record
dead, clear the descriptor, tombstone the control byte and count the
drop. -/
def elimStep (p : Shard × Nat) (c : Nat × Nat) : Shard × Nat :=
  if (p.1.ctrl.getD c.1 []).getD c.2 emptyByte = tombByte ∨
      (p.1.ctrl.getD c.1 []).getD c.2 emptyByte = emptyByte then p
  else
    ({ p.1 with kv := kvDel p.1.kv ((p.1.groups.getD c.1 []).getD c.2 0)
                groups := setSlot p.1.groups c.1 c.2 0
                ctrl := setSlot p.1.ctrl c.1 c.2 tombByte
                dead := p.1.dead + 1 }, p.2 + 1)

/-- `LFUMap.Eliminate` (src/unnamed/part_002 lines 975-1022): three guards
(hit rate, memory pressure, zero drop count) each skip with a reason code;
otherwise the chosen low-frequency slots are tombstoned and every counter
decays by the saturating subtraction of the threshold.  The Go guards are
`float32` arithmetic, rendered here in exact rational arithmetic.  Returns
`(delCount, skipReason)` beside the new state. -/
def Eliminate (emr estart eend : ℚ) (m : Shard) : Nat × Nat × Shard :=
  if m.queryCnt > 0 ∧ (m.missCnt : ℚ) / (m.queryCnt : ℚ) < emr then
    (0, skipReason1, m)
  else if itemsMemUsage m.kv < estart then
    (0, skipReason2, m)
  else
    let n := (((m.kv.items : ℚ) * (estart - eend) / estart).ceil).toNat
    if n = 0 then (0, skipReason3, m)
    else
      let bt := BuildMinTopCounter m.ctrl m.counters n
      let p := bt.1.foldl elimStep (m, 0)
      let m3 : Shard :=
        { p.1 with counters := p.1.counters.map (fun row => row.map (fun c => c - bt.2)) }
      (p.2, 0, m3)

/-! ### Operation sequences -/

/-- One shard operation, for stating invariants over arbitrary operation
sequences. -/
inductive ShardOp where
  | putOp (l : Nat) (k v : List Nat)
  | putMultiOp (l : Nat) (k : List Nat) (vlen : Nat) (vals : List (List Nat))
  | rePutOp (l : Nat) (k v : List Nat)
  | delOp (l : Nat) (k : List Nat)
  | elimOp (emr estart eend : ℚ)
  | gcOp (gr : ℚ)
  | rehashOp
  | clearOp

/-- Apply one operation, discarding its result. -/
def applyOp (hashFn : List Nat → Nat) (m : Shard) : ShardOp → Shard
  | .putOp l k v => (Put m l k v).2
  | .putMultiOp l k vlen vals => (PutMultiValue m l k vlen vals).2
  | .rePutOp l k v => (RePut hashFn m l k v).2
  | .delOp l k => (Delete m l k).2
  | .elimOp a b c => (Eliminate a b c m).2.2
  | .gcOp gr => (GCCopy hashFn gr m).2.2.2
  | .rehashOp => rehash hashFn m
  | .clearOp => Clear m

/-! ## Basic list lemmas -/

theorem getD_set_self {α : Type} (l : List α) (i : Nat) (a d : α)
    (h : i < l.length) : (l.set i a).getD i d = a := by
  induction l generalizing i with
  | nil => simp at h
  | cons x xs ih =>
    cases i with
    | zero => simp
    | succ n =>
      simp only [List.set, List.getD_cons_succ]
      exact ih n (by simpa using h)

theorem getD_set_ne {α : Type} (l : List α) (i j : Nat) (a d : α)
    (h : i ≠ j) : (l.set i a).getD j d = l.getD j d := by
  induction l generalizing i j with
  | nil => simp
  | cons x xs ih =>
    cases i with
    | zero => cases j with
      | zero => exact absurd rfl h
      | succ m => simp
    | succ n =>
      cases j with
      | zero => simp
      | succ m =>
        simp only [List.set, List.getD_cons_succ]
        exact ih n m (fun hnm => h (by omega))

/-! ## Arena lemmas -/

theorem writeBytes_eq_of_lt (bs : List Nat) (d : Nat → Nat) (off j : Nat)
    (h : j < off) : writeBytes d off bs j = d j := by
  induction bs generalizing d off with
  | nil => rfl
  | cons b bs ih =>
    simp only [writeBytes]
    rw [ih _ _ (by omega)]
    unfold upd
    rw [if_neg (by omega : ¬ j = off)]

theorem writeBytes_eq_of_ge (bs : List Nat) (d : Nat → Nat) (off j : Nat)
    (h : off + bs.length ≤ j) : writeBytes d off bs j = d j := by
  induction bs generalizing d off with
  | nil => rfl
  | cons b bs ih =>
    simp only [List.length_cons] at h
    simp only [writeBytes]
    rw [ih _ _ (by omega)]
    unfold upd
    rw [if_neg (by omega : ¬ j = off)]

theorem readBytes_congr (n : Nat) (d d' : Nat → Nat) (off : Nat)
    (h : ∀ j, off ≤ j → j < off + n → d j = d' j) :
    readBytes d off n = readBytes d' off n := by
  induction n generalizing off with
  | zero => rfl
  | succ n ih =>
    simp only [readBytes]
    rw [h off (by omega) (by omega), ih (off + 1) (fun j h1 h2 => h j (by omega) (by omega))]

theorem writeBytes_apply (bs : List Nat) (d : Nat → Nat) (off i : Nat)
    (h : i < bs.length) : writeBytes d off bs (off + i) = bs.getD i 0 := by
  induction bs generalizing d off i with
  | nil => simp at h
  | cons b bs ih =>
    cases i with
    | zero =>
      simp only [writeBytes, Nat.add_zero, List.getD_cons_zero]
      rw [writeBytes_eq_of_lt _ _ _ _ (by omega)]
      simp [upd]
    | succ n =>
      simp only [writeBytes, List.getD_cons_succ]
      rw [show off + (n + 1) = (off + 1) + n by omega]
      exact ih _ _ _ (by simpa using h)

theorem readBytes_writeBytes_self (bs : List Nat) (d : Nat → Nat) (off : Nat) :
    readBytes (writeBytes d off bs) off bs.length = bs := by
  induction bs generalizing d off with
  | nil => rfl
  | cons b bs ih =>
    simp only [writeBytes, List.length_cons, readBytes]
    rw [writeBytes_eq_of_lt _ _ _ _ (by omega), ih]
    simp [upd]

theorem store32_eq_of_lt (d : Nat → Nat) (off v j : Nat) (h : j < off) :
    store32 d off v j = d j := writeBytes_eq_of_lt _ _ _ _ h

theorem store32_eq_of_ge (d : Nat → Nat) (off v j : Nat) (h : off + 4 ≤ j) :
    store32 d off v j = d j := writeBytes_eq_of_ge _ _ _ _ h

theorem load32_congr (d d' : Nat → Nat) (off : Nat)
    (h : ∀ j, off ≤ j → j < off + 4 → d j = d' j) :
    load32 d off = load32 d' off := by
  unfold load32
  rw [h off (by omega) (by omega), h (off + 1) (by omega) (by omega),
    h (off + 2) (by omega) (by omega), h (off + 3) (by omega) (by omega)]

theorem store32_apply (d : Nat → Nat) (off v i : Nat) (h : i < 4) :
    store32 d off v (off + i) =
      [v % 256, v / 256 % 256, v / 65536 % 256, v / 16777216 % 256].getD i 0 := by
  unfold store32
  exact writeBytes_apply _ _ _ _ (by simpa using h)

theorem load32_store32_self (d : Nat → Nat) (off v : Nat) :
    load32 (store32 d off v) off = v % 4294967296 := by
  unfold load32
  have h0 := store32_apply d off v 0 (by norm_num)
  have h1 := store32_apply d off v 1 (by norm_num)
  have h2 := store32_apply d off v 2 (by norm_num)
  have h3 := store32_apply d off v 3 (by norm_num)
  simp only [List.getD_cons_zero, List.getD_cons_succ, Nat.add_zero] at h0 h1 h2 h3
  rw [h0, h1, h2, h3]
  omega

/-! ## Probe lemmas -/

theorem scanSlots_some (p : Nat → Bool) :
    ∀ fuel s t, scanSlots p fuel s = some t → s ≤ t ∧ t < s + fuel ∧ p t = true := by
  intro fuel
  induction fuel with
  | zero => intro s t h; simp [scanSlots] at h
  | succ n ih =>
    intro s t h
    unfold scanSlots at h
    by_cases hp : p s
    · rw [if_pos hp] at h
      cases h
      exact ⟨Nat.le_refl _, by omega, hp⟩
    · rw [if_neg hp] at h
      obtain ⟨h1, h2, h3⟩ := ih (s + 1) t h
      exact ⟨by omega, by omega, h3⟩

theorem scanSlots_none (p : Nat → Bool) :
    ∀ fuel s, scanSlots p fuel s = none → ∀ t, s ≤ t → t < s + fuel → p t = false := by
  intro fuel
  induction fuel with
  | zero => intro s _ t h1 h2; omega
  | succ n ih =>
    intro s h t h1 h2
    unfold scanSlots at h
    by_cases hp : p s
    · rw [if_pos hp] at h; cases h
    · rw [if_neg hp] at h
      rcases Nat.eq_or_lt_of_le h1 with h1 | h1
      · rw [← h1]; exact Bool.of_not_eq_true hp
      · exact ih (s + 1) h t h1 (by omega)

theorem findKeyInGroup_some (d : Nat → Nat) (cg : List Int) (gv : List Nat)
    (lo : Int) (key : List Nat) (s : Nat)
    (h : findKeyInGroup d cg gv lo key = some s) :
    s < 16 ∧ cg.getD s emptyByte = lo ∧ getKey d (gv.getD s 0) = key := by
  obtain ⟨h1, h2, h3⟩ := scanSlots_some _ _ _ _ h
  simp only [Bool.and_eq_true, decide_eq_true_eq] at h3
  exact ⟨by omega, h3.1, h3.2⟩

theorem firstEmptySlot_some (cg : List Int) (s : Nat)
    (h : firstEmptySlot cg = some s) :
    s < 16 ∧ cg.getD s emptyByte = emptyByte := by
  obtain ⟨h1, h2, h3⟩ := scanSlots_some _ _ _ _ h
  simp only [decide_eq_true_eq] at h3
  exact ⟨by omega, h3⟩

theorem probeLoop_found (ctrl : List (List Int)) (groups : List (List Nat))
    (d : Nat → Nat) (key : List Nat) (lo : Int) (gl : Nat) :
    ∀ fuel g g' s', probeLoop ctrl groups d key lo gl fuel g = .found g' s' →
      findKeyInGroup d (ctrl.getD g' []) (groups.getD g' []) lo key = some s' := by
  intro fuel
  induction fuel with
  | zero => intro g g' s' h; simp [probeLoop] at h
  | succ n ih =>
    intro g g' s' h
    unfold probeLoop at h
    rcases hf : findKeyInGroup d (ctrl.getD g []) (groups.getD g []) lo key with _ | s
    · rw [hf] at h
      rcases he : firstEmptySlot (ctrl.getD g []) with _ | s
      · rw [he] at h
        exact ih _ _ _ h
      · rw [he] at h; cases h
    · rw [hf] at h
      cases h
      exact hf

theorem probeLoop_missAt (ctrl : List (List Int)) (groups : List (List Nat))
    (d : Nat → Nat) (key : List Nat) (lo : Int) (gl : Nat) :
    ∀ fuel g g' s', probeLoop ctrl groups d key lo gl fuel g = .missAt g' s' →
      findKeyInGroup d (ctrl.getD g' []) (groups.getD g' []) lo key = none ∧
        firstEmptySlot (ctrl.getD g' []) = some s' := by
  intro fuel
  induction fuel with
  | zero => intro g g' s' h; simp [probeLoop] at h
  | succ n ih =>
    intro g g' s' h
    unfold probeLoop at h
    rcases hf : findKeyInGroup d (ctrl.getD g []) (groups.getD g []) lo key with _ | s
    · rw [hf] at h
      rcases he : firstEmptySlot (ctrl.getD g []) with _ | s
      · rw [he] at h
        exact ih _ _ _ h
      · rw [he] at h
        cases h
        exact ⟨hf, he⟩
    · rw [hf] at h; cases h

theorem probeLoop_bounds (ctrl : List (List Int)) (groups : List (List Nat))
    (d : Nat → Nat) (key : List Nat) (lo : Int) (gl : Nat) (hgl : 0 < gl) :
    ∀ fuel g g' s', g < gl →
      (probeLoop ctrl groups d key lo gl fuel g = .found g' s' ∨
       probeLoop ctrl groups d key lo gl fuel g = .missAt g' s') → g' < gl := by
  intro fuel
  induction fuel with
  | zero => intro g g' s' hg h; rcases h with h | h <;> simp [probeLoop] at h
  | succ n ih =>
    intro g g' s' hg h
    have hnext : (if g + 1 ≥ gl then 0 else g + 1) < gl := by
      split <;> omega
    rcases h with h | h <;> unfold probeLoop at h <;>
      rcases hf : findKeyInGroup d (ctrl.getD g []) (groups.getD g []) lo key with _ | s <;>
        rw [hf] at h
    · rcases he : firstEmptySlot (ctrl.getD g []) with _ | s <;> rw [he] at h
      · exact ih _ _ _ hnext (Or.inl h)
      · cases h
    · cases h; exact hg
    · rcases he : firstEmptySlot (ctrl.getD g []) with _ | s <;> rw [he] at h
      · exact ih _ _ _ hnext (Or.inr h)
      · cases h; exact hg
    · cases h

theorem probeShard_found (m : Shard) (l : Nat) (key : List Nat) (g s : Nat)
    (h : probeShard m l key = .found g s) :
    findKeyInGroup m.kv.data (m.ctrl.getD g []) (m.groups.getD g []) (h2i l) key = some s :=
  probeLoop_found _ _ _ _ _ _ _ _ _ _ h

theorem probeShard_missAt (m : Shard) (l : Nat) (key : List Nat) (g s : Nat)
    (h : probeShard m l key = .missAt g s) :
    findKeyInGroup m.kv.data (m.ctrl.getD g []) (m.groups.getD g []) (h2i l) key = none ∧
      firstEmptySlot (m.ctrl.getD g []) = some s :=
  probeLoop_missAt _ _ _ _ _ _ _ _ _ _ h

/-! ## Concrete states for witnesses

A one-group shard holding the single key `wKey` (sixteen `7` bytes) at slot
`(0,0)` with a 2-byte small-inline value (descriptor offset 1, reserved
capacity 1 word); `tail = 28`. -/

def wKey : List Nat := List.replicate 16 7

def wKeyB : List Nat := List.replicate 16 8

def wState (cap : Nat) : Shard :=
  { ctrl := [(5 : Int) :: List.replicate 15 emptyByte]
    counters := [3 :: List.replicate 15 0]
    groups := [(16777217 : Nat) :: List.replicate 15 0]
    resident := 1, dead := 0, limit := 14
    kv := { data := fun j => if j < 4 then 0 else if j < 20 then 7
                    else if j = 20 then 6 else if j = 23 then 2 else 0
            tail := 28, cap := cap, limit := cap, items := 1, valUsed := 4 }
    queryCnt := 0, missCnt := 0, rehashing := false }

/-! ## C2 -/

/-- C2: if `Put`'s probe terminates at a group containing an empty slot
without having matched the key, `Put` returns `false` and inserts nothing —
the entire shard state (control bytes, counters, descriptors,
resident/dead, arena) is returned unchanged. -/
theorem c2_put_miss_changes_nothing (m : Shard) (l : Nat) (key value : List Nat)
    (g s : Nat) (h : probeShard m l key = .missAt g s) :
    Put m l key value = (false, m) := by
  unfold Put
  rw [h]

theorem c2_put_miss_changes_nothing_witness :
    probeShard (wState 100) 5 wKeyB = .missAt 0 1 ∧
      Put (wState 100) 5 wKeyB [9] = (false, wState 100) :=
  ⟨by decide, c2_put_miss_changes_nothing (wState 100) 5 wKeyB [9] 0 1 (by decide)⟩

/-! ## C10 -/

/-- C10: `Delete` of an absent key (the probe terminates at an empty slot
without a match) returns `false` and modifies nothing — `ctrl`, `counters`,
`groups`, `resident`, `dead`, the whole arena and the query/miss counters
are unchanged. -/
theorem c10_delete_absent_changes_nothing (m : Shard) (l : Nat) (key : List Nat)
    (g s : Nat) (h : probeShard m l key = .missAt g s) :
    Delete m l key = (false, m) := by
  unfold Delete
  rw [h]

theorem c10_delete_absent_changes_nothing_witness :
    probeShard (wState 100) 5 wKeyB = .missAt 0 1 ∧
      Delete (wState 100) 5 wKeyB = (false, wState 100) :=
  ⟨by decide, c10_delete_absent_changes_nothing (wState 100) 5 wKeyB 0 1 (by decide)⟩

/-! ## C4 -/

/-- C4: when `Put` on an existing key fails — the new value is oversize
(`≥ limitSize`) or the branch's arena reservation would push `tail` past
`cap` — it returns `false` and the slot is tombstoned: the control byte
becomes TOMBSTONE, `dead` grows by 1, the counter is zeroed and
`kv_holder.items` drops by 1. -/
theorem c4_put_fail_tombstones (m : Shard) (l : Nat) (key value : List Nat)
    (g s : Nat) (hf : probeShard m l key = .found g s)
    (hpos : 1 ≤ m.kv.items)
    (hfail : (Put m l key value).1 = false) :
    (Put m l key value).2.ctrl = setSlot m.ctrl g s tombByte ∧
    (Put m l key value).2.dead = m.dead + 1 ∧
    (Put m l key value).2.counters = setSlot m.counters g s 0 ∧
    (Put m l key value).2.kv.items + 1 = m.kv.items ∧
    (value.length ≥ limitSize ∨
      (value.length ≥ overLongSize ∧
        m.kv.tail + 20 + (Cap4Size value.length + 4) > m.kv.cap) ∨
      (overShortSize ≤ value.length ∧ value.length < overLongSize ∧
        m.kv.tail + Cap4Size value.length > m.kv.cap) ∨
      (value.length < overShortSize ∧
        m.kv.tail + Cap4Size value.length > m.kv.cap)) := by
  have hput : Put m l key value = putUpdate m g s value := by
    unfold Put; rw [hf]
  rw [hput] at hfail ⊢
  simp only [putUpdate] at hfail ⊢
  split_ifs at hfail ⊢ with h1 h2 h3 h4 h5 h6 h7 <;>
    simp_all [tombstoneSlot]

theorem c4_put_fail_tombstones_witness :
    probeShard (wState 28) 5 wKey = .found 0 0 ∧ 1 ≤ (wState 28).kv.items ∧
      (Put (wState 28) 5 wKey [9, 9, 9, 9, 9]).1 = false ∧
      (Put (wState 28) 5 wKey [9, 9, 9, 9, 9]).2.dead = (wState 28).dead + 1 :=
  ⟨by decide, by decide, by decide,
    (c4_put_fail_tombstones (wState 28) 5 wKey [9, 9, 9, 9, 9] 0 0
      (by decide) (by decide) (by decide)).2.1⟩

/-! ## C6 -/

/-- C6: `Delete` of a present key returns `true`, marks the arena record
dead (`items` drops by 1), zeroes the counter, and: if the slot's group
still contains an EMPTY control byte the slot becomes EMPTY and `resident`
drops by 1, otherwise it becomes TOMBSTONE and `dead` grows by 1. -/
theorem c6_delete_present (m : Shard) (l : Nat) (key : List Nat) (g s : Nat)
    (hf : probeShard m l key = .found g s)
    (hitems : 1 ≤ m.kv.items) (hres : 1 ≤ m.resident) :
    (Delete m l key).1 = true ∧
    (Delete m l key).2.kv.items + 1 = m.kv.items ∧
    (Delete m l key).2.counters = setSlot m.counters g s 0 ∧
    (if (firstEmptySlot (m.ctrl.getD g [])).isSome then
      (Delete m l key).2.ctrl = setSlot m.ctrl g s emptyByte ∧
      (Delete m l key).2.resident + 1 = m.resident ∧
      (Delete m l key).2.dead = m.dead
    else
      (Delete m l key).2.ctrl = setSlot m.ctrl g s tombByte ∧
      (Delete m l key).2.dead = m.dead + 1 ∧
      (Delete m l key).2.resident = m.resident) := by
  have hdel : Delete m l key =
      (let w := (m.groups.getD g []).getD s 0
       let m1 : Shard := { m with kv := kvDel m.kv w }
       if (firstEmptySlot (m.ctrl.getD g [])).isSome then
         (true, { m1 with ctrl := setSlot m.ctrl g s emptyByte
                          resident := m.resident - 1
                          counters := setSlot m.counters g s 0 })
       else
         (true, { m1 with ctrl := setSlot m.ctrl g s tombByte
                          dead := m.dead + 1
                          counters := setSlot m.counters g s 0 })) := by
    unfold Delete; rw [hf]
  rw [hdel]
  by_cases hE : (firstEmptySlot (m.ctrl.getD g [])).isSome <;>
    simp only [hE, if_true, if_false, kvDel] <;> simp <;> omega

theorem c6_delete_present_witness :
    probeShard (wState 100) 5 wKey = .found 0 0 ∧
      (Delete (wState 100) 5 wKey).1 = true ∧
      (Delete (wState 100) 5 wKey).2.resident + 1 = (wState 100).resident := by
  have h := c6_delete_present (wState 100) 5 wKey 0 0 (by decide) (by decide) (by decide)
  refine ⟨by decide, h.1, ?_⟩
  have hE : (firstEmptySlot ((wState 100).ctrl.getD 0 [])).isSome = true := by decide
  have h4 := h.2.2.2
  rw [if_pos hE] at h4
  exact h4.2.1

/-! ## C8 -/

/-- C8: the in-place fast path: `Put` of a new value with
`len < overShortSize` on a type-0 slot whose reserved capacity
(`capOrBigSize * 4`) suffices succeeds in place — it returns `true`, leaves
`tail` (hence `UsedMem`), `valUsed`, `items`, all control bytes, counters,
descriptors and `resident`/`dead` unchanged, and rewrites only the four
Word-B bytes after the key and the value bytes themselves. -/
theorem c8_put_inplace (m : Shard) (l : Nat) (key value : List Nat)
    (g s : Nat) (w kEnd vOff : Nat)
    (hf : probeShard m l key = .found g s)
    (hw : w = (m.groups.getD g []).getD s 0)
    (hkEnd : kEnd = offsetOf w * 4 + 16)
    (hvOff : vOff = offsetOf (load32 m.kv.data kEnd) * 4)
    (hty : valTypeOf w = 0)
    (hlen : value.length < overShortSize)
    (hcap : value.length ≤ capOrBigSizeOf w * 4) :
    (Put m l key value).1 = true ∧
    UsedMem (Put m l key value).2 = UsedMem m ∧
    (Put m l key value).2.kv.tail = m.kv.tail ∧
    (Put m l key value).2.kv.valUsed = m.kv.valUsed ∧
    (Put m l key value).2.kv.items = m.kv.items ∧
    (Put m l key value).2.ctrl = m.ctrl ∧
    (Put m l key value).2.counters = m.counters ∧
    (Put m l key value).2.groups = m.groups ∧
    (Put m l key value).2.resident = m.resident ∧
    (Put m l key value).2.dead = m.dead ∧
    (∀ j, (j < kEnd ∨ kEnd + 4 ≤ j) → (j < vOff ∨ vOff + value.length ≤ j) →
      (Put m l key value).2.kv.data j = m.kv.data j) := by
  have hput : Put m l key value = putUpdate m g s value := by
    unfold Put; rw [hf]
  have h1 : ¬ value.length ≥ limitSize := by
    unfold overShortSize at hlen; unfold limitSize; omega
  have h2 : ¬ value.length ≥ overLongSize := by
    unfold overShortSize at hlen; unfold overLongSize; omega
  have h3 : ¬ value.length ≥ overShortSize := by omega
  have hstate : putUpdate m g s value = (true, { m with kv := { m.kv with
      data := writeBytes (store32 m.kv.data kEnd
        (offsetOf (load32 m.kv.data kEnd) + value.length * 16777216)) vOff value } }) := by
    simp only [putUpdate]
    rw [← hw, if_neg h1, if_neg h2, if_neg h3, if_pos (And.intro hty hcap),
      ← hkEnd, ← hvOff]
  rw [hput, hstate]
  refine ⟨rfl, rfl, rfl, rfl, rfl, rfl, rfl, rfl, rfl, rfl, ?_⟩
  intro j hj1 hj2
  show writeBytes (store32 m.kv.data kEnd
      (offsetOf (load32 m.kv.data kEnd) + value.length * 16777216)) vOff value j
      = m.kv.data j
  rcases hj2 with hj2 | hj2
  · rw [writeBytes_eq_of_lt _ _ _ _ hj2]
    rcases hj1 with hj1 | hj1
    · exact store32_eq_of_lt _ _ _ _ (by omega)
    · exact store32_eq_of_ge _ _ _ _ (by omega)
  · rw [writeBytes_eq_of_ge _ _ _ _ hj2]
    rcases hj1 with hj1 | hj1
    · exact store32_eq_of_lt _ _ _ _ (by omega)
    · exact store32_eq_of_ge _ _ _ _ (by omega)

/-! ## C3 -/

/-- The update blocks of `RePut` and `Put` coincide for values below
`overLongSize`: after discharging `Put`'s `limitSize` and `overLongSize`
branches, the remaining medium / in-place / generic branches are
identical. -/
theorem rePutUpdate_eq_putUpdate (m : Shard) (g s : Nat) (value : List Nat)
    (hlen : value.length < overLongSize) :
    rePutUpdate m g s value = putUpdate m g s value := by
  have h1 : ¬ value.length ≥ limitSize := by
    unfold overLongSize at hlen; unfold limitSize; omega
  have h2 : ¬ value.length ≥ overLongSize := by omega
  simp only [rePutUpdate, putUpdate, if_neg h1, if_neg h2]

/-- In the long-value update branch, a successful `Put` advances `tail` to
`tail + 20 + (Cap4Size lv + 4)` (src/unnamed/part_002 lines 257-292). -/
theorem putUpdate_long_tail (m : Shard) (g s : Nat) (value : List Nat)
    (hnl : ¬ value.length ≥ limitSize) (hlong : value.length ≥ overLongSize)
    (hfit : ¬ m.kv.tail + 20 + (Cap4Size value.length + 4) > m.kv.cap) :
    (putUpdate m g s value).1 = true ∧
    (putUpdate m g s value).2.kv.tail = m.kv.tail + 20 + (Cap4Size value.length + 4) := by
  simp only [putUpdate, if_neg hnl, if_pos hlong, if_neg hfit]
  constructor <;> trivial

/-- In the long-value update branch, a successful `RePut` advances `tail`
to `tail + 4 + (Cap4Size lv + 4)` only (src/unnamed/part_002 lines
596-630). -/
theorem rePutUpdate_long_tail (m : Shard) (g s : Nat) (value : List Nat)
    (hlong : value.length ≥ overLongSize)
    (hfit : ¬ m.kv.tail + 4 + (Cap4Size value.length + 4) > m.kv.cap) :
    (rePutUpdate m g s value).1 = true ∧
    (rePutUpdate m g s value).2.kv.tail = m.kv.tail + 4 + (Cap4Size value.length + 4) := by
  simp only [rePutUpdate, if_pos hlong, if_neg hfit]
  constructor <;> trivial

/-- C3 (counterexample): `RePut` on an existing key is *not* the same as
`Put` — on a long value (length `32767 ≥ overLongSize`) both succeed from
the same state but `Put` advances `tail` by `20 + vCap` while `RePut`
advances it by `4 + vCap`, so the post-states differ
(`32820 ≠ 32804`). -/
theorem c3_counterexample :
    probeShard (wState 40000) 5 wKey = .found 0 0 ∧
    (Put (wState 40000) 5 wKey (List.replicate 32767 9)).1 = true ∧
    (RePut (fun _ => 0) (wState 40000) 5 wKey (List.replicate 32767 9)).1 = true ∧
    (Put (wState 40000) 5 wKey (List.replicate 32767 9)).2.kv.tail = 32820 ∧
    (RePut (fun _ => 0) (wState 40000) 5 wKey (List.replicate 32767 9)).2.kv.tail = 32804 := by
  have hfound : probeShard (wState 40000) 5 wKey = .found 0 0 := by decide
  have hl : (List.replicate 32767 (9 : Nat)).length = 32767 :=
    List.length_replicate 32767 9
  have hput : Put (wState 40000) 5 wKey (List.replicate 32767 9)
      = putUpdate (wState 40000) 0 0 (List.replicate 32767 9) := by
    unfold Put; rw [hfound]
  have hre : RePut (fun _ => 0) (wState 40000) 5 wKey (List.replicate 32767 9)
      = rePutUpdate (wState 40000) 0 0 (List.replicate 32767 9) := by
    unfold RePut
    rw [if_neg (by decide), if_neg (by decide), if_neg (by decide)]
    simp only [hfound]
  have hP := putUpdate_long_tail (wState 40000) 0 0 (List.replicate 32767 9)
    (by rw [hl]; decide) (by rw [hl]; decide) (by rw [hl]; decide)
  have hR := rePutUpdate_long_tail (wState 40000) 0 0 (List.replicate 32767 9)
    (by rw [hl]; decide) (by rw [hl]; decide)
  refine ⟨hfound, by rw [hput]; exact hP.1, by rw [hre]; exact hR.1, ?_, ?_⟩
  · rw [hput, hP.2, hl]; decide
  · rw [hre, hR.2, hl]; decide

/-- C3 (amended): for an existing key and a value of length `<
overLongSize`, and when `RePut`'s entry guards do not fire
(`tail < kv.limit`, not rehashing, `resident < limit`), `RePut` produces
exactly the same result and post-state as `Put` — the same medium-append /
in-place / generic-append branches with the same tail and `valUsed`
accounting, including the same tombstoning on capacity failure.  (For
`length ≥ overLongSize` the tail accounting differs, and `RePut` performs
no `length ≥ limitSize` rejection on the update path — see the
counterexample.) -/
theorem c3_reput_refines_put (hashFn : List Nat → Nat) (m : Shard) (l : Nat)
    (key value : List Nat) (g s : Nat)
    (hg1 : m.kv.tail < m.kv.limit) (hg2 : m.rehashing = false)
    (hg3 : m.resident < m.limit)
    (hf : probeShard m l key = .found g s)
    (hlen : value.length < overLongSize) :
    RePut hashFn m l key value = Put m l key value := by
  unfold RePut Put
  rw [if_neg (by omega), if_neg (by simp [hg2]), if_neg (by omega)]
  simp only [hf]
  exact rePutUpdate_eq_putUpdate m g s value hlen

theorem c3_reput_refines_put_witness :
    RePut (fun _ => 0) (wState 100) 5 wKey [9, 9] = Put (wState 100) 5 wKey [9, 9] :=
  c3_reput_refines_put (fun _ => 0) (wState 100) 5 wKey [9, 9] 0 0
    (by decide) (by decide) (by decide) (by decide) (by decide)

theorem c8_put_inplace_witness :
    probeShard (wState 28) 5 wKey = .found 0 0 ∧
      (Put (wState 28) 5 wKey [9, 9]).1 = true ∧
      (Put (wState 28) 5 wKey [9, 9]).2.kv.tail = (wState 28).kv.tail := by
  have h := c8_put_inplace (wState 28) 5 wKey [9, 9] 0 0
    16777217 20 24 (by decide) (by decide) (by decide) (by decide)
    (by decide) (by decide) (by decide)
  exact ⟨by decide, h.1, h.2.2.1⟩

/-! ## C9 -/

/-- C9: whenever one of `Eliminate`'s three guards fires — miss rate below
`eliminateMissRate`, `itemsMemUsage` below `eliminateStart`, or the
computed drop count `n = ceil(items * (eliminateStart - eliminateEnd) /
eliminateStart)` equal to 0 — `Eliminate` returns `delCount = 0` with the
corresponding skip reason (`skipReason1/2/3` respectively) and leaves the
entire shard state unchanged. -/
theorem c9_eliminate_guards_skip (emr estart eend : ℚ) (m : Shard) :
    (m.queryCnt > 0 ∧ (m.missCnt : ℚ) / (m.queryCnt : ℚ) < emr →
      Eliminate emr estart eend m = (0, skipReason1, m)) ∧
    (¬ (m.queryCnt > 0 ∧ (m.missCnt : ℚ) / (m.queryCnt : ℚ) < emr) →
      itemsMemUsage m.kv < estart →
      Eliminate emr estart eend m = (0, skipReason2, m)) ∧
    (¬ (m.queryCnt > 0 ∧ (m.missCnt : ℚ) / (m.queryCnt : ℚ) < emr) →
      ¬ itemsMemUsage m.kv < estart →
      (((m.kv.items : ℚ) * (estart - eend) / estart).ceil).toNat = 0 →
      Eliminate emr estart eend m = (0, skipReason3, m)) := by
  refine ⟨fun h1 => ?_, fun h1 h2 => ?_, fun h1 h2 h3 => ?_⟩
  · unfold Eliminate; rw [if_pos h1]
  · unfold Eliminate; rw [if_neg h1, if_pos h2]
  · simp only [Eliminate]; rw [if_neg h1, if_neg h2, if_pos h3]

def wStateE : Shard := { wState 100 with queryCnt := 10 }

theorem c9_eliminate_guards_skip_witness :
    Eliminate (1 / 2) (9 / 10) (1 / 2) wStateE = (0, skipReason1, wStateE) :=
  (c9_eliminate_guards_skip (1 / 2) (9 / 10) (1 / 2) wStateE).1
    ⟨by decide, by norm_num [wStateE, wState]⟩

/-! ## Helper lemmas for the round-trip proof -/

theorem getD_replicate {α : Type} (n i : Nat) (a d : α) (h : i < n) :
    (List.replicate n a).getD i d = a := by
  induction n generalizing i with
  | zero => omega
  | succ n ih =>
    cases i with
    | zero => rfl
    | succ j =>
      simp only [List.replicate, List.getD_cons_succ]
      exact ih j (by omega)

theorem scanSlots_eq_none_of_false (p : Nat → Bool) (hp : ∀ t, p t = false) :
    ∀ fuel s, scanSlots p fuel s = none := by
  intro fuel
  induction fuel with
  | zero => intro s; rfl
  | succ n ih =>
    intro s
    unfold scanSlots
    rw [hp s]
    simpa using ih (s + 1)

theorem scanSlots_zero_pos (p : Nat → Bool) (h : p 0 = true) (fuel : Nat) :
    scanSlots p (fuel + 1) 0 = some 0 := by
  unfold scanSlots
  rw [h]
  rfl

theorem findKeyInGroup_emptyGroup (d : Nat → Nat) (gv : List Nat) (l : Nat)
    (key : List Nat) :
    findKeyInGroup d (List.replicate 16 emptyByte) gv (h2i l) key = none := by
  unfold findKeyInGroup
  apply scanSlots_eq_none_of_false
  intro t
  have hb : (List.replicate 16 emptyByte).getD t emptyByte = emptyByte := by
    rcases Nat.lt_or_ge t 16 with h | h
    · exact getD_replicate _ _ _ _ h
    · exact List.getD_eq_default _ _ (by simpa using h)
  have hfalse : decide ((List.replicate 16 emptyByte).getD t emptyByte = h2i l) = false := by
    apply decide_eq_false
    rw [hb]
    unfold emptyByte h2i
    intro hEq
    have hnn : (0 : Int) ≤ Int.ofNat (l % 128) := Int.ofNat_nonneg _
    omega
  show (decide ((List.replicate 16 emptyByte).getD t emptyByte = h2i l) &&
      decide (getKey d (gv.getD t 0) = key)) = false
  rw [hfalse, Bool.false_and]

theorem probeLoop_step_missAt (ctrl : List (List Int)) (groups : List (List Nat))
    (d : Nat → Nat) (key : List Nat) (lo : Int) (gl fuel g s : Nat)
    (h1 : findKeyInGroup d (ctrl.getD g []) (groups.getD g []) lo key = none)
    (h2 : firstEmptySlot (ctrl.getD g []) = some s) :
    probeLoop ctrl groups d key lo gl (fuel + 1) g = .missAt g s := by
  unfold probeLoop
  rw [h1, h2]

theorem probeGetLoop_step_found (ctrl : List (List Int)) (groups : List (List Nat))
    (d : Nat → Nat) (key : List Nat) (lo : Int) (gl fuel g s : Nat)
    (h : findKeyInGroupGet d (ctrl.getD g []) (groups.getD g []) lo key = some s) :
    probeGetLoop ctrl groups d key lo gl (fuel + 1) g = .found g s := by
  unfold probeGetLoop
  rw [h]

theorem setSlot_length {α : Type} (a : List (List α)) (g s : Nat) (x : α) :
    (setSlot a g s x).length = a.length := by
  unfold setSlot
  exact List.length_set a g _

theorem setSlot_getD_self {α : Type} (a : List (List α)) (g s : Nat) (x : α)
    (h : g < a.length) :
    (setSlot a g s x).getD g [] = (a.getD g []).set s x := by
  unfold setSlot
  exact getD_set_self _ _ _ _ h

theorem firstEmptySlot_emptyGroup : firstEmptySlot (List.replicate 16 emptyByte) = some 0 := by
  decide

/-- Projections of `initShard`. -/
theorem initShard_fields (sz memMax : Nat) :
    (initShard sz memMax).ctrl
        = List.replicate (numGroups sz) (List.replicate 16 emptyByte) ∧
    (initShard sz memMax).counters
        = List.replicate (numGroups sz) (List.replicate 16 0) ∧
    (initShard sz memMax).groups
        = List.replicate (numGroups sz) (List.replicate 16 0) ∧
    (initShard sz memMax).resident = 0 ∧
    (initShard sz memMax).dead = 0 ∧
    (initShard sz memMax).limit = numGroups sz * maxAvgGroupLoad ∧
    (initShard sz memMax).kv.tail = 4 ∧
    (initShard sz memMax).kv.items = 0 ∧
    (initShard sz memMax).kv.valUsed = 0 ∧
    (initShard sz memMax).rehashing = false :=
  ⟨rfl, rfl, rfl, rfl, rfl, rfl, rfl, rfl, rfl, rfl⟩

/-- On the fresh shard, a successful `RePut` is an insertion at slot 0 of
the probe-start group. -/
theorem reput_init_insert (hashFn : List Nat → Nat) (sz memMax l : Nat)
    (k v : List Nat)
    (hsucc : (RePut hashFn (initShard sz memMax) l k v).1 = true) :
    RePut hashFn (initShard sz memMax) l k v
      = rePutInsert (initShard sz memMax) l
          (probeStart (splitHash l).1 (numGroups sz)) 0 k v := by
  have hG1 : 1 ≤ numGroups sz := Nat.le_max_left 1 _
  obtain ⟨G', hG'⟩ : ∃ t, numGroups sz = t + 1 := ⟨numGroups sz - 1, by omega⟩
  by_cases h1 : (initShard sz memMax).kv.tail ≥ (initShard sz memMax).kv.limit
  · exfalso
    have hbad : RePut hashFn (initShard sz memMax) l k v = (false, initShard sz memMax) := by
      unfold RePut; rw [if_pos h1]
    rw [hbad] at hsucc
    simp at hsucc
  have h2 : ¬ ((initShard sz memMax).rehashing = true) := by
    rw [(initShard_fields sz memMax).2.2.2.2.2.2.2.2.2]; simp
  have h3 : ¬ ((initShard sz memMax).resident ≥ (initShard sz memMax).limit) := by
    rw [(initShard_fields sz memMax).2.2.2.1, (initShard_fields sz memMax).2.2.2.2.2.1]
    unfold maxAvgGroupLoad
    omega
  have hg0lt : probeStart (splitHash l).1 (numGroups sz) < numGroups sz :=
    Nat.mod_lt _ (by omega)
  have hglen : (initShard sz memMax).groups.length = numGroups sz := by
    rw [(initShard_fields sz memMax).2.2.1, List.length_replicate]
  have hcg : (initShard sz memMax).ctrl.getD (probeStart (splitHash l).1 (numGroups sz)) []
      = List.replicate 16 emptyByte := by
    rw [(initShard_fields sz memMax).1]
    exact getD_replicate _ _ _ _ hg0lt
  have hprobe : probeShard (initShard sz memMax) l k
      = .missAt (probeStart (splitHash l).1 (numGroups sz)) 0 := by
    unfold probeShard
    rw [hglen, hG']
    have := probeLoop_step_missAt (initShard sz memMax).ctrl (initShard sz memMax).groups
      (initShard sz memMax).kv.data k (h2i l) (G' + 1) G'
      (probeStart (splitHash l).1 (G' + 1)) 0
      (by rw [← hG', hcg]; exact findKeyInGroup_emptyGroup _ _ _ _)
      (by rw [← hG', hcg]; exact firstEmptySlot_emptyGroup)
    rw [this, ← hG']
  unfold RePut
  rw [if_neg h1, if_neg h2, if_neg h3]
  simp only [hprobe]

/-- Evaluation of `Get` when the probe-start group holds the key at slot
0. -/
theorem get_found_eval (m : Shard) (l : Nat) (k : List Nat) (G' g0 : Nat)
    (hlen : m.groups.length = G' + 1)
    (hg0 : g0 = probeStart (splitHash l).1 m.groups.length)
    (hfind : findKeyInGroupGet m.kv.data (m.ctrl.getD g0 []) (m.groups.getD g0 [])
      (h2i l) k = some 0) :
    (Get m l k).1 = readVal m.kv.data ((m.groups.getD g0 []).getD 0 0) ∧
    (Get m l k).2.1 = true := by
  have hp : probeGetLoop m.ctrl m.groups m.kv.data k (h2i l) m.groups.length
      m.groups.length g0 = .found g0 0 := by
    rw [hlen]
    exact probeGetLoop_step_found _ _ _ _ _ _ _ _ _ hfind
  simp only [Get]
  rw [← hg0]
  simp only [hp]
  constructor <;> trivial

/-- Round trip on the fresh shard, small-inline layout
(`len < overShortSize`). -/
theorem c1_small_case (hashFn : List Nat → Nat) (sz memMax l : Nat)
    (k v : List Nat) (hk : k.length = 16) (hsmall : v.length < overShortSize)
    (hsucc : (RePut hashFn (initShard sz memMax) l k v).1 = true) :
    (Get (RePut hashFn (initShard sz memMax) l k v).2 l k).1 = v ∧
    (Get (RePut hashFn (initShard sz memMax) l k v).2 l k).2.1 = true := by
  obtain ⟨hctrl, hcnt, hgrp, hres, hdead, hlim, htail, hitems, hvu, hrehash⟩ :=
    initShard_fields sz memMax
  have hG1 : 1 ≤ numGroups sz := Nat.le_max_left 1 _
  obtain ⟨G', hG'⟩ : ∃ t, numGroups sz = t + 1 := ⟨numGroups sz - 1, by omega⟩
  have hre := reput_init_insert hashFn sz memMax l k v hsucc
  have hg0lt : probeStart (splitHash l).1 (numGroups sz) < numGroups sz :=
    Nat.mod_lt _ (by omega)
  have hb1 : ¬ (v.length ≥ overLongSize) := by
    unfold overShortSize at hsmall; unfold overLongSize; omega
  have hb2 : ¬ (v.length ≥ overShortSize) := by omega
  unfold overShortSize at hsmall
  set m0 := initShard sz memMax with hm0
  set g0 := probeStart (splitHash l).1 (numGroups sz) with hg0def
  have hcg' : m0.ctrl.getD g0 [] = List.replicate 16 emptyByte := by
    rw [hctrl]; exact getD_replicate _ _ _ _ hg0lt
  have hgv' : m0.groups.getD g0 [] = List.replicate 16 0 := by
    rw [hgrp]; exact getD_replicate _ _ _ _ hg0lt
  have hbc : g0 < m0.ctrl.length := by rw [hctrl, List.length_replicate]; exact hg0lt
  have hbg : g0 < m0.groups.length := by rw [hgrp, List.length_replicate]; exact hg0lt
  by_cases hcap : m0.kv.tail + 20 + Cap4Size v.length > m0.kv.cap
  · exfalso
    have hbad : rePutInsert m0 l g0 0 k v = (false, m0) := by
      simp only [rePutInsert, if_neg hb1, if_neg hb2, if_pos hcap]
    rw [hre, hbad] at hsucc
    simp at hsucc
  · set IDX := 1 + Cap4Size v.length / 4 * 16777216 with hIDX
    set WB := 6 + v.length * 16777216 with hWB
    set D := store32 (writeBytes (writeBytes m0.kv.data 4 k) 24 v) 20 WB with hD
    set S2 : Shard := { m0 with
        groups := setSlot m0.groups g0 0 IDX
        ctrl := setSlot m0.ctrl g0 0 (h2i l)
        counters := setSlot m0.counters g0 0 1
        resident := m0.resident + 1
        kv := { m0.kv with
          data := D
          tail := m0.kv.tail + 20 + Cap4Size v.length
          items := m0.kv.items + 1
          valUsed := m0.kv.valUsed + Cap4Size v.length } } with hS2
    have hins : rePutInsert m0 l g0 0 k v = (true, S2) := by
      simp only [rePutInsert, if_neg hb1, if_neg hb2, if_neg hcap]
      rw [hS2, htail]
    -- arithmetic facts about the descriptor words
    have hidx_ne : IDX ≠ 0 := by rw [hIDX]; omega
    have hoff4 : offsetOf IDX * 4 = 4 := by
      rw [hIDX]; unfold offsetOf Cap4Size; omega
    have hoff16 : offsetOf IDX * 4 + 16 = 20 := by rw [hoff4]
    have hty : valTypeOf IDX = 0 := by
      rw [hIDX]; unfold valTypeOf Cap4Size; omega
    have hwoff : offsetOf WB * 4 = 24 := by
      rw [hWB]; unfold offsetOf; omega
    have hwsize : smallSizeOf WB = v.length := by
      rw [hWB]; unfold smallSizeOf; omega
    have hwb_mod : WB % 4294967296 = WB := by rw [hWB]; omega
    -- reads from the post-insert arena
    have hkeyread : readBytes D 4 16 = k := by
      rw [hD]
      have e1 : readBytes (store32 (writeBytes (writeBytes m0.kv.data 4 k) 24 v) 20 WB) 4 16
          = readBytes (writeBytes (writeBytes m0.kv.data 4 k) 24 v) 4 16 :=
        readBytes_congr _ _ _ _ (fun j hj1 hj2 => store32_eq_of_lt _ _ _ _ (by omega))
      have e2 : readBytes (writeBytes (writeBytes m0.kv.data 4 k) 24 v) 4 16
          = readBytes (writeBytes m0.kv.data 4 k) 4 16 :=
        readBytes_congr _ _ _ _ (fun j hj1 hj2 => writeBytes_eq_of_lt _ _ _ _ (by omega))
      rw [e1, e2, ← hk, readBytes_writeBytes_self]
    have hload : load32 D 20 = WB := by
      rw [hD, load32_store32_self, hwb_mod]
    have hval : readVal D IDX = v := by
      simp only [readVal]
      rw [hoff16, hload, if_pos hty, hwoff, hwsize]
      have e1 : readBytes D 24 v.length
          = readBytes (writeBytes (writeBytes m0.kv.data 4 k) 24 v) 24 v.length := by
        rw [hD]
        exact readBytes_congr _ _ _ _ (fun j hj1 hj2 => store32_eq_of_ge _ _ _ _ (by omega))
      rw [e1]
      exact readBytes_writeBytes_self v (writeBytes m0.kv.data 4 k) 24
    -- the state after insertion
    have hS : (RePut hashFn m0 l k v).2 = S2 := by
      rw [hre, hins]
    have hlen2 : S2.groups.length = G' + 1 := by
      show (setSlot m0.groups g0 0 IDX).length = G' + 1
      rw [setSlot_length, hgrp, List.length_replicate, hG']
    have hg02 : g0 = probeStart (splitHash l).1 S2.groups.length := by
      show g0 = probeStart (splitHash l).1 (setSlot m0.groups g0 0 IDX).length
      rw [setSlot_length, hgrp, List.length_replicate]
    have hcgS : (setSlot m0.ctrl g0 0 (h2i l)).getD g0 []
        = (List.replicate 16 emptyByte).set 0 (h2i l) := by
      rw [setSlot_getD_self _ _ _ _ hbc, hcg']
    have hgvS : (setSlot m0.groups g0 0 IDX).getD g0 []
        = (List.replicate 16 (0 : Nat)).set 0 IDX := by
      rw [setSlot_getD_self _ _ _ _ hbg, hgv']
    have hfind : findKeyInGroupGet S2.kv.data (S2.ctrl.getD g0 [])
        (S2.groups.getD g0 []) (h2i l) k = some 0 := by
      show findKeyInGroupGet D ((setSlot m0.ctrl g0 0 (h2i l)).getD g0 [])
        ((setSlot m0.groups g0 0 IDX).getD g0 []) (h2i l) k = some 0
      rw [hcgS, hgvS]
      unfold findKeyInGroupGet
      have hp0 : (decide ((((List.replicate 16 emptyByte).set 0 (h2i l))).getD 0 emptyByte = h2i l) &&
          decide ((((List.replicate 16 (0 : Nat)).set 0 IDX)).getD 0 0 ≠ 0) &&
          decide (readBytes D (offsetOf ((((List.replicate 16 (0 : Nat)).set 0 IDX)).getD 0 0) * 4) 16 = k)) = true := by
        rw [getD_set_self _ _ _ _ (by simp), getD_set_self _ _ _ _ (by simp)]
        rw [hoff4, hkeyread]
        simp [hidx_ne]
      exact scanSlots_zero_pos _ hp0 15
    obtain ⟨hv1, hv2⟩ := get_found_eval S2 l k G' g0 hlen2 hg02 hfind
    rw [hS]
    refine ⟨?_, hv2⟩
    rw [hv1]
    have hw : (S2.groups.getD g0 []).getD 0 0 = IDX := by
      show ((setSlot m0.groups g0 0 IDX).getD g0 []).getD 0 0 = IDX
      rw [hgvS]
      exact getD_set_self _ _ _ _ (by simp)
    rw [hw]
    exact hval

/-- Round trip on the fresh shard, medium layout
(`overShortSize ≤ len < overLongSize`). -/
theorem c1_medium_case (hashFn : List Nat → Nat) (sz memMax l : Nat)
    (k v : List Nat) (hk : k.length = 16)
    (hmed1 : overShortSize ≤ v.length) (hmed2 : v.length < overLongSize)
    (hsucc : (RePut hashFn (initShard sz memMax) l k v).1 = true) :
    (Get (RePut hashFn (initShard sz memMax) l k v).2 l k).1 = v ∧
    (Get (RePut hashFn (initShard sz memMax) l k v).2 l k).2.1 = true := by
  obtain ⟨hctrl, hcnt, hgrp, hres, hdead, hlim, htail, hitems, hvu, hrehash⟩ :=
    initShard_fields sz memMax
  have hG1 : 1 ≤ numGroups sz := Nat.le_max_left 1 _
  obtain ⟨G', hG'⟩ : ∃ t, numGroups sz = t + 1 := ⟨numGroups sz - 1, by omega⟩
  have hre := reput_init_insert hashFn sz memMax l k v hsucc
  have hg0lt : probeStart (splitHash l).1 (numGroups sz) < numGroups sz :=
    Nat.mod_lt _ (by omega)
  have hb1 : ¬ (v.length ≥ overLongSize) := by omega
  have hb2 : v.length ≥ overShortSize := hmed1
  unfold overShortSize at hmed1
  unfold overLongSize at hmed2
  set m0 := initShard sz memMax with hm0
  set g0 := probeStart (splitHash l).1 (numGroups sz) with hg0def
  have hcg' : m0.ctrl.getD g0 [] = List.replicate 16 emptyByte := by
    rw [hctrl]; exact getD_replicate _ _ _ _ hg0lt
  have hgv' : m0.groups.getD g0 [] = List.replicate 16 0 := by
    rw [hgrp]; exact getD_replicate _ _ _ _ hg0lt
  have hbc : g0 < m0.ctrl.length := by rw [hctrl, List.length_replicate]; exact hg0lt
  have hbg : g0 < m0.groups.length := by rw [hgrp, List.length_replicate]; exact hg0lt
  by_cases hcap : m0.kv.tail + 20 + Cap4Size v.length > m0.kv.cap
  · exfalso
    have hbad : rePutInsert m0 l g0 0 k v = (false, m0) := by
      simp only [rePutInsert, if_neg hb1, if_pos hb2, if_pos hcap]
    rw [hre, hbad] at hsucc
    simp at hsucc
  · set IDX := 1 + v.length / 256 * 16777216 + 2147483648 with hIDX
    set WB := 6 + v.length % 256 * 16777216 with hWB
    set D := store32 (writeBytes (writeBytes m0.kv.data 4 k) 24 v) 20 WB with hD
    set S2 : Shard := { m0 with
        groups := setSlot m0.groups g0 0 IDX
        ctrl := setSlot m0.ctrl g0 0 (h2i l)
        counters := setSlot m0.counters g0 0 1
        resident := m0.resident + 1
        kv := { m0.kv with
          data := D
          tail := m0.kv.tail + 20 + Cap4Size v.length
          items := m0.kv.items + 1
          valUsed := m0.kv.valUsed + Cap4Size v.length } } with hS2
    have hins : rePutInsert m0 l g0 0 k v = (true, S2) := by
      simp only [rePutInsert, if_neg hb1, if_pos hb2, if_neg hcap, mapTypeHeader]
      rw [hS2, htail]
    -- arithmetic facts about the descriptor words
    have hidx_ne : IDX ≠ 0 := by rw [hIDX]; omega
    have hoff4 : offsetOf IDX * 4 = 4 := by
      rw [hIDX]; unfold offsetOf; omega
    have hoff16 : offsetOf IDX * 4 + 16 = 20 := by rw [hoff4]
    have hty1 : ¬ (valTypeOf IDX = 0) := by
      rw [hIDX]; unfold valTypeOf; omega
    have hwoff : offsetOf WB * 4 = 24 := by
      rw [hWB]; unfold offsetOf; omega
    have hvsize : smallSizeOf WB + capOrBigSizeOf IDX * 256 = v.length := by
      rw [hWB, hIDX]; unfold smallSizeOf capOrBigSizeOf; omega
    have hwb_mod : WB % 4294967296 = WB := by rw [hWB]; omega
    -- reads from the post-insert arena
    have hkeyread : readBytes D 4 16 = k := by
      rw [hD]
      have e1 : readBytes (store32 (writeBytes (writeBytes m0.kv.data 4 k) 24 v) 20 WB) 4 16
          = readBytes (writeBytes (writeBytes m0.kv.data 4 k) 24 v) 4 16 :=
        readBytes_congr _ _ _ _ (fun j hj1 hj2 => store32_eq_of_lt _ _ _ _ (by omega))
      have e2 : readBytes (writeBytes (writeBytes m0.kv.data 4 k) 24 v) 4 16
          = readBytes (writeBytes m0.kv.data 4 k) 4 16 :=
        readBytes_congr _ _ _ _ (fun j hj1 hj2 => writeBytes_eq_of_lt _ _ _ _ (by omega))
      rw [e1, e2, ← hk, readBytes_writeBytes_self]
    have hload : load32 D 20 = WB := by
      rw [hD, load32_store32_self, hwb_mod]
    have hval : readVal D IDX = v := by
      simp only [readVal]
      rw [hoff16, hload, if_neg hty1, hvsize, if_neg (by omega : ¬ v.length = overLongSize),
        hwoff]
      have e1 : readBytes D 24 v.length
          = readBytes (writeBytes (writeBytes m0.kv.data 4 k) 24 v) 24 v.length := by
        rw [hD]
        exact readBytes_congr _ _ _ _ (fun j hj1 hj2 => store32_eq_of_ge _ _ _ _ (by omega))
      rw [e1]
      exact readBytes_writeBytes_self v (writeBytes m0.kv.data 4 k) 24
    -- the state after insertion
    have hS : (RePut hashFn m0 l k v).2 = S2 := by
      rw [hre, hins]
    have hlen2 : S2.groups.length = G' + 1 := by
      show (setSlot m0.groups g0 0 IDX).length = G' + 1
      rw [setSlot_length, hgrp, List.length_replicate, hG']
    have hg02 : g0 = probeStart (splitHash l).1 S2.groups.length := by
      show g0 = probeStart (splitHash l).1 (setSlot m0.groups g0 0 IDX).length
      rw [setSlot_length, hgrp, List.length_replicate]
    have hcgS : (setSlot m0.ctrl g0 0 (h2i l)).getD g0 []
        = (List.replicate 16 emptyByte).set 0 (h2i l) := by
      rw [setSlot_getD_self _ _ _ _ hbc, hcg']
    have hgvS : (setSlot m0.groups g0 0 IDX).getD g0 []
        = (List.replicate 16 (0 : Nat)).set 0 IDX := by
      rw [setSlot_getD_self _ _ _ _ hbg, hgv']
    have hfind : findKeyInGroupGet S2.kv.data (S2.ctrl.getD g0 [])
        (S2.groups.getD g0 []) (h2i l) k = some 0 := by
      show findKeyInGroupGet D ((setSlot m0.ctrl g0 0 (h2i l)).getD g0 [])
        ((setSlot m0.groups g0 0 IDX).getD g0 []) (h2i l) k = some 0
      rw [hcgS, hgvS]
      unfold findKeyInGroupGet
      have hp0 : (decide ((((List.replicate 16 emptyByte).set 0 (h2i l))).getD 0 emptyByte = h2i l) &&
          decide ((((List.replicate 16 (0 : Nat)).set 0 IDX)).getD 0 0 ≠ 0) &&
          decide (readBytes D (offsetOf ((((List.replicate 16 (0 : Nat)).set 0 IDX)).getD 0 0) * 4) 16 = k)) = true := by
        rw [getD_set_self _ _ _ _ (by simp), getD_set_self _ _ _ _ (by simp)]
        rw [hoff4, hkeyread]
        simp [hidx_ne]
      exact scanSlots_zero_pos _ hp0 15
    obtain ⟨hv1, hv2⟩ := get_found_eval S2 l k G' g0 hlen2 hg02 hfind
    rw [hS]
    refine ⟨?_, hv2⟩
    rw [hv1]
    have hw : (S2.groups.getD g0 []).getD 0 0 = IDX := by
      show ((setSlot m0.groups g0 0 IDX).getD g0 []).getD 0 0 = IDX
      rw [hgvS]
      exact getD_set_self _ _ _ _ (by simp)
    rw [hw]
    exact hval

/-- Round trip on the fresh shard, long layout
(`overLongSize ≤ len < limitSize`): the value is stored behind a 4-byte
length prefix and the sentinel descriptor size. -/
theorem c1_long_case (hashFn : List Nat → Nat) (sz memMax l : Nat)
    (k v : List Nat) (hk : k.length = 16)
    (hlong : overLongSize ≤ v.length) (hv : v.length < limitSize)
    (hsucc : (RePut hashFn (initShard sz memMax) l k v).1 = true) :
    (Get (RePut hashFn (initShard sz memMax) l k v).2 l k).1 = v ∧
    (Get (RePut hashFn (initShard sz memMax) l k v).2 l k).2.1 = true := by
  obtain ⟨hctrl, hcnt, hgrp, hres, hdead, hlim, htail, hitems, hvu, hrehash⟩ :=
    initShard_fields sz memMax
  have hG1 : 1 ≤ numGroups sz := Nat.le_max_left 1 _
  obtain ⟨G', hG'⟩ : ∃ t, numGroups sz = t + 1 := ⟨numGroups sz - 1, by omega⟩
  have hre := reput_init_insert hashFn sz memMax l k v hsucc
  have hg0lt : probeStart (splitHash l).1 (numGroups sz) < numGroups sz :=
    Nat.mod_lt _ (by omega)
  have hb1 : v.length ≥ overLongSize := hlong
  unfold limitSize at hv
  set m0 := initShard sz memMax with hm0
  set g0 := probeStart (splitHash l).1 (numGroups sz) with hg0def
  have hcg' : m0.ctrl.getD g0 [] = List.replicate 16 emptyByte := by
    rw [hctrl]; exact getD_replicate _ _ _ _ hg0lt
  have hgv' : m0.groups.getD g0 [] = List.replicate 16 0 := by
    rw [hgrp]; exact getD_replicate _ _ _ _ hg0lt
  have hbc : g0 < m0.ctrl.length := by rw [hctrl, List.length_replicate]; exact hg0lt
  have hbg : g0 < m0.groups.length := by rw [hgrp, List.length_replicate]; exact hg0lt
  by_cases hcap : m0.kv.tail + 20 + (Cap4Size v.length + 4) > m0.kv.cap
  · exfalso
    have hbad : rePutInsert m0 l g0 0 k v = (false, m0) := by
      simp only [rePutInsert, if_pos hb1, if_pos hcap]
    rw [hre, hbad] at hsucc
    simp at hsucc
  · set IDX := 1 + 2130706432 + 2147483648 with hIDX
    set WB := 6 + 4278190080 with hWB
    set D := store32 (writeBytes (store32 (writeBytes m0.kv.data 4 k) 24 v.length) 28 v)
      20 WB with hD
    set S2 : Shard := { m0 with
        groups := setSlot m0.groups g0 0 IDX
        ctrl := setSlot m0.ctrl g0 0 (h2i l)
        counters := setSlot m0.counters g0 0 1
        resident := m0.resident + 1
        kv := { m0.kv with
          data := D
          tail := m0.kv.tail + 20 + (Cap4Size v.length + 4)
          items := m0.kv.items + 1
          valUsed := m0.kv.valUsed + (Cap4Size v.length + 4) } } with hS2
    have hins : rePutInsert m0 l g0 0 k v = (true, S2) := by
      simp only [rePutInsert, if_pos hb1, if_neg hcap, mapTypeHeader,
        overLongStoreHeaderH, overLongStoreHeaderL, storeUintBytes]
      rw [hS2, htail]
    -- arithmetic facts about the descriptor words
    have hidx_ne : IDX ≠ 0 := by rw [hIDX]; omega
    have hoff4 : offsetOf IDX * 4 = 4 := by
      rw [hIDX]; unfold offsetOf; omega
    have hoff16 : offsetOf IDX * 4 + 16 = 20 := by rw [hoff4]
    have hty1 : ¬ (valTypeOf IDX = 0) := by
      rw [hIDX]; unfold valTypeOf; omega
    have hwoff : offsetOf WB * 4 = 24 := by
      rw [hWB]; unfold offsetOf; omega
    have hwoff4 : offsetOf WB * 4 + 4 = 28 := by rw [hwoff]
    have hsent : smallSizeOf WB + capOrBigSizeOf IDX * 256 = overLongSize := by
      rw [hWB, hIDX]; unfold smallSizeOf capOrBigSizeOf overLongSize; omega
    have hwb_mod : WB % 4294967296 = WB := by rw [hWB]
    -- reads from the post-insert arena
    have hkeyread : readBytes D 4 16 = k := by
      rw [hD]
      have e1 : readBytes (store32 (writeBytes (store32 (writeBytes m0.kv.data 4 k) 24 v.length) 28 v) 20 WB) 4 16
          = readBytes (writeBytes (store32 (writeBytes m0.kv.data 4 k) 24 v.length) 28 v) 4 16 :=
        readBytes_congr _ _ _ _ (fun j hj1 hj2 => store32_eq_of_lt _ _ _ _ (by omega))
      have e2 : readBytes (writeBytes (store32 (writeBytes m0.kv.data 4 k) 24 v.length) 28 v) 4 16
          = readBytes (store32 (writeBytes m0.kv.data 4 k) 24 v.length) 4 16 :=
        readBytes_congr _ _ _ _ (fun j hj1 hj2 => writeBytes_eq_of_lt _ _ _ _ (by omega))
      have e3 : readBytes (store32 (writeBytes m0.kv.data 4 k) 24 v.length) 4 16
          = readBytes (writeBytes m0.kv.data 4 k) 4 16 :=
        readBytes_congr _ _ _ _ (fun j hj1 hj2 => store32_eq_of_lt _ _ _ _ (by omega))
      rw [e1, e2, e3, ← hk, readBytes_writeBytes_self]
    have hload : load32 D 20 = WB := by
      rw [hD, load32_store32_self, hwb_mod]
    have hprefix : load32 D 24 = v.length := by
      rw [hD]
      have e1 : load32 (store32 (writeBytes (store32 (writeBytes m0.kv.data 4 k) 24 v.length) 28 v) 20 WB) 24
          = load32 (writeBytes (store32 (writeBytes m0.kv.data 4 k) 24 v.length) 28 v) 24 :=
        load32_congr _ _ _ (fun j hj1 hj2 => store32_eq_of_ge _ _ _ _ (by omega))
      have e2 : load32 (writeBytes (store32 (writeBytes m0.kv.data 4 k) 24 v.length) 28 v) 24
          = load32 (store32 (writeBytes m0.kv.data 4 k) 24 v.length) 24 :=
        load32_congr _ _ _ (fun j hj1 hj2 => writeBytes_eq_of_lt _ _ _ _ (by omega))
      rw [e1, e2, load32_store32_self]
      omega
    have hval : readVal D IDX = v := by
      simp only [readVal]
      rw [hoff16, hload, if_neg hty1, hsent, if_pos rfl, hwoff4, hwoff, hprefix]
      have e1 : readBytes D 28 v.length
          = readBytes (writeBytes (store32 (writeBytes m0.kv.data 4 k) 24 v.length) 28 v) 28 v.length := by
        rw [hD]
        exact readBytes_congr _ _ _ _ (fun j hj1 hj2 => store32_eq_of_ge _ _ _ _ (by omega))
      rw [e1]
      exact readBytes_writeBytes_self v (store32 (writeBytes m0.kv.data 4 k) 24 v.length) 28
    -- the state after insertion
    have hS : (RePut hashFn m0 l k v).2 = S2 := by
      rw [hre, hins]
    have hlen2 : S2.groups.length = G' + 1 := by
      show (setSlot m0.groups g0 0 IDX).length = G' + 1
      rw [setSlot_length, hgrp, List.length_replicate, hG']
    have hg02 : g0 = probeStart (splitHash l).1 S2.groups.length := by
      show g0 = probeStart (splitHash l).1 (setSlot m0.groups g0 0 IDX).length
      rw [setSlot_length, hgrp, List.length_replicate]
    have hcgS : (setSlot m0.ctrl g0 0 (h2i l)).getD g0 []
        = (List.replicate 16 emptyByte).set 0 (h2i l) := by
      rw [setSlot_getD_self _ _ _ _ hbc, hcg']
    have hgvS : (setSlot m0.groups g0 0 IDX).getD g0 []
        = (List.replicate 16 (0 : Nat)).set 0 IDX := by
      rw [setSlot_getD_self _ _ _ _ hbg, hgv']
    have hfind : findKeyInGroupGet S2.kv.data (S2.ctrl.getD g0 [])
        (S2.groups.getD g0 []) (h2i l) k = some 0 := by
      show findKeyInGroupGet D ((setSlot m0.ctrl g0 0 (h2i l)).getD g0 [])
        ((setSlot m0.groups g0 0 IDX).getD g0 []) (h2i l) k = some 0
      rw [hcgS, hgvS]
      unfold findKeyInGroupGet
      have hp0 : (decide ((((List.replicate 16 emptyByte).set 0 (h2i l))).getD 0 emptyByte = h2i l) &&
          decide ((((List.replicate 16 (0 : Nat)).set 0 IDX)).getD 0 0 ≠ 0) &&
          decide (readBytes D (offsetOf ((((List.replicate 16 (0 : Nat)).set 0 IDX)).getD 0 0) * 4) 16 = k)) = true := by
        rw [getD_set_self _ _ _ _ (by simp), getD_set_self _ _ _ _ (by simp)]
        rw [hoff4, hkeyread]
        simp [hidx_ne]
      exact scanSlots_zero_pos _ hp0 15
    obtain ⟨hv1, hv2⟩ := get_found_eval S2 l k G' g0 hlen2 hg02 hfind
    rw [hS]
    refine ⟨?_, hv2⟩
    rw [hv1]
    have hw : (S2.groups.getD g0 []).getD 0 0 = IDX := by
      show ((setSlot m0.groups g0 0 IDX).getD g0 []).getD 0 0 = IDX
      rw [hgvS]
      exact getD_set_self _ _ _ _ (by simp)
    rw [hw]
    exact hval

/-! ## Counting control bytes (towards the count-consistency invariant) -/

/-- A non-EMPTY control byte (an `H2` tag or a tombstone): counted by
`resident`. -/
def usedTag (b : Int) : Bool := decide (¬ b = emptyByte)

/-- A TOMBSTONE control byte: counted by `dead`. -/
def tombTag (b : Int) : Bool := decide (b = tombByte)

/-- An occupied control byte (an `H2` tag): counted by `kv_holder.items`. -/
def occTag (b : Int) : Bool := decide (¬ b = emptyByte) && decide (¬ b = tombByte)

/-- Number of control bytes satisfying `p` over the whole table. -/
def cntP (p : Int → Bool) (ctrl : List (List Int)) : Nat :=
  (ctrl.map (fun c => c.countP p)).sum

theorem countP_partition (cg : List Int) :
    cg.countP usedTag = cg.countP occTag + cg.countP tombTag := by
  induction cg with
  | nil => rfl
  | cons b bs ih =>
    simp only [List.countP_cons]
    have hflag : (if usedTag b then 1 else 0)
        = (if occTag b then 1 else 0) + (if tombTag b then (1 : Nat) else 0) := by
      unfold usedTag occTag tombTag emptyByte tombByte
      by_cases h1 : b = -128 <;> by_cases h2 : b = -2 <;> simp [h1, h2]
    omega

theorem cntP_partition (ctrl : List (List Int)) :
    cntP usedTag ctrl = cntP occTag ctrl + cntP tombTag ctrl := by
  induction ctrl with
  | nil => rfl
  | cons c cs ih =>
    simp only [cntP, List.map_cons, List.sum_cons] at ih ⊢
    rw [countP_partition c, ih]
    omega

theorem countP_set_eq (cg : List Int) (p : Int → Bool) :
    ∀ s b, s < cg.length →
      (cg.set s b).countP p + (if p (cg.getD s emptyByte) then 1 else 0)
        = cg.countP p + (if p b then 1 else 0) := by
  induction cg with
  | nil => intro s b h; simp at h
  | cons x xs ih =>
    intro s b h
    cases s with
    | zero =>
      simp only [List.set, List.getD_cons_zero, List.countP_cons]
      omega
    | succ t =>
      simp only [List.set, List.getD_cons_succ, List.countP_cons]
      have := ih t b (by simpa using h)
      omega

theorem sum_map_set (p : Int → Bool) (ctrl : List (List Int)) :
    ∀ g ng, g < ctrl.length →
      ((ctrl.set g ng).map (fun c => c.countP p)).sum + (ctrl.getD g []).countP p
        = (ctrl.map (fun c => c.countP p)).sum + ng.countP p := by
  induction ctrl with
  | nil => intro g ng h; simp at h
  | cons c cs ih =>
    intro g ng h
    cases g with
    | zero => simp only [List.set, List.getD_cons_zero, List.map_cons, List.sum_cons]; omega
    | succ t =>
      simp only [List.set, List.getD_cons_succ, List.map_cons, List.sum_cons]
      have := ih t ng (by simpa using h)
      omega

theorem cntP_setSlot (p : Int → Bool) (ctrl : List (List Int)) (g s : Nat) (b : Int)
    (hg : g < ctrl.length) (hs : s < (ctrl.getD g []).length) :
    cntP p (setSlot ctrl g s b) + (if p ((ctrl.getD g []).getD s emptyByte) then 1 else 0)
      = cntP p ctrl + (if p b then 1 else 0) := by
  unfold cntP setSlot
  have h1 := sum_map_set p ctrl g ((ctrl.getD g []).set s b) hg
  have h2 := countP_set_eq (ctrl.getD g []) p s b hs
  omega

theorem getD_mem {α : Type} (l : List α) (i : Nat) (d : α) (h : i < l.length) :
    l.getD i d ∈ l := by
  induction l generalizing i with
  | nil => simp at h
  | cons x xs ih =>
    cases i with
    | zero => simp
    | succ t =>
      simp only [List.getD_cons_succ]
      exact List.mem_cons_of_mem _ (ih t (by simpa using h))

theorem countP_group_le (p : Int → Bool) (ctrl : List (List Int)) :
    ∀ g, g < ctrl.length → (ctrl.getD g []).countP p ≤ cntP p ctrl := by
  induction ctrl with
  | nil => intro g h; simp at h
  | cons c cs ih =>
    intro g h
    cases g with
    | zero => simp [cntP]
    | succ t =>
      simp only [List.getD_cons_succ, cntP, List.map_cons, List.sum_cons]
      have := ih t (by simpa using h)
      unfold cntP at this
      omega

theorem cntP_ge_one (p : Int → Bool) (ctrl : List (List Int)) (g s : Nat)
    (hg : g < ctrl.length) (hs : s < (ctrl.getD g []).length)
    (hp : p ((ctrl.getD g []).getD s emptyByte) = true) : 1 ≤ cntP p ctrl := by
  have hmem : (ctrl.getD g []).getD s emptyByte ∈ ctrl.getD g [] := getD_mem _ _ _ hs
  have h1 : 0 < (ctrl.getD g []).countP p := List.countP_pos_iff.mpr ⟨_, hmem, hp⟩
  have h2 := countP_group_le p ctrl g hg
  omega

theorem cntP_le_16len (p : Int → Bool) (ctrl : List (List Int))
    (h16 : ∀ c ∈ ctrl, c.length = 16) : cntP p ctrl ≤ 16 * ctrl.length := by
  induction ctrl with
  | nil => simp [cntP]
  | cons c cs ih =>
    simp only [cntP, List.map_cons, List.sum_cons, List.length_cons]
    have h1 : c.countP p ≤ 16 := by
      have := List.countP_le_length (p := p) (l := c)
      rw [h16 c (by simp)] at this
      exact this
    have h2 := ih (fun x hx => h16 x (List.mem_cons_of_mem _ hx))
    unfold cntP at h2
    omega

/-- The structural invariant tying `resident`, `dead` and
`kv_holder.items` to the control-byte table (claim C5's invariant plus the
bookkeeping needed to push it through every operation). -/
structure Inv (m : Shard) : Prop where
  hcl : m.ctrl.length = m.groups.length
  hnl : m.counters.length = m.groups.length
  hpos : 0 < m.groups.length
  hg16 : ∀ c ∈ m.ctrl, c.length = 16
  hres : m.resident = cntP usedTag m.ctrl
  hdead : m.dead = cntP tombTag m.ctrl
  hitems : m.kv.items = cntP occTag m.ctrl

/-! ### Tag classification facts -/

theorem occ_imp_used (b : Int) (h : occTag b = true) : usedTag b = true := by
  unfold occTag at h
  unfold usedTag
  simp only [Bool.and_eq_true] at h
  exact h.1

theorem occ_imp_not_tomb (b : Int) (h : occTag b = true) : tombTag b = false := by
  unfold occTag at h
  unfold tombTag
  simp only [Bool.and_eq_true, decide_eq_true_eq] at h
  simp [h.2]

theorem tags_of_tombByte :
    usedTag tombByte = true ∧ tombTag tombByte = true ∧ occTag tombByte = false := by
  decide

theorem tags_of_emptyByte :
    usedTag emptyByte = false ∧ tombTag emptyByte = false ∧ occTag emptyByte = false := by
  decide

theorem tags_of_h2i (l : Nat) :
    usedTag (h2i l) = true ∧ tombTag (h2i l) = false ∧ occTag (h2i l) = true := by
  have h1 : ¬ (h2i l = emptyByte) := by
    intro h
    simp only [h2i, emptyByte, Int.ofNat_eq_natCast] at h
    omega
  have h2 : ¬ (h2i l = tombByte) := by
    intro h
    simp only [h2i, tombByte, Int.ofNat_eq_natCast] at h
    omega
  unfold usedTag tombTag occTag
  simp [h1, h2]

theorem occ_of_ne (b : Int) (h1 : ¬ b = tombByte) (h2 : ¬ b = emptyByte) :
    occTag b = true := by
  unfold occTag
  simp [h1, h2]

/-! ### Slot facts from probe results -/

theorem hg16_mem (m : Shard) (hI : Inv m) (g : Nat) (hg : g < m.ctrl.length) :
    (m.ctrl.getD g []).length = 16 :=
  hI.hg16 _ (getD_mem _ _ _ hg)

theorem probeShard_found_facts (m : Shard) (l : Nat) (key : List Nat) (g s : Nat)
    (hI : Inv m) (h : probeShard m l key = .found g s) :
    g < m.ctrl.length ∧ s < (m.ctrl.getD g []).length ∧
    occTag ((m.ctrl.getD g []).getD s emptyByte) = true := by
  have hb : g < m.groups.length := by
    refine probeLoop_bounds _ _ _ _ _ _ hI.hpos _ _ _ _ ?_ (Or.inl h)
    exact Nat.mod_lt _ hI.hpos
  have hgc : g < m.ctrl.length := by rw [hI.hcl]; exact hb
  obtain ⟨hs16, hbyte, _⟩ := findKeyInGroup_some _ _ _ _ _ _ (probeShard_found _ _ _ _ _ h)
  refine ⟨hgc, ?_, ?_⟩
  · rw [hg16_mem m hI g hgc]; exact hs16
  · rw [hbyte]; exact (tags_of_h2i l).2.2

theorem probeShard_missAt_facts (m : Shard) (l : Nat) (key : List Nat) (g s : Nat)
    (hI : Inv m) (h : probeShard m l key = .missAt g s) :
    g < m.ctrl.length ∧ s < (m.ctrl.getD g []).length ∧
    (m.ctrl.getD g []).getD s emptyByte = emptyByte := by
  have hb : g < m.groups.length := by
    refine probeLoop_bounds _ _ _ _ _ _ hI.hpos _ _ _ _ ?_ (Or.inr h)
    exact Nat.mod_lt _ hI.hpos
  have hgc : g < m.ctrl.length := by rw [hI.hcl]; exact hb
  obtain ⟨_, hfes⟩ := probeShard_missAt _ _ _ _ _ h
  obtain ⟨hs16, hbyte⟩ := firstEmptySlot_some _ _ hfes
  refine ⟨hgc, ?_, hbyte⟩
  rw [hg16_mem m hI g hgc]; exact hs16

/-! ### Invariant preservation building blocks -/

theorem hg16_setSlot {b : Int} (a : List (List Int)) (g s : Nat)
    (h16 : ∀ c ∈ a, c.length = 16) :
    ∀ c ∈ setSlot a g s b, c.length = 16 := by
  intro c hc
  unfold setSlot at hc
  rcases List.mem_or_eq_of_mem_set hc with h | h
  · exact h16 _ h
  · rcases Nat.lt_or_ge g a.length with hg | hg
    · rw [h, List.length_set]
      exact h16 _ (getD_mem _ _ _ hg)
    · rw [List.set_eq_of_length_le (by simpa using hg)] at hc
      exact h16 _ hc

theorem setSlot_rows16 {α : Type} (a : List (List α)) (g s : Nat) (x : α)
    (h16 : ∀ c ∈ a, c.length = 16) :
    ∀ c ∈ setSlot a g s x, c.length = 16 := by
  intro c hc
  unfold setSlot at hc
  rcases List.mem_or_eq_of_mem_set hc with h | h
  · exact h16 _ h
  · rcases Nat.lt_or_ge g a.length with hg | hg
    · rw [h, List.length_set]
      exact h16 _ (getD_mem _ _ _ hg)
    · rw [List.set_eq_of_length_le (by simpa using hg)] at hc
      exact h16 _ hc

/-- Tombstoning an occupied slot preserves the invariant. -/
theorem Inv_tombstone (m : Shard) (g s : Nat) (du : Nat) (cl : Bool) (hI : Inv m)
    (hg : g < m.ctrl.length) (hs : s < (m.ctrl.getD g []).length)
    (hocc : occTag ((m.ctrl.getD g []).getD s emptyByte) = true) :
    Inv (tombstoneSlot m g s du cl) := by
  have hused := cntP_setSlot usedTag m.ctrl g s tombByte hg hs
  have htomb := cntP_setSlot tombTag m.ctrl g s tombByte hg hs
  have hoccs := cntP_setSlot occTag m.ctrl g s tombByte hg hs
  have hnt : ¬ tombTag ((m.ctrl.getD g []).getD s emptyByte) = true := by
    rw [occ_imp_not_tomb _ hocc]; simp
  have hno : ¬ occTag tombByte = true := by
    rw [tags_of_tombByte.2.2]; simp
  rw [if_pos (occ_imp_used _ hocc), if_pos tags_of_tombByte.1] at hused
  rw [if_neg hnt, if_pos tags_of_tombByte.2.1] at htomb
  rw [if_pos hocc, if_neg hno] at hoccs
  have hone := cntP_ge_one occTag m.ctrl g s hg hs hocc
  refine ⟨?_, ?_, ?_, ?_, ?_, ?_, ?_⟩
  · show (setSlot m.ctrl g s tombByte).length
        = (if cl then setSlot m.groups g s 0 else m.groups).length
    rw [setSlot_length]
    cases cl <;> simp [setSlot_length, hI.hcl]
  · show (setSlot m.counters g s 0).length
        = (if cl then setSlot m.groups g s 0 else m.groups).length
    rw [setSlot_length]
    cases cl <;> simp [setSlot_length, hI.hnl]
  · show 0 < (if cl then setSlot m.groups g s 0 else m.groups).length
    cases cl <;> simp [setSlot_length, hI.hpos]
  · exact hg16_setSlot _ _ _ hI.hg16
  · show m.resident = cntP usedTag (setSlot m.ctrl g s tombByte)
    have := hI.hres
    omega
  · show m.dead + 1 = cntP tombTag (setSlot m.ctrl g s tombByte)
    have := hI.hdead
    omega
  · show m.kv.items - 1 = cntP occTag (setSlot m.ctrl g s tombByte)
    have := hI.hitems
    omega

/-- A successful value update (new descriptor, new arena contents) leaves
the control bytes and all the counts untouched. -/
theorem Inv_success (m : Shard) (g s w : Nat) (d' : Nat → Nat) (t' vu' : Nat)
    (hI : Inv m) :
    Inv { m with groups := setSlot m.groups g s w,
                 kv := { m.kv with data := d', tail := t', valUsed := vu' } } := by
  refine ⟨?_, ?_, ?_, hI.hg16, hI.hres, hI.hdead, hI.hitems⟩
  · show m.ctrl.length = (setSlot m.groups g s w).length
    rw [setSlot_length]; exact hI.hcl
  · show m.counters.length = (setSlot m.groups g s w).length
    rw [setSlot_length]; exact hI.hnl
  · show 0 < (setSlot m.groups g s w).length
    rw [setSlot_length]; exact hI.hpos

/-- The in-place fast path only rewrites arena bytes. -/
theorem Inv_data_only (m : Shard) (d' : Nat → Nat) (hI : Inv m) :
    Inv { m with kv := { m.kv with data := d' } } :=
  ⟨hI.hcl, hI.hnl, hI.hpos, hI.hg16, hI.hres, hI.hdead, hI.hitems⟩

/-- Inserting at an EMPTY slot preserves the invariant. -/
theorem Inv_insert (m : Shard) (l : Nat) (g s w cv : Nat) (d' : Nat → Nat)
    (t' vu' : Nat) (hI : Inv m)
    (hg : g < m.ctrl.length) (hs : s < (m.ctrl.getD g []).length)
    (hempty : (m.ctrl.getD g []).getD s emptyByte = emptyByte) :
    Inv { m with groups := setSlot m.groups g s w
                 ctrl := setSlot m.ctrl g s (h2i l)
                 counters := setSlot m.counters g s cv
                 resident := m.resident + 1
                 kv := { m.kv with data := d', tail := t'
                                   items := m.kv.items + 1, valUsed := vu' } } := by
  have hused := cntP_setSlot usedTag m.ctrl g s (h2i l) hg hs
  have htomb := cntP_setSlot tombTag m.ctrl g s (h2i l) hg hs
  have hoccs := cntP_setSlot occTag m.ctrl g s (h2i l) hg hs
  rw [hempty] at hused htomb hoccs
  have hnu : ¬ usedTag emptyByte = true := by rw [tags_of_emptyByte.1]; simp
  have hnt1 : ¬ tombTag emptyByte = true := by rw [tags_of_emptyByte.2.1]; simp
  have hno1 : ¬ occTag emptyByte = true := by rw [tags_of_emptyByte.2.2]; simp
  have hnt2 : ¬ tombTag (h2i l) = true := by rw [(tags_of_h2i l).2.1]; simp
  rw [if_neg hnu, if_pos (tags_of_h2i l).1] at hused
  rw [if_neg hnt1, if_neg hnt2] at htomb
  rw [if_neg hno1, if_pos (tags_of_h2i l).2.2] at hoccs
  refine ⟨?_, ?_, ?_, hg16_setSlot _ _ _ hI.hg16, ?_, ?_, ?_⟩
  · show (setSlot m.ctrl g s (h2i l)).length = (setSlot m.groups g s w).length
    rw [setSlot_length, setSlot_length]; exact hI.hcl
  · show (setSlot m.counters g s cv).length = (setSlot m.groups g s w).length
    rw [setSlot_length, setSlot_length]; exact hI.hnl
  · show 0 < (setSlot m.groups g s w).length
    rw [setSlot_length]; exact hI.hpos
  · show m.resident + 1 = cntP usedTag (setSlot m.ctrl g s (h2i l))
    have := hI.hres
    omega
  · show m.dead = cntP tombTag (setSlot m.ctrl g s (h2i l))
    have := hI.hdead
    omega
  · show m.kv.items + 1 = cntP occTag (setSlot m.ctrl g s (h2i l))
    have := hI.hitems
    omega

/-- Reverting an occupied slot to EMPTY (`Delete` in a group that still has
an EMPTY byte) preserves the invariant. -/
theorem Inv_revert (m : Shard) (g s : Nat) (du : Nat) (hI : Inv m)
    (hg : g < m.ctrl.length) (hs : s < (m.ctrl.getD g []).length)
    (hocc : occTag ((m.ctrl.getD g []).getD s emptyByte) = true) :
    Inv { m with ctrl := setSlot m.ctrl g s emptyByte
                 resident := m.resident - 1
                 counters := setSlot m.counters g s 0
                 kv := { m.kv with items := m.kv.items - 1
                                   valUsed := m.kv.valUsed - du } } := by
  have hused := cntP_setSlot usedTag m.ctrl g s emptyByte hg hs
  have htomb := cntP_setSlot tombTag m.ctrl g s emptyByte hg hs
  have hoccs := cntP_setSlot occTag m.ctrl g s emptyByte hg hs
  have hnt : ¬ tombTag ((m.ctrl.getD g []).getD s emptyByte) = true := by
    rw [occ_imp_not_tomb _ hocc]; simp
  have hnu : ¬ usedTag emptyByte = true := by rw [tags_of_emptyByte.1]; simp
  have hnt2 : ¬ tombTag emptyByte = true := by rw [tags_of_emptyByte.2.1]; simp
  have hno : ¬ occTag emptyByte = true := by rw [tags_of_emptyByte.2.2]; simp
  rw [if_pos (occ_imp_used _ hocc), if_neg hnu] at hused
  rw [if_neg hnt, if_neg hnt2] at htomb
  rw [if_pos hocc, if_neg hno] at hoccs
  have honeU := cntP_ge_one usedTag m.ctrl g s hg hs (occ_imp_used _ hocc)
  have honeO := cntP_ge_one occTag m.ctrl g s hg hs hocc
  refine ⟨?_, ?_, hI.hpos, hg16_setSlot _ _ _ hI.hg16, ?_, ?_, ?_⟩
  · show (setSlot m.ctrl g s emptyByte).length = m.groups.length
    rw [setSlot_length]; exact hI.hcl
  · show (setSlot m.counters g s 0).length = m.groups.length
    rw [setSlot_length]; exact hI.hnl
  · show m.resident - 1 = cntP usedTag (setSlot m.ctrl g s emptyByte)
    have := hI.hres
    omega
  · show m.dead = cntP tombTag (setSlot m.ctrl g s emptyByte)
    have := hI.hdead
    omega
  · show m.kv.items - 1 = cntP occTag (setSlot m.ctrl g s emptyByte)
    have := hI.hitems
    omega

/-! ### Invariant preservation by each operation -/

/-- `Put`'s update block preserves the invariant at an occupied slot. -/
theorem putUpdate_inv (m : Shard) (g s : Nat) (value : List Nat) (hI : Inv m)
    (hg : g < m.ctrl.length) (hs : s < (m.ctrl.getD g []).length)
    (hocc : occTag ((m.ctrl.getD g []).getD s emptyByte) = true) :
    Inv (putUpdate m g s value).2 := by
  simp only [putUpdate]
  split_ifs <;>
    first
      | exact Inv_tombstone m g s _ false hI hg hs hocc
      | exact Inv_tombstone m g s _ true hI hg hs hocc
      | exact Inv_success m g s _ _ _ _ hI
      | exact Inv_data_only m _ hI

/-- `RePut`'s update block preserves the invariant at an occupied slot. -/
theorem rePutUpdate_inv (m : Shard) (g s : Nat) (value : List Nat) (hI : Inv m)
    (hg : g < m.ctrl.length) (hs : s < (m.ctrl.getD g []).length)
    (hocc : occTag ((m.ctrl.getD g []).getD s emptyByte) = true) :
    Inv (rePutUpdate m g s value).2 := by
  simp only [rePutUpdate]
  split_ifs <;>
    first
      | exact Inv_tombstone m g s _ false hI hg hs hocc
      | exact Inv_tombstone m g s _ true hI hg hs hocc
      | exact Inv_success m g s _ _ _ _ hI
      | exact Inv_data_only m _ hI

/-- `PutMultiValue`'s update block preserves the invariant at an occupied
slot. -/
theorem putMultiUpdate_inv (m : Shard) (g s : Nat) (vlen : Nat)
    (vals : List (List Nat)) (hI : Inv m)
    (hg : g < m.ctrl.length) (hs : s < (m.ctrl.getD g []).length)
    (hocc : occTag ((m.ctrl.getD g []).getD s emptyByte) = true) :
    Inv (putMultiUpdate m g s vlen vals).2 := by
  simp only [putMultiUpdate]
  split_ifs <;>
    first
      | exact Inv_tombstone m g s _ false hI hg hs hocc
      | exact Inv_tombstone m g s _ true hI hg hs hocc
      | exact Inv_success m g s _ _ _ _ hI
      | exact Inv_data_only m _ hI

/-- `RePut`'s insert block preserves the invariant at an EMPTY slot. -/
theorem rePutInsert_inv (m : Shard) (l : Nat) (g s : Nat) (key value : List Nat)
    (hI : Inv m)
    (hg : g < m.ctrl.length) (hs : s < (m.ctrl.getD g []).length)
    (hempty : (m.ctrl.getD g []).getD s emptyByte = emptyByte) :
    Inv (rePutInsert m l g s key value).2 := by
  simp only [rePutInsert]
  split_ifs <;>
    first
      | exact hI
      | exact Inv_insert m l g s _ _ _ _ _ hI hg hs hempty

/-- `Put` preserves the invariant. -/
theorem Put_inv (m : Shard) (l : Nat) (key value : List Nat) (hI : Inv m) :
    Inv (Put m l key value).2 := by
  unfold Put
  cases hpr : probeShard m l key with
  | found g s =>
    obtain ⟨hg, hs, hocc⟩ := probeShard_found_facts m l key g s hI hpr
    exact putUpdate_inv m g s value hI hg hs hocc
  | missAt g s => exact hI
  | nofuel => exact hI

/-- `PutMultiValue` preserves the invariant. -/
theorem PutMultiValue_inv (m : Shard) (l : Nat) (key : List Nat) (vlen : Nat)
    (vals : List (List Nat)) (hI : Inv m) :
    Inv (PutMultiValue m l key vlen vals).2 := by
  unfold PutMultiValue
  cases hpr : probeShard m l key with
  | found g s =>
    obtain ⟨hg, hs, hocc⟩ := probeShard_found_facts m l key g s hI hpr
    exact putMultiUpdate_inv m g s vlen vals hI hg hs hocc
  | missAt g s => exact hI
  | nofuel => exact hI

/-- `Delete` preserves the invariant. -/
theorem Delete_inv (m : Shard) (l : Nat) (key : List Nat) (hI : Inv m) :
    Inv (Delete m l key).2 := by
  unfold Delete
  cases hpr : probeShard m l key with
  | found g s =>
    obtain ⟨hg, hs, hocc⟩ := probeShard_found_facts m l key g s hI hpr
    show Inv (if (firstEmptySlot (m.ctrl.getD g [])).isSome then _ else _ : Bool × Shard).2
    split_ifs
    · exact Inv_revert m g s _ hI hg hs hocc
    · exact Inv_tombstone m g s _ false hI hg hs hocc
  | missAt g s => exact hI
  | nofuel => exact hI

/-- `countP` of a row overwritten with EMPTY bytes is zero for any tag that
rejects `emptyByte`. -/
theorem countP_map_const_empty (p : Int → Bool) (hp : p emptyByte = false)
    (c : List Int) : (c.map (fun _ => emptyByte)).countP p = 0 := by
  induction c with
  | nil => rfl
  | cons x xs ih =>
    simp only [List.map_cons, List.countP_cons, hp, ih]
    rfl

/-- `cntP` of a table overwritten with EMPTY bytes is zero for any tag that
rejects `emptyByte`. -/
theorem cntP_map_const_empty (p : Int → Bool) (hp : p emptyByte = false)
    (a : List (List Int)) :
    cntP p (a.map (fun c => c.map (fun _ => emptyByte))) = 0 := by
  induction a with
  | nil => rfl
  | cons c cs ih =>
    simp only [cntP, List.map_cons, List.sum_cons] at ih ⊢
    rw [countP_map_const_empty p hp c, ih]

/-- `Clear` restores the invariant (all counts zero). -/
theorem Clear_inv (m : Shard) (hI : Inv m) : Inv (Clear m) := by
  refine ⟨?_, ?_, ?_, ?_, ?_, ?_, ?_⟩
  · show (m.ctrl.map _).length = (m.groups.map _).length
    simp only [List.length_map]
    exact hI.hcl
  · show (m.counters.map _).length = (m.groups.map _).length
    simp only [List.length_map]
    exact hI.hnl
  · show 0 < (m.groups.map _).length
    simp only [List.length_map]
    exact hI.hpos
  · intro c hc
    simp only [Clear, List.mem_map] at hc
    obtain ⟨c0, hc0, hcc⟩ := hc
    rw [← hcc, List.length_map]
    exact hI.hg16 c0 hc0
  · show 0 = cntP usedTag (m.ctrl.map _)
    rw [cntP_map_const_empty usedTag tags_of_emptyByte.1]
  · show 0 = cntP tombTag (m.ctrl.map _)
    rw [cntP_map_const_empty tombTag tags_of_emptyByte.2.1]
  · show (newKVHolder m.kv.cap).items = cntP occTag (m.ctrl.map _)
    rw [cntP_map_const_empty occTag tags_of_emptyByte.2.2]
    rfl

/-- One `Eliminate` drop step preserves the invariant. -/
theorem elimStep_inv (p : Shard × Nat) (c : Nat × Nat) (hI : Inv p.1) :
    Inv (elimStep p c).1 := by
  unfold elimStep
  split_ifs with hskip
  · exact hI
  · push_neg at hskip
    obtain ⟨hnt, hne⟩ := hskip
    have hg : c.1 < p.1.ctrl.length := by
      by_contra hcon
      push_neg at hcon
      rw [List.getD_eq_default _ _ hcon] at hne
      exact hne rfl
    have hs : c.2 < (p.1.ctrl.getD c.1 []).length := by
      by_contra hcon
      push_neg at hcon
      rw [List.getD_eq_default _ _ hcon] at hne
      exact hne rfl
    have hocc : occTag ((p.1.ctrl.getD c.1 []).getD c.2 emptyByte) = true :=
      occ_of_ne _ hnt hne
    have hused := cntP_setSlot usedTag p.1.ctrl c.1 c.2 tombByte hg hs
    have htomb := cntP_setSlot tombTag p.1.ctrl c.1 c.2 tombByte hg hs
    have hoccs := cntP_setSlot occTag p.1.ctrl c.1 c.2 tombByte hg hs
    have hntm : ¬ tombTag ((p.1.ctrl.getD c.1 []).getD c.2 emptyByte) = true := by
      rw [occ_imp_not_tomb _ hocc]; simp
    have hno : ¬ occTag tombByte = true := by rw [tags_of_tombByte.2.2]; simp
    rw [if_pos (occ_imp_used _ hocc), if_pos tags_of_tombByte.1] at hused
    rw [if_neg hntm, if_pos tags_of_tombByte.2.1] at htomb
    rw [if_pos hocc, if_neg hno] at hoccs
    have hone := cntP_ge_one occTag p.1.ctrl c.1 c.2 hg hs hocc
    refine ⟨?_, ?_, ?_, hg16_setSlot _ _ _ hI.hg16, ?_, ?_, ?_⟩
    · show (setSlot p.1.ctrl c.1 c.2 tombByte).length
          = (setSlot p.1.groups c.1 c.2 0).length
      rw [setSlot_length, setSlot_length]
      exact hI.hcl
    · show p.1.counters.length = (setSlot p.1.groups c.1 c.2 0).length
      rw [setSlot_length]
      exact hI.hnl
    · show 0 < (setSlot p.1.groups c.1 c.2 0).length
      rw [setSlot_length]
      exact hI.hpos
    · show p.1.resident = cntP usedTag (setSlot p.1.ctrl c.1 c.2 tombByte)
      have := hI.hres
      omega
    · show p.1.dead + 1 = cntP tombTag (setSlot p.1.ctrl c.1 c.2 tombByte)
      have := hI.hdead
      omega
    · show p.1.kv.items - 1 = cntP occTag (setSlot p.1.ctrl c.1 c.2 tombByte)
      have := hI.hitems
      omega

/-- The whole `Eliminate` drop loop preserves the invariant. -/
theorem elimFold_inv (cs : List (Nat × Nat)) :
    ∀ p : Shard × Nat, Inv p.1 → Inv (cs.foldl elimStep p).1 := by
  induction cs with
  | nil => intro p hI; exact hI
  | cons c cs ih =>
    intro p hI
    exact ih (elimStep p c) (elimStep_inv p c hI)

/-- `Eliminate` preserves the invariant (the final counter decay only
rewrites counter values, not the table shape). -/
theorem Eliminate_inv (emr estart eend : ℚ) (m : Shard) (hI : Inv m) :
    Inv (Eliminate emr estart eend m).2.2 := by
  simp only [Eliminate]
  split_ifs
  · exact hI
  · exact hI
  · exact hI
  · have hfold := elimFold_inv
      (BuildMinTopCounter m.ctrl m.counters
        (((m.kv.items : ℚ) * (estart - eend) / estart).ceil.toNat)).1 (m, 0) hI
    set p := (BuildMinTopCounter m.ctrl m.counters
        (((m.kv.items : ℚ) * (estart - eend) / estart).ceil.toNat)).1.foldl
        elimStep (m, 0) with hp
    refine ⟨hfold.hcl, ?_, hfold.hpos, hfold.hg16, hfold.hres, hfold.hdead,
      hfold.hitems⟩
    show (p.1.counters.map _).length = p.1.groups.length
    rw [List.length_map]
    exact hfold.hnl

/-! ### The rebuild loops (`rehash` and `GCCopy`) -/

theorem nextSize_pos (m : Shard) (h : 0 < m.groups.length) : 0 < nextSize m := by
  simp only [nextSize]
  split <;> omega

theorem nextSize_ge (m : Shard) : m.groups.length ≤ nextSize m := by
  simp only [nextSize]
  split <;> omega

/-- Every branch of `gcSet` appends one record. -/
theorem gcSet_items (kv : KVHolder) (key value : List Nat) :
    (gcSet kv key value).1.items = kv.items + 1 := by
  simp only [gcSet]
  split_ifs <;> rfl

theorem probeEmptyLoop_some (ctrl : List (List Int)) (gl : Nat) :
    ∀ fuel g g' s', probeEmptyLoop ctrl gl fuel g = some (g', s') →
      firstEmptySlot (ctrl.getD g' []) = some s' := by
  intro fuel
  induction fuel with
  | zero => intro g g' s' h; simp [probeEmptyLoop] at h
  | succ n ih =>
    intro g g' s' h
    unfold probeEmptyLoop at h
    rcases he : firstEmptySlot (ctrl.getD g []) with _ | s
    · rw [he] at h
      exact ih _ _ _ h
    · rw [he] at h
      cases h
      exact he

theorem probeEmptyLoop_bounds (ctrl : List (List Int)) (gl : Nat) (hgl : 0 < gl) :
    ∀ fuel g g' s', g < gl → probeEmptyLoop ctrl gl fuel g = some (g', s') →
      g' < gl := by
  intro fuel
  induction fuel with
  | zero => intro g g' s' hg h; simp [probeEmptyLoop] at h
  | succ n ih =>
    intro g g' s' hg h
    have hnext : (if g + 1 ≥ gl then 0 else g + 1) < gl := by
      split <;> omega
    unfold probeEmptyLoop at h
    rcases he : firstEmptySlot (ctrl.getD g []) with _ | s
    · rw [he] at h
      exact ih _ _ _ hnext h
    · rw [he] at h
      cases h
      exact hg

/-- The circular scan of `probeEmptyLoop` terminates whenever some group
has an EMPTY slot and the fuel covers the distance to it. -/
theorem probeEmptyLoop_reaches (ctrl : List (List Int)) (gl : Nat)
    (g0 : Nat) (hg0 : g0 < gl)
    (hne : (firstEmptySlot (ctrl.getD g0 [])).isSome) :
    ∀ fuel start, start < gl →
      (if start ≤ g0 then g0 - start else g0 + gl - start) < fuel →
      ∃ g s, probeEmptyLoop ctrl gl fuel start = some (g, s) := by
  intro fuel
  induction fuel with
  | zero => intro start hs hd; omega
  | succ n ih =>
    intro start hs hd
    rcases he : firstEmptySlot (ctrl.getD start []) with _ | s
    · have hdiff : ¬ start = g0 := by
        intro hcon
        rw [← hcon, he] at hne
        simp at hne
      have hnext : (if start + 1 ≥ gl then 0 else start + 1) < gl := by
        split <;> omega
      have hdist : (if (if start + 1 ≥ gl then 0 else start + 1) ≤ g0 then
          g0 - (if start + 1 ≥ gl then 0 else start + 1)
          else g0 + gl - (if start + 1 ≥ gl then 0 else start + 1)) < n := by
        split at hd <;> split <;> split <;> omega
      obtain ⟨g, s, hgs⟩ := ih _ hnext hdist
      refine ⟨g, s, ?_⟩
      unfold probeEmptyLoop
      rw [he]
      exact hgs
    · refine ⟨start, s, ?_⟩
      unfold probeEmptyLoop
      rw [he]

/-- With fuel `gl` the circular scan reaches every group. -/
theorem probeEmptyLoop_total (ctrl : List (List Int)) (gl : Nat)
    (g0 : Nat) (hg0 : g0 < gl)
    (hne : (firstEmptySlot (ctrl.getD g0 [])).isSome)
    (start : Nat) (hs : start < gl) :
    ∃ g s, probeEmptyLoop ctrl gl gl start = some (g, s) := by
  refine probeEmptyLoop_reaches ctrl gl g0 hg0 hne gl start hs ?_
  split <;> omega

/-- A group with no EMPTY slot contributes a full `usedTag` count. -/
theorem firstEmptySlot_none_full (cg : List Int) (h16 : cg.length = 16)
    (h : firstEmptySlot cg = none) : cg.countP usedTag = 16 := by
  have hall : ∀ t, 0 ≤ t → t < 0 + 16 → decide (cg.getD t emptyByte = emptyByte) = false :=
    scanSlots_none _ _ _ h
  rw [← h16]
  rw [List.countP_eq_length]
  intro b hb
  obtain ⟨t, hbt⟩ := List.mem_iff_get.mp hb
  have ht16 : t.1 < 16 := by rw [← h16]; exact t.isLt
  have hgd : cg.getD t.1 emptyByte = b := by
    rw [List.getD_eq_getElem?_getD, List.getElem?_eq_getElem t.isLt]
    simp [← hbt]
  have hfalse := hall t.1 (Nat.zero_le _) (by omega)
  rw [hgd] at hfalse
  unfold usedTag
  simpa using hfalse

theorem cntP_full (ctrl : List (List Int))
    (hall : ∀ c ∈ ctrl, c.countP usedTag = 16) :
    cntP usedTag ctrl = 16 * ctrl.length := by
  induction ctrl with
  | nil => rfl
  | cons c cs ih =>
    simp only [cntP, List.map_cons, List.sum_cons, List.length_cons] at ih ⊢
    rw [hall c (by simp), ih (fun x hx => hall x (List.mem_cons_of_mem _ hx))]
    ring

/-- A table that is not full has a group with an EMPTY slot. -/
theorem exists_empty_slot (ctrl : List (List Int))
    (h16 : ∀ c ∈ ctrl, c.length = 16)
    (hlt : cntP usedTag ctrl < 16 * ctrl.length) :
    ∃ g, g < ctrl.length ∧ (firstEmptySlot (ctrl.getD g [])).isSome := by
  by_contra hcon
  push_neg at hcon
  have hfull : ∀ c ∈ ctrl, c.countP usedTag = 16 := by
    intro c hc
    obtain ⟨t, hct⟩ := List.mem_iff_get.mp hc
    have hgd : ctrl.getD t.1 [] = c := by
      rw [List.getD_eq_getElem?_getD, List.getElem?_eq_getElem t.isLt]
      simp [← hct]
    have hnone : firstEmptySlot c = none := by
      have := hcon t.1 t.isLt
      rw [hgd] at this
      exact Option.not_isSome_iff_eq_none.mp this
    exact firstEmptySlot_none_full c (h16 c hc) hnone
  have := cntP_full ctrl hfull
  omega

/-- The running invariant of the rebuild loops: fresh table dimensions, a
tombstone-free control table, and `res` counting both the `usedTag` and
`occTag` bytes as well as the re-inserted records. -/
structure CopyInv (n : Nat) (acc : CopyAcc) : Prop where
  hcl : acc.ctrl.length = n
  hnl : acc.counters.length = n
  hgl : acc.groups.length = n
  hg16 : ∀ c ∈ acc.ctrl, c.length = 16
  hn16 : ∀ c ∈ acc.counters, c.length = 16
  hgg16 : ∀ c ∈ acc.groups, c.length = 16
  hres : acc.res = cntP usedTag acc.ctrl
  htomb : cntP tombTag acc.ctrl = 0
  hocc : acc.res = cntP occTag acc.ctrl
  hitems : acc.kv.items = acc.res

theorem countP_replicate_empty (p : Int → Bool) (hp : p emptyByte = false) :
    ∀ k, (List.replicate k emptyByte).countP p = 0 := by
  intro k
  induction k with
  | zero => rfl
  | succ t ih =>
    rw [List.replicate_succ, List.countP_cons, hp, ih]
    rfl

theorem cntP_replicate_empty (p : Int → Bool) (hp : p emptyByte = false) :
    ∀ k, cntP p (List.replicate k (List.replicate groupSize emptyByte)) = 0 := by
  intro k
  induction k with
  | zero => rfl
  | succ t ih =>
    rw [List.replicate_succ]
    simp only [cntP, List.map_cons, List.sum_cons] at ih ⊢
    rw [countP_replicate_empty p hp, ih]

theorem initCopyAcc_copyInv (n cap : Nat) : CopyInv n (initCopyAcc n cap) := by
  refine ⟨?_, ?_, ?_, ?_, ?_, ?_, ?_, ?_, ?_, rfl⟩
  · exact List.length_replicate _ _
  · exact List.length_replicate _ _
  · exact List.length_replicate _ _
  · intro c hc
    rw [List.eq_of_mem_replicate hc]
    exact List.length_replicate _ _
  · intro c hc
    rw [List.eq_of_mem_replicate hc]
    exact List.length_replicate _ _
  · intro c hc
    rw [List.eq_of_mem_replicate hc]
    exact List.length_replicate _ _
  · exact (cntP_replicate_empty usedTag tags_of_emptyByte.1 n).symm
  · exact cntP_replicate_empty tombTag tags_of_emptyByte.2.1 n
  · exact (cntP_replicate_empty occTag tags_of_emptyByte.2.2 n).symm

/-- One rebuild step preserves the running invariant. -/
theorem copyStep_copyInv (hashFn : List Nat → Nat) (oldData : Nat → Nat)
    (n : Nat) (acc : CopyAcc) (e : Int × Nat × Nat) (hCI : CopyInv n acc) :
    CopyInv n (copyStep hashFn oldData n acc e) := by
  simp only [copyStep]
  split_ifs
  · exact hCI
  · rcases hpe : probeEmptyLoop acc.ctrl n n
        (probeStart (splitHash (hashFn (getKey oldData e.2.1))).1 n) with _ | gs
    · exact hCI
    · obtain ⟨g', s'⟩ := gs
      have hfes := probeEmptyLoop_some acc.ctrl n _ _ _ _ hpe
      obtain ⟨hs16, hbyte⟩ := firstEmptySlot_some _ _ hfes
      by_cases hn : 0 < n
      · have hg : g' < acc.ctrl.length := by
          rw [hCI.hcl]
          exact probeEmptyLoop_bounds acc.ctrl n hn _ _ _ _
            (Nat.mod_lt _ hn) hpe
        have hs : s' < (acc.ctrl.getD g' []).length := by
          rw [hCI.hg16 _ (getD_mem _ _ _ hg)]
          exact hs16
        set l := hashFn (getKey oldData e.2.1) with hl
        have hused := cntP_setSlot usedTag acc.ctrl g' s' (h2i l) hg hs
        have htomb := cntP_setSlot tombTag acc.ctrl g' s' (h2i l) hg hs
        have hoccs := cntP_setSlot occTag acc.ctrl g' s' (h2i l) hg hs
        rw [hbyte] at hused htomb hoccs
        have hnu : ¬ usedTag emptyByte = true := by rw [tags_of_emptyByte.1]; simp
        have hnt1 : ¬ tombTag emptyByte = true := by rw [tags_of_emptyByte.2.1]; simp
        have hno1 : ¬ occTag emptyByte = true := by rw [tags_of_emptyByte.2.2]; simp
        have hnt2 : ¬ tombTag (h2i l) = true := by rw [(tags_of_h2i l).2.1]; simp
        rw [if_neg hnu, if_pos (tags_of_h2i l).1] at hused
        rw [if_neg hnt1, if_neg hnt2] at htomb
        rw [if_neg hno1, if_pos (tags_of_h2i l).2.2] at hoccs
        refine ⟨?_, ?_, ?_, hg16_setSlot _ _ _ hCI.hg16,
          setSlot_rows16 _ _ _ _ hCI.hn16, setSlot_rows16 _ _ _ _ hCI.hgg16,
          ?_, ?_, ?_, ?_⟩
        · show (setSlot acc.ctrl g' s' (h2i l)).length = n
          rw [setSlot_length]; exact hCI.hcl
        · show (setSlot acc.counters g' s' e.2.2).length = n
          rw [setSlot_length]; exact hCI.hnl
        · show (setSlot acc.groups g' s' _).length = n
          rw [setSlot_length]; exact hCI.hgl
        · show acc.res + 1 = cntP usedTag (setSlot acc.ctrl g' s' (h2i l))
          have := hCI.hres
          omega
        · show cntP tombTag (setSlot acc.ctrl g' s' (h2i l)) = 0
          have := hCI.htomb
          omega
        · show acc.res + 1 = cntP occTag (setSlot acc.ctrl g' s' (h2i l))
          have := hCI.hocc
          omega
        · show (gcSet acc.kv (getKey oldData e.2.1) (readVal oldData e.2.1)).1.items
              = acc.res + 1
          rw [gcSet_items]
          exact congrArg (· + 1) hCI.hitems
      · have hn0 : n = 0 := by omega
        subst hn0
        simp [probeEmptyLoop] at hpe

/-- The whole rebuild loop preserves the running invariant. -/
theorem copyAll_copyInv (hashFn : List Nat → Nat) (oldData : Nat → Nat)
    (n : Nat) (es : List (Int × Nat × Nat)) :
    ∀ acc, CopyInv n acc → CopyInv n (copyAll hashFn oldData n es acc) := by
  induction es with
  | nil => intro acc h; exact h
  | cons e es ih =>
    intro acc h
    exact ih _ (copyStep_copyInv hashFn oldData n acc e h)

/-- `rehash` restores the invariant. -/
theorem rehash_inv (hashFn : List Nat → Nat) (m : Shard) (hI : Inv m) :
    Inv (rehash hashFn m) := by
  have hCI := copyAll_copyInv hashFn m.kv.data (nextSize m) (slotEntries m)
    (initCopyAcc (nextSize m) m.kv.cap)
    (initCopyAcc_copyInv (nextSize m) m.kv.cap)
  simp only [rehash]
  set acc := copyAll hashFn m.kv.data (nextSize m) (slotEntries m)
    (initCopyAcc (nextSize m) m.kv.cap) with hacc
  exact ⟨by rw [hCI.hcl, hCI.hgl],
    by rw [hCI.hnl, hCI.hgl],
    by rw [hCI.hgl]; exact nextSize_pos m hI.hpos,
    hCI.hg16, hCI.hres, hCI.htomb.symm, hCI.hitems.trans hCI.hocc⟩

/-! ### The rebuild loop re-inserts every occupied record -/

theorem not_occ_iff (b : Int) :
    occTag b = false ↔ (b = emptyByte ∨ b = tombByte) := by
  unfold occTag
  by_cases h1 : b = emptyByte <;> by_cases h2 : b = tombByte <;> simp [h1, h2]

/-- A skipped (EMPTY / TOMBSTONE) entry leaves the accumulator alone. -/
theorem copyStep_skip (hashFn : List Nat → Nat) (oldData : Nat → Nat) (n : Nat)
    (acc : CopyAcc) (e : Int × Nat × Nat) (h : occTag e.1 = false) :
    copyStep hashFn oldData n acc e = acc := by
  unfold copyStep
  rw [if_pos ((not_occ_iff e.1).mp h)]

/-- An occupied entry is re-inserted whenever the new table is not full. -/
theorem copyStep_res_occ (hashFn : List Nat → Nat) (oldData : Nat → Nat) (n : Nat)
    (acc : CopyAcc) (e : Int × Nat × Nat) (hCI : CopyInv n acc) (hn : 0 < n)
    (hocc : occTag e.1 = true) (hlt : acc.res < 16 * n) :
    (copyStep hashFn oldData n acc e).res = acc.res + 1 := by
  have hnocc : ¬ (e.1 = emptyByte ∨ e.1 = tombByte) := by
    intro hcon
    rw [← not_occ_iff] at hcon
    rw [hocc] at hcon
    cases hcon
  have hex : ∃ g, g < acc.ctrl.length ∧ (firstEmptySlot (acc.ctrl.getD g [])).isSome := by
    refine exists_empty_slot acc.ctrl hCI.hg16 ?_
    rw [hCI.hcl, ← hCI.hres]
    exact hlt
  obtain ⟨g0, hg0, hg0some⟩ := hex
  obtain ⟨g, s, hsome⟩ := probeEmptyLoop_total acc.ctrl n g0
    (by rw [← hCI.hcl]; exact hg0) hg0some
    (probeStart (splitHash (hashFn (getKey oldData e.2.1))).1 n) (Nat.mod_lt _ hn)
  simp only [copyStep]
  rw [if_neg hnocc, hsome]

theorem copyAll_res (hashFn : List Nat → Nat) (oldData : Nat → Nat) (n : Nat)
    (hn : 0 < n) :
    ∀ (es : List (Int × Nat × Nat)) (acc : CopyAcc), CopyInv n acc →
      acc.res + es.countP (fun e => occTag e.1) ≤ 16 * n →
      (copyAll hashFn oldData n es acc).res
        = acc.res + es.countP (fun e => occTag e.1) := by
  intro es
  induction es with
  | nil => intro acc hCI hcap; simp [copyAll]
  | cons e es ih =>
    intro acc hCI hcap
    have hunf : copyAll hashFn oldData n (e :: es) acc
        = copyAll hashFn oldData n es (copyStep hashFn oldData n acc e) := rfl
    rw [hunf, List.countP_cons] at *
    by_cases hocc : occTag e.1 = true
    · rw [if_pos hocc] at hcap ⊢
      have hlt : acc.res < 16 * n := by omega
      have hres1 := copyStep_res_occ hashFn oldData n acc e hCI hn hocc hlt
      have hCI1 := copyStep_copyInv hashFn oldData n acc e hCI
      rw [ih _ hCI1 (by omega), hres1]
      omega
    · rw [Bool.not_eq_true] at hocc
      rw [if_neg (by simp [hocc])] at hcap ⊢
      rw [copyStep_skip hashFn oldData n acc e hocc]
      rw [ih _ hCI (by omega)]
      omega

/-! ### Counting occupied entries of `slotEntries` -/

theorem countP_flatMap {α β : Type} (p : β → Bool) (f : α → List β) :
    ∀ l : List α, (l.flatMap f).countP p = (l.map (fun a => (f a).countP p)).sum := by
  intro l
  induction l with
  | nil => rfl
  | cons a l ih =>
    rw [List.flatMap_cons, List.countP_append, List.map_cons, List.sum_cons, ih]

theorem countP_range_getD {α : Type} (p : α → Bool) (d : α) :
    ∀ c : List α,
      (List.range c.length).countP (fun s => p (c.getD s d)) = c.countP p := by
  intro c
  induction c with
  | nil => rfl
  | cons x xs ih =>
    rw [List.length_cons, List.range_succ_eq_map, List.countP_cons, List.countP_map]
    have hc : List.countP ((fun s => p ((x :: xs).getD s d)) ∘ Nat.succ)
          (List.range xs.length)
        = List.countP (fun s => p (xs.getD s d)) (List.range xs.length) := by
      apply List.countP_congr
      intro s _
      simp [Function.comp, List.getD_cons_succ]
    rw [hc, ih, List.countP_cons]
    simp [List.getD_cons_zero]

theorem sum_range_getD {α : Type} (f : α → Nat) (d : α) :
    ∀ l : List α,
      ((List.range l.length).map (fun g => f (l.getD g d))).sum = (l.map f).sum := by
  intro l
  induction l with
  | nil => rfl
  | cons x xs ih =>
    rw [List.length_cons, List.range_succ_eq_map]
    simp only [List.map_cons, List.sum_cons, List.map_map]
    rw [List.getD_cons_zero]
    congr 1

/-- Counting a control-byte property over the iteration order of the
rebuild loops agrees with counting over the table. -/
theorem slotEntries_countP (m : Shard) (p : Int → Bool) :
    (slotEntries m).countP (fun e => p e.1) = cntP p m.ctrl := by
  unfold slotEntries
  rw [countP_flatMap]
  have hinner : ∀ g,
      (((List.range (m.ctrl.getD g []).length).map fun s =>
        (((m.ctrl.getD g []).getD s emptyByte : Int),
         ((m.groups.getD g []).getD s 0 : Nat),
         ((m.counters.getD g []).getD s 0 : Nat))).countP fun e => p e.1)
      = (m.ctrl.getD g []).countP p := by
    intro g
    rw [List.countP_map]
    exact countP_range_getD p emptyByte (m.ctrl.getD g [])
  have houter : ((List.range m.ctrl.length).map fun g =>
        (((List.range (m.ctrl.getD g []).length).map fun s =>
          (((m.ctrl.getD g []).getD s emptyByte : Int),
           ((m.groups.getD g []).getD s 0 : Nat),
           ((m.counters.getD g []).getD s 0 : Nat))).countP fun e => p e.1))
      = ((List.range m.ctrl.length).map fun g => (m.ctrl.getD g []).countP p) := by
    apply List.map_congr_left
    intro g _
    exact hinner g
  rw [houter]
  exact sum_range_getD (fun c => c.countP p) [] m.ctrl

/-- `GCCopy` preserves the invariant. -/
theorem GCCopy_inv (hashFn : List Nat → Nat) (gr : ℚ) (m : Shard) (hI : Inv m) :
    Inv (GCCopy hashFn gr m).2.2.2 := by
  simp only [GCCopy]
  split_ifs
  · exact hI
  · exact hI
  · have hpart := cntP_partition m.ctrl
    have hle := cntP_le_16len usedTag m.ctrl hI.hg16
    have hCI0 := initCopyAcc_copyInv m.groups.length m.kv.cap
    have hcnt : (slotEntries m).countP (fun e => occTag e.1) = cntP occTag m.ctrl :=
      slotEntries_countP m occTag
    have hcap : (initCopyAcc m.groups.length m.kv.cap).res
        + (slotEntries m).countP (fun e => occTag e.1) ≤ 16 * m.groups.length := by
      have h0 : (initCopyAcc m.groups.length m.kv.cap).res = 0 := rfl
      rw [h0, hcnt]
      rw [hI.hcl] at hle
      omega
    have hres := copyAll_res hashFn m.kv.data m.groups.length hI.hpos
      (slotEntries m) (initCopyAcc m.groups.length m.kv.cap) hCI0 hcap
    have hCI := copyAll_copyInv hashFn m.kv.data m.groups.length (slotEntries m)
      (initCopyAcc m.groups.length m.kv.cap) hCI0
    set acc := copyAll hashFn m.kv.data m.groups.length (slotEntries m)
      (initCopyAcc m.groups.length m.kv.cap) with hacc
    have hres0 : (initCopyAcc m.groups.length m.kv.cap).res = 0 := rfl
    rw [hres0, hcnt] at hres
    have hrd : m.resident - m.dead = acc.res := by
      have h1 := hI.hres
      have h2 := hI.hdead
      omega
    exact ⟨by rw [hCI.hcl, hCI.hgl],
      by rw [hCI.hnl, hCI.hgl],
      by rw [hCI.hgl]; exact hI.hpos,
      hCI.hg16,
      by rw [hrd]; exact hCI.hres,
      hCI.htomb.symm,
      hCI.hitems.trans hCI.hocc⟩

/-- `RePut` preserves the invariant. -/
theorem RePut_inv (hashFn : List Nat → Nat) (m : Shard) (l : Nat)
    (key value : List Nat) (hI : Inv m) :
    Inv (RePut hashFn m l key value).2 := by
  simp only [RePut]
  split_ifs with h1 h2 h3
  · exact hI
  · exact hI
  · have hM : Inv (rehash hashFn m) := rehash_inv hashFn m hI
    cases hpr : probeShard (rehash hashFn m) l key with
    | found g s =>
      obtain ⟨hg, hs, hocc⟩ := probeShard_found_facts _ l key g s hM hpr
      exact rePutUpdate_inv _ g s value hM hg hs hocc
    | missAt g s =>
      obtain ⟨hg, hs, hempty⟩ := probeShard_missAt_facts _ l key g s hM hpr
      exact rePutInsert_inv _ l g s key value hM hg hs hempty
    | nofuel => exact hM
  · cases hpr : probeShard m l key with
    | found g s =>
      obtain ⟨hg, hs, hocc⟩ := probeShard_found_facts m l key g s hI hpr
      exact rePutUpdate_inv m g s value hI hg hs hocc
    | missAt g s =>
      obtain ⟨hg, hs, hempty⟩ := probeShard_missAt_facts m l key g s hI hpr
      exact rePutInsert_inv m l g s key value hI hg hs hempty
    | nofuel => exact hI

/-- A fresh shard satisfies the invariant. -/
theorem Inv_init (sz memMax : Nat) : Inv (initShard sz memMax) := by
  refine ⟨?_, ?_, ?_, ?_, ?_, ?_, ?_⟩
  · show (List.replicate (numGroups sz) (List.replicate groupSize emptyByte)).length
        = (List.replicate (numGroups sz) (List.replicate groupSize 0)).length
    simp [List.length_replicate]
  · show (List.replicate (numGroups sz) (List.replicate groupSize (0 : Nat))).length
        = (List.replicate (numGroups sz) (List.replicate groupSize 0)).length
    rw [List.length_replicate]
  · show 0 < (List.replicate (numGroups sz) (List.replicate groupSize (0 : Nat))).length
    rw [List.length_replicate]
    exact Nat.lt_of_lt_of_le Nat.zero_lt_one (le_max_left 1 _)
  · intro c hc
    rw [List.eq_of_mem_replicate hc]
    exact List.length_replicate _ _
  · exact (cntP_replicate_empty usedTag tags_of_emptyByte.1 _).symm
  · exact (cntP_replicate_empty tombTag tags_of_emptyByte.2.1 _).symm
  · exact (cntP_replicate_empty occTag tags_of_emptyByte.2.2 _).symm

/-- Every single operation preserves the invariant. -/
theorem applyOp_inv (hashFn : List Nat → Nat) (m : Shard) (op : ShardOp)
    (hI : Inv m) : Inv (applyOp hashFn m op) := by
  cases op with
  | putOp l k v => exact Put_inv m l k v hI
  | putMultiOp l k vlen vals => exact PutMultiValue_inv m l k vlen vals hI
  | rePutOp l k v => exact RePut_inv hashFn m l k v hI
  | delOp l k => exact Delete_inv m l k hI
  | elimOp a b c => exact Eliminate_inv a b c m hI
  | gcOp gr => exact GCCopy_inv hashFn gr m hI
  | rehashOp => exact rehash_inv hashFn m hI
  | clearOp => exact Clear_inv m hI

theorem applyOps_inv (hashFn : List Nat → Nat) (ops : List ShardOp) :
    ∀ m, Inv m → Inv (ops.foldl (applyOp hashFn) m) := by
  induction ops with
  | nil => intro m hI; exact hI
  | cons op ops ih =>
    intro m hI
    exact ih _ (applyOp_inv hashFn m op hI)

/-- C5: after any sequence of shard operations (`Put`, `PutMultiValue`,
`RePut`, `Delete`, `Eliminate`, `GCCopy`, `rehash`, `Clear`) applied to a
fresh shard, `Count` (`resident - dead`) equals `Items`
(`kv_holder.items`), and `items + dead = resident`. -/
theorem c5_count_consistency (hashFn : List Nat → Nat) (sz memMax : Nat)
    (ops : List ShardOp) :
    Count (ops.foldl (applyOp hashFn) (initShard sz memMax))
      = Items (ops.foldl (applyOp hashFn) (initShard sz memMax)) ∧
    Items (ops.foldl (applyOp hashFn) (initShard sz memMax))
      + (ops.foldl (applyOp hashFn) (initShard sz memMax)).dead
      = (ops.foldl (applyOp hashFn) (initShard sz memMax)).resident := by
  have hI := applyOps_inv hashFn ops (initShard sz memMax) (Inv_init sz memMax)
  set M := ops.foldl (applyOp hashFn) (initShard sz memMax) with hM
  have hpart := cntP_partition M.ctrl
  have h1 := hI.hres
  have h2 := hI.hdead
  have h3 := hI.hitems
  unfold Count Items
  omega

/-! ### Towards the rehash contents theorem (C7) -/

theorem readBytes_length (d : Nat → Nat) (off n : Nat) :
    (readBytes d off n).length = n := by
  induction n generalizing off with
  | zero => rfl
  | succ k ih =>
    simp only [readBytes, List.length_cons]
    rw [ih]

theorem getKey_length (d : Nat → Nat) (w : Nat) : (getKey d w).length = 16 :=
  readBytes_length _ _ _

theorem load32_lt (d : Nat → Nat) (hb : ∀ j, d j < 256) (off : Nat) :
    load32 d off < 4294967296 := by
  unfold load32
  have h0 := hb off
  have h1 := hb (off + 1)
  have h2 := hb (off + 2)
  have h3 := hb (off + 3)
  omega

/-- Over a byte-valued arena every stored value's length is below `2^32`. -/
theorem readVal_length_lt (d : Nat → Nat) (hb : ∀ j, d j < 256) (w : Nat) :
    (readVal d w).length < 4294967296 := by
  simp only [readVal]
  split_ifs
  · rw [readBytes_length]
    unfold smallSizeOf
    omega
  · rw [readBytes_length]
    exact load32_lt d hb _
  · rw [readBytes_length]
    unfold smallSizeOf capOrBigSizeOf
    omega

theorem h2i_ne_empty (l : Nat) : ¬ h2i l = emptyByte := by
  intro hcon
  have h := (tags_of_h2i l).1
  rw [hcon, tags_of_emptyByte.1] at h
  cases h

/-- Updating one slot leaves every other slot's value unchanged. -/
theorem setSlot_getD_ne {α : Type} (a : List (List α)) (g0 s0 g s : Nat) (x d : α)
    (hne : ¬ (g0 = g ∧ s0 = s)) :
    ((setSlot a g0 s0 x).getD g []).getD s d = (a.getD g []).getD s d := by
  by_cases hg : g0 = g
  · subst hg
    have hs : s0 ≠ s := fun hcon => hne ⟨rfl, hcon⟩
    by_cases hlen : g0 < a.length
    · rw [setSlot_getD_self a g0 s0 x hlen]
      exact getD_set_ne _ _ _ _ _ hs
    · unfold setSlot
      rw [List.set_eq_of_length_le (by omega)]
  · unfold setSlot
    rw [getD_set_ne _ _ _ _ _ hg]

/-! #### The `gcSet` record layout -/

theorem gcSet_tail (kv : KVHolder) (k v : List Nat) :
    (gcSet kv k v).1.tail
      = kv.tail + 20 + (if v.length ≥ overLongSize then Cap4Size v.length + 4
          else Cap4Size v.length) := by
  simp only [gcSet]
  split_ifs <;> rfl

theorem gcSet_tail_ge (kv : KVHolder) (k v : List Nat) :
    kv.tail ≤ (gcSet kv k v).1.tail := by
  rw [gcSet_tail]
  split <;> omega

theorem gcSet_tail_mod (kv : KVHolder) (k v : List Nat) (h : kv.tail % 4 = 0) :
    (gcSet kv k v).1.tail % 4 = 0 := by
  rw [gcSet_tail]
  unfold Cap4Size
  split <;> omega

theorem gcSet_data_long (kv : KVHolder) (k v : List Nat)
    (h : v.length ≥ overLongSize) :
    (gcSet kv k v).1.data
      = store32 (writeBytes (store32 (writeBytes kv.data kv.tail k)
          (kv.tail + 16 + 4) v.length) (kv.tail + 16 + 4 + 4) v)
          (kv.tail + 16) ((kv.tail + 16 + 4) / storeUintBytes + overLongStoreHeaderL) := by
  simp only [gcSet]
  rw [if_pos h]

theorem gcSet_word_long (kv : KVHolder) (k v : List Nat)
    (h : v.length ≥ overLongSize) :
    (gcSet kv k v).2
      = kv.tail / storeUintBytes + overLongStoreHeaderH + mapTypeHeader := by
  simp only [gcSet]
  rw [if_pos h]

theorem gcSet_data_mid (kv : KVHolder) (k v : List Nat)
    (h1 : ¬ v.length ≥ overLongSize) (h2 : v.length ≥ overShortSize) :
    (gcSet kv k v).1.data
      = store32 (writeBytes (writeBytes kv.data kv.tail k) (kv.tail + 16 + 4) v)
          (kv.tail + 16) ((kv.tail + 16 + 4) / 4 + v.length % 256 * 16777216) := by
  simp only [gcSet]
  rw [if_neg h1, if_pos h2]

theorem gcSet_word_mid (kv : KVHolder) (k v : List Nat)
    (h1 : ¬ v.length ≥ overLongSize) (h2 : v.length ≥ overShortSize) :
    (gcSet kv k v).2
      = kv.tail / 4 + v.length / 256 * 16777216 + mapTypeHeader := by
  simp only [gcSet]
  rw [if_neg h1, if_pos h2]

theorem gcSet_data_small (kv : KVHolder) (k v : List Nat)
    (h1 : ¬ v.length ≥ overLongSize) (h2 : ¬ v.length ≥ overShortSize) :
    (gcSet kv k v).1.data
      = store32 (writeBytes (writeBytes kv.data kv.tail k) (kv.tail + 16 + 4) v)
          (kv.tail + 16) ((kv.tail + 16 + 4) / 4 + v.length * 16777216) := by
  simp only [gcSet]
  rw [if_neg h1, if_neg h2]

theorem gcSet_word_small (kv : KVHolder) (k v : List Nat)
    (h1 : ¬ v.length ≥ overLongSize) (h2 : ¬ v.length ≥ overShortSize) :
    (gcSet kv k v).2
      = kv.tail / 4 + Cap4Size v.length / 4 * 16777216 := by
  simp only [gcSet]
  rw [if_neg h1, if_neg h2]

theorem gcSet_frame (kv : KVHolder) (k v : List Nat) (j : Nat)
    (hj : j < kv.tail) : (gcSet kv k v).1.data j = kv.data j := by
  rcases Nat.lt_or_ge v.length overLongSize with h1 | h1
  · rcases Nat.lt_or_ge v.length overShortSize with h2 | h2
    · rw [gcSet_data_small kv k v (by omega) (by omega)]
      rw [store32_eq_of_lt _ _ _ _ (by omega), writeBytes_eq_of_lt _ _ _ _ (by omega),
        writeBytes_eq_of_lt _ _ _ _ (by omega)]
    · rw [gcSet_data_mid kv k v (by omega) h2]
      rw [store32_eq_of_lt _ _ _ _ (by omega), writeBytes_eq_of_lt _ _ _ _ (by omega),
        writeBytes_eq_of_lt _ _ _ _ (by omega)]
  · rw [gcSet_data_long kv k v h1]
    rw [store32_eq_of_lt _ _ _ _ (by omega), writeBytes_eq_of_lt _ _ _ _ (by omega),
      store32_eq_of_lt _ _ _ _ (by omega), writeBytes_eq_of_lt _ _ _ _ (by omega)]

/-- A record appended by `gcSet` reads back — through the returned Word-A
descriptor — from any arena that agrees with the new one below the new
tail. -/
theorem gcSet_readback (kv : KVHolder) (k v : List Nat)
    (hk : k.length = 16) (hv32 : v.length < 4294967296)
    (ht4 : kv.tail % 4 = 0)
    (hbound : kv.tail + 20 < maxShardMemSize)
    (d' : Nat → Nat)
    (hagree : ∀ j, j < (gcSet kv k v).1.tail → d' j = (gcSet kv k v).1.data j) :
    getKey d' (gcSet kv k v).2 = k ∧ readVal d' (gcSet kv k v).2 = v := by
  have hcap4 : v.length ≤ Cap4Size v.length := by unfold Cap4Size; omega
  have hcap4m : Cap4Size v.length % 4 = 0 := by unfold Cap4Size; omega
  rcases Nat.lt_or_ge v.length overLongSize with hL | hL
  · rcases Nat.lt_or_ge v.length overShortSize with hS | hS
    · -- small-inline layout
      unfold overLongSize at hL
      unfold overShortSize at hS
      have hnl : ¬ v.length ≥ overLongSize := by unfold overLongSize; omega
      have hns : ¬ v.length ≥ overShortSize := by unfold overShortSize; omega
      rw [gcSet_tail, if_neg hnl] at hagree
      rw [gcSet_data_small kv k v hnl hns] at hagree
      rw [gcSet_word_small kv k v hnl hns]
      unfold maxShardMemSize at hbound
      have hT4 : kv.tail / 4 < 16777216 := by omega
      have hV4 : (kv.tail + 16 + 4) / 4 < 16777216 := by omega
      have hw0 : offsetOf (kv.tail / 4 + Cap4Size v.length / 4 * 16777216)
          = kv.tail / 4 := by
        unfold offsetOf
        omega
      have hty : valTypeOf (kv.tail / 4 + Cap4Size v.length / 4 * 16777216) = 0 := by
        unfold valTypeOf Cap4Size
        omega
      have hkEnd4 : kv.tail / 4 * 4 = kv.tail := by omega
      have hkey : getKey d' (kv.tail / 4 + Cap4Size v.length / 4 * 16777216) = k := by
        unfold getKey
        rw [hw0, hkEnd4]
        have hcong : readBytes d' kv.tail 16
            = readBytes (writeBytes kv.data kv.tail k) kv.tail 16 := by
          apply readBytes_congr
          intro j hj1 hj2
          rw [hagree j (by omega)]
          rw [store32_eq_of_lt _ _ _ _ (by omega),
            writeBytes_eq_of_lt _ _ _ _ (by omega)]
        have hself := readBytes_writeBytes_self k kv.data kv.tail
        rw [hk] at hself
        rw [hcong]
        exact hself
      have hvh : load32 d' (kv.tail + 16)
          = (kv.tail + 16 + 4) / 4 + v.length * 16777216 := by
        have hcong : load32 d' (kv.tail + 16)
            = load32 (store32 (writeBytes (writeBytes kv.data kv.tail k)
                (kv.tail + 16 + 4) v) (kv.tail + 16)
                ((kv.tail + 16 + 4) / 4 + v.length * 16777216)) (kv.tail + 16) := by
          apply load32_congr
          intro j hj1 hj2
          exact hagree j (by omega)
        rw [hcong, load32_store32_self]
        omega
      have hval : readVal d' (kv.tail / 4 + Cap4Size v.length / 4 * 16777216) = v := by
        simp only [readVal]
        rw [hw0, hkEnd4, hvh, if_pos hty]
        have hoh : offsetOf ((kv.tail + 16 + 4) / 4 + v.length * 16777216)
            = (kv.tail + 16 + 4) / 4 := by
          unfold offsetOf
          omega
        have hsh : smallSizeOf ((kv.tail + 16 + 4) / 4 + v.length * 16777216)
            = v.length := by
          unfold smallSizeOf
          omega
        rw [hoh, hsh]
        have hoff4 : (kv.tail + 16 + 4) / 4 * 4 = kv.tail + 16 + 4 := by omega
        rw [hoff4]
        have hcong2 : readBytes d' (kv.tail + 16 + 4) v.length
            = readBytes (writeBytes (writeBytes kv.data kv.tail k)
                (kv.tail + 16 + 4) v) (kv.tail + 16 + 4) v.length := by
          apply readBytes_congr
          intro j hj1 hj2
          rw [hagree j (by omega)]
          rw [store32_eq_of_ge _ _ _ _ (by omega)]
        rw [hcong2]
        exact readBytes_writeBytes_self v _ _
      exact ⟨hkey, hval⟩
    · -- medium layout
      unfold overLongSize at hL
      unfold overShortSize at hS
      have hnl : ¬ v.length ≥ overLongSize := by unfold overLongSize; omega
      have hs2 : v.length ≥ overShortSize := by unfold overShortSize; omega
      rw [gcSet_tail, if_neg hnl] at hagree
      rw [gcSet_data_mid kv k v hnl hs2] at hagree
      rw [gcSet_word_mid kv k v hnl hs2]
      unfold maxShardMemSize at hbound
      have hT4 : kv.tail / 4 < 16777216 := by omega
      have hV4 : (kv.tail + 16 + 4) / 4 < 16777216 := by omega
      have hw0 : offsetOf (kv.tail / 4 + v.length / 256 * 16777216 + mapTypeHeader)
          = kv.tail / 4 := by
        unfold offsetOf mapTypeHeader
        omega
      have hty : ¬ valTypeOf (kv.tail / 4 + v.length / 256 * 16777216 + mapTypeHeader)
          = 0 := by
        unfold valTypeOf mapTypeHeader
        omega
      have hcb : capOrBigSizeOf (kv.tail / 4 + v.length / 256 * 16777216 + mapTypeHeader)
          = v.length / 256 := by
        unfold capOrBigSizeOf mapTypeHeader
        omega
      have hkEnd4 : kv.tail / 4 * 4 = kv.tail := by omega
      have hkey : getKey d'
          (kv.tail / 4 + v.length / 256 * 16777216 + mapTypeHeader) = k := by
        unfold getKey
        rw [hw0, hkEnd4]
        have hcong : readBytes d' kv.tail 16
            = readBytes (writeBytes kv.data kv.tail k) kv.tail 16 := by
          apply readBytes_congr
          intro j hj1 hj2
          rw [hagree j (by omega)]
          rw [store32_eq_of_lt _ _ _ _ (by omega),
            writeBytes_eq_of_lt _ _ _ _ (by omega)]
        have hself := readBytes_writeBytes_self k kv.data kv.tail
        rw [hk] at hself
        rw [hcong]
        exact hself
      have hvh : load32 d' (kv.tail + 16)
          = (kv.tail + 16 + 4) / 4 + v.length % 256 * 16777216 := by
        have hcong : load32 d' (kv.tail + 16)
            = load32 (store32 (writeBytes (writeBytes kv.data kv.tail k)
                (kv.tail + 16 + 4) v) (kv.tail + 16)
                ((kv.tail + 16 + 4) / 4 + v.length % 256 * 16777216)) (kv.tail + 16) := by
          apply load32_congr
          intro j hj1 hj2
          exact hagree j (by omega)
        rw [hcong, load32_store32_self]
        omega
      have hval : readVal d'
          (kv.tail / 4 + v.length / 256 * 16777216 + mapTypeHeader) = v := by
        simp only [readVal]
        rw [hw0, hkEnd4, hvh, if_neg hty, hcb]
        have hsh : smallSizeOf ((kv.tail + 16 + 4) / 4 + v.length % 256 * 16777216)
            = v.length % 256 := by
          unfold smallSizeOf
          omega
        rw [hsh]
        have hsent : ¬ v.length % 256 + v.length / 256 * 256 = overLongSize := by
          unfold overLongSize
          omega
        rw [if_neg hsent]
        have hoh : offsetOf ((kv.tail + 16 + 4) / 4 + v.length % 256 * 16777216)
            = (kv.tail + 16 + 4) / 4 := by
          unfold offsetOf
          omega
        rw [hoh]
        have hoff4 : (kv.tail + 16 + 4) / 4 * 4 = kv.tail + 16 + 4 := by omega
        rw [hoff4]
        have hcount : v.length % 256 + v.length / 256 * 256 = v.length := by omega
        rw [hcount]
        have hcong2 : readBytes d' (kv.tail + 16 + 4) v.length
            = readBytes (writeBytes (writeBytes kv.data kv.tail k)
                (kv.tail + 16 + 4) v) (kv.tail + 16 + 4) v.length := by
          apply readBytes_congr
          intro j hj1 hj2
          rw [hagree j (by omega)]
          rw [store32_eq_of_ge _ _ _ _ (by omega)]
        rw [hcong2]
        exact readBytes_writeBytes_self v _ _
      exact ⟨hkey, hval⟩
  · -- long layout
    unfold overLongSize at hL
    have hl2 : v.length ≥ overLongSize := by unfold overLongSize; omega
    rw [gcSet_tail, if_pos hl2] at hagree
    rw [gcSet_data_long kv k v hl2] at hagree
    rw [gcSet_word_long kv k v hl2]
    unfold maxShardMemSize at hbound
    have hT4 : kv.tail / 4 < 16777216 := by omega
    have hV4 : (kv.tail + 16 + 4) / 4 < 16777216 := by omega
    have hw0 : offsetOf (kv.tail / storeUintBytes + overLongStoreHeaderH + mapTypeHeader)
        = kv.tail / 4 := by
      unfold offsetOf storeUintBytes overLongStoreHeaderH mapTypeHeader
      omega
    have hty : ¬ valTypeOf (kv.tail / storeUintBytes + overLongStoreHeaderH
        + mapTypeHeader) = 0 := by
      unfold valTypeOf storeUintBytes overLongStoreHeaderH mapTypeHeader
      omega
    have hcb : capOrBigSizeOf (kv.tail / storeUintBytes + overLongStoreHeaderH
        + mapTypeHeader) = 127 := by
      unfold capOrBigSizeOf storeUintBytes overLongStoreHeaderH mapTypeHeader
      omega
    have hkEnd4 : kv.tail / 4 * 4 = kv.tail := by omega
    have hkey : getKey d'
        (kv.tail / storeUintBytes + overLongStoreHeaderH + mapTypeHeader) = k := by
      unfold getKey
      rw [hw0, hkEnd4]
      have hcong : readBytes d' kv.tail 16
          = readBytes (writeBytes kv.data kv.tail k) kv.tail 16 := by
        apply readBytes_congr
        intro j hj1 hj2
        rw [hagree j (by omega)]
        rw [store32_eq_of_lt _ _ _ _ (by omega),
          writeBytes_eq_of_lt _ _ _ _ (by omega),
          store32_eq_of_lt _ _ _ _ (by omega)]
      have hself := readBytes_writeBytes_self k kv.data kv.tail
      rw [hk] at hself
      rw [hcong]
      exact hself
    have hvh : load32 d' (kv.tail + 16)
        = (kv.tail + 16 + 4) / 4 + 4278190080 := by
      have hcong : load32 d' (kv.tail + 16)
          = load32 (store32 (writeBytes (store32 (writeBytes kv.data kv.tail k)
              (kv.tail + 16 + 4) v.length) (kv.tail + 16 + 4 + 4) v) (kv.tail + 16)
              ((kv.tail + 16 + 4) / storeUintBytes + overLongStoreHeaderL))
              (kv.tail + 16) := by
        apply load32_congr
        intro j hj1 hj2
        exact hagree j (by omega)
      rw [hcong, load32_store32_self]
      unfold storeUintBytes overLongStoreHeaderL
      omega
    have hpre : load32 d' (kv.tail + 16 + 4) = v.length := by
      have hcong : load32 d' (kv.tail + 16 + 4)
          = load32 (store32 (writeBytes kv.data kv.tail k)
              (kv.tail + 16 + 4) v.length) (kv.tail + 16 + 4) := by
        apply load32_congr
        intro j hj1 hj2
        rw [hagree j (by omega)]
        rw [store32_eq_of_ge _ _ _ _ (by omega),
          writeBytes_eq_of_lt _ _ _ _ (by omega)]
      rw [hcong, load32_store32_self]
      omega
    have hval : readVal d'
        (kv.tail / storeUintBytes + overLongStoreHeaderH + mapTypeHeader) = v := by
      simp only [readVal]
      rw [hw0, hkEnd4, hvh, if_neg hty, hcb]
      have hsh : smallSizeOf ((kv.tail + 16 + 4) / 4 + 4278190080) = 255 := by
        unfold smallSizeOf
        omega
      rw [hsh]
      have hsent : (255 : Nat) + 127 * 256 = overLongSize := by
        unfold overLongSize
        norm_num
      rw [if_pos hsent]
      have hoh : offsetOf ((kv.tail + 16 + 4) / 4 + 4278190080)
          = (kv.tail + 16 + 4) / 4 := by
        unfold offsetOf
        omega
      rw [hoh]
      have hoff4 : (kv.tail + 16 + 4) / 4 * 4 = kv.tail + 16 + 4 := by omega
      rw [hoff4, hpre]
      have hcong2 : readBytes d' (kv.tail + 16 + 4 + 4) v.length
          = readBytes (writeBytes (store32 (writeBytes kv.data kv.tail k)
              (kv.tail + 16 + 4) v.length) (kv.tail + 16 + 4 + 4) v)
              (kv.tail + 16 + 4 + 4) v.length := by
        apply readBytes_congr
        intro j hj1 hj2
        rw [hagree j (by omega)]
        rw [store32_eq_of_ge _ _ _ _ (by omega)]
      rw [hcong2]
      exact readBytes_writeBytes_self v _ _
    exact ⟨hkey, hval⟩

/-! #### Persistence of re-inserted records through the rebuild loop -/

theorem copyStep_kv_cases (hashFn : List Nat → Nat) (oldData : Nat → Nat)
    (n : Nat) (acc : CopyAcc) (e : Int × Nat × Nat) :
    (copyStep hashFn oldData n acc e).kv = acc.kv ∨
    ∃ k v, (copyStep hashFn oldData n acc e).kv = (gcSet acc.kv k v).1 := by
  simp only [copyStep]
  split_ifs
  · exact Or.inl rfl
  · cases hpe : probeEmptyLoop acc.ctrl n n
        (probeStart (splitHash (hashFn (getKey oldData e.2.1))).1 n) with
    | none => exact Or.inl rfl
    | some gs => exact Or.inr ⟨_, _, rfl⟩

theorem copyStep_tail_ge (hashFn : List Nat → Nat) (oldData : Nat → Nat)
    (n : Nat) (acc : CopyAcc) (e : Int × Nat × Nat) :
    acc.kv.tail ≤ (copyStep hashFn oldData n acc e).kv.tail := by
  rcases copyStep_kv_cases hashFn oldData n acc e with h | ⟨k, v, h⟩
  · rw [h]
  · rw [h]
    exact gcSet_tail_ge _ _ _

theorem copyStep_tail_mod (hashFn : List Nat → Nat) (oldData : Nat → Nat)
    (n : Nat) (acc : CopyAcc) (e : Int × Nat × Nat)
    (ht : acc.kv.tail % 4 = 0) :
    (copyStep hashFn oldData n acc e).kv.tail % 4 = 0 := by
  rcases copyStep_kv_cases hashFn oldData n acc e with h | ⟨k, v, h⟩
  · rw [h]
    exact ht
  · rw [h]
    exact gcSet_tail_mod _ _ _ ht

theorem copyAll_tail_ge (hashFn : List Nat → Nat) (oldData : Nat → Nat) (n : Nat) :
    ∀ (es : List (Int × Nat × Nat)) (acc : CopyAcc),
      acc.kv.tail ≤ (copyAll hashFn oldData n es acc).kv.tail := by
  intro es
  induction es with
  | nil => intro acc; exact Nat.le_refl _
  | cons e es ih =>
    intro acc
    exact Nat.le_trans (copyStep_tail_ge hashFn oldData n acc e)
      (ih (copyStep hashFn oldData n acc e))

/-- A slot of the rebuild accumulator holding hash tag `lh`, counter `cnt`,
and a record that reads back as `(k, v)` from any arena agreeing with the
current one below the current tail. -/
def GoodSlot (acc : CopyAcc) (cnt : Nat) (k v : List Nat) (lh g s : Nat) : Prop :=
  g < acc.ctrl.length ∧ s < 16 ∧
  (acc.ctrl.getD g []).getD s emptyByte = h2i lh ∧
  (acc.counters.getD g []).getD s 0 = cnt ∧
  ∀ d' : Nat → Nat, (∀ j, j < acc.kv.tail → d' j = acc.kv.data j) →
    getKey d' ((acc.groups.getD g []).getD s 0) = k ∧
    readVal d' ((acc.groups.getD g []).getD s 0) = v

/-- One rebuild step keeps every already-written slot intact: the step
inserts only at an EMPTY slot and only appends to the arena. -/
theorem copyStep_goodslot_mono (hashFn : List Nat → Nat) (oldData : Nat → Nat)
    (n : Nat) (acc : CopyAcc) (e : Int × Nat × Nat) (cnt : Nat)
    (k v : List Nat) (lh g s : Nat)
    (hGS : GoodSlot acc cnt k v lh g s) :
    GoodSlot (copyStep hashFn oldData n acc e) cnt k v lh g s := by
  obtain ⟨hg, hs, hbyte, hcnt, hread⟩ := hGS
  simp only [copyStep]
  split_ifs
  · exact ⟨hg, hs, hbyte, hcnt, hread⟩
  · cases hpe : probeEmptyLoop acc.ctrl n n
        (probeStart (splitHash (hashFn (getKey oldData e.2.1))).1 n) with
    | none => exact ⟨hg, hs, hbyte, hcnt, hread⟩
    | some gs =>
      have hfes := probeEmptyLoop_some acc.ctrl n n _ gs.1 gs.2 hpe
      obtain ⟨_, hbyte0⟩ := firstEmptySlot_some _ _ hfes
      have hne : ¬ (gs.1 = g ∧ gs.2 = s) := by
        intro hcon
        rw [hcon.1, hcon.2, hbyte] at hbyte0
        exact h2i_ne_empty lh hbyte0
      refine ⟨?_, hs, ?_, ?_, ?_⟩
      · rw [setSlot_length]
        exact hg
      · rw [setSlot_getD_ne _ _ _ _ _ _ _ hne]
        exact hbyte
      · rw [setSlot_getD_ne _ _ _ _ _ _ _ hne]
        exact hcnt
      · intro d' hd'
        rw [setSlot_getD_ne _ _ _ _ _ _ _ hne]
        apply hread
        intro j hj
        rw [hd' j (Nat.lt_of_lt_of_le hj (gcSet_tail_ge _ _ _))]
        exact gcSet_frame _ _ _ j hj

/-- One rebuild step on an occupied entry creates a slot holding the
entry's record. -/
theorem copyStep_goodslot_new (hashFn : List Nat → Nat) (oldData : Nat → Nat)
    (n : Nat) (acc : CopyAcc) (e : Int × Nat × Nat)
    (hCI : CopyInv n acc) (hn : 0 < n) (hocc : occTag e.1 = true)
    (hlt : acc.res < 16 * n)
    (ht4 : acc.kv.tail % 4 = 0)
    (hbytes : ∀ j, oldData j < 256)
    (hbound : (copyStep hashFn oldData n acc e).kv.tail < maxShardMemSize) :
    ∃ g s, GoodSlot (copyStep hashFn oldData n acc e) e.2.2
      (getKey oldData e.2.1) (readVal oldData e.2.1)
      (hashFn (getKey oldData e.2.1)) g s := by
  have hnocc : ¬ (e.1 = emptyByte ∨ e.1 = tombByte) := by
    intro hcon
    rw [← not_occ_iff] at hcon
    rw [hocc] at hcon
    cases hcon
  obtain ⟨g0, hg0, hg0some⟩ := exists_empty_slot acc.ctrl hCI.hg16
    (by rw [hCI.hcl, ← hCI.hres]; exact hlt)
  obtain ⟨g, s, hsome⟩ := probeEmptyLoop_total acc.ctrl n g0
    (by rw [← hCI.hcl]; exact hg0) hg0some
    (probeStart (splitHash (hashFn (getKey oldData e.2.1))).1 n) (Nat.mod_lt _ hn)
  have hstep : copyStep hashFn oldData n acc e
      = { ctrl := setSlot acc.ctrl g s (h2i (hashFn (getKey oldData e.2.1)))
          counters := setSlot acc.counters g s e.2.2
          groups := setSlot acc.groups g s
            (gcSet acc.kv (getKey oldData e.2.1) (readVal oldData e.2.1)).2
          kv := (gcSet acc.kv (getKey oldData e.2.1) (readVal oldData e.2.1)).1
          res := acc.res + 1 } := by
    simp only [copyStep]
    rw [if_neg hnocc, hsome]
  rw [hstep] at hbound ⊢
  have hfes := probeEmptyLoop_some acc.ctrl n n _ g s hsome
  obtain ⟨hs16, hbyte0⟩ := firstEmptySlot_some _ _ hfes
  have hgacc : g < acc.ctrl.length := by
    rw [hCI.hcl]
    exact probeEmptyLoop_bounds acc.ctrl n hn _ _ _ _ (Nat.mod_lt _ hn) hsome
  have h20 : acc.kv.tail + 20
      ≤ (gcSet acc.kv (getKey oldData e.2.1) (readVal oldData e.2.1)).1.tail := by
    rw [gcSet_tail]
    split <;> omega
  have hb20 : acc.kv.tail + 20 < maxShardMemSize := Nat.lt_of_le_of_lt h20 hbound
  have hrb := gcSet_readback acc.kv (getKey oldData e.2.1) (readVal oldData e.2.1)
    (getKey_length _ _) (readVal_length_lt oldData hbytes _) ht4 hb20
  refine ⟨g, s, ?_, hs16, ?_, ?_, ?_⟩
  · rw [setSlot_length]
    exact hgacc
  · rw [setSlot_getD_self acc.ctrl g s _ hgacc]
    rw [getD_set_self _ _ _ _
      (by rw [hCI.hg16 _ (getD_mem _ _ _ hgacc)]; exact hs16)]
  · have hgc : g < acc.counters.length := by
      rw [hCI.hnl, ← hCI.hcl]
      exact hgacc
    rw [setSlot_getD_self acc.counters g s _ hgc]
    rw [getD_set_self _ _ _ _
      (by rw [hCI.hn16 _ (getD_mem _ _ _ hgc)]; exact hs16)]
  · intro d' hd'
    have hgg : g < acc.groups.length := by
      rw [hCI.hgl, ← hCI.hcl]
      exact hgacc
    rw [setSlot_getD_self acc.groups g s _ hgg]
    rw [getD_set_self _ _ _ _
      (by rw [hCI.hgg16 _ (getD_mem _ _ _ hgg)]; exact hs16)]
    exact hrb d' hd'

/-- Through the whole rebuild loop: old good slots persist, and every
occupied entry of the work list ends up in a good slot. -/
theorem copyAll_presence (hashFn : List Nat → Nat) (oldData : Nat → Nat)
    (hbytes : ∀ j, oldData j < 256) (n : Nat) (hn : 0 < n) :
    ∀ (es : List (Int × Nat × Nat)) (acc : CopyAcc), CopyInv n acc →
      acc.kv.tail % 4 = 0 →
      acc.res + es.countP (fun e => occTag e.1) ≤ 16 * n →
      (copyAll hashFn oldData n es acc).kv.tail < maxShardMemSize →
      (∀ cnt k v lh g s, GoodSlot acc cnt k v lh g s →
        GoodSlot (copyAll hashFn oldData n es acc) cnt k v lh g s) ∧
      (∀ e ∈ es, occTag e.1 = true →
        ∃ g s, GoodSlot (copyAll hashFn oldData n es acc)
          e.2.2 (getKey oldData e.2.1) (readVal oldData e.2.1)
          (hashFn (getKey oldData e.2.1)) g s) := by
  intro es
  induction es with
  | nil =>
    intro acc hCI ht4 hcap hbound
    exact ⟨fun cnt k v lh g s h => h,
      fun e he hocc => absurd he (List.not_mem_nil e)⟩
  | cons e es ih =>
    intro acc hCI ht4 hcap hbound
    have hunf : copyAll hashFn oldData n (e :: es) acc
        = copyAll hashFn oldData n es (copyStep hashFn oldData n acc e) := rfl
    rw [hunf] at hbound ⊢
    rw [List.countP_cons] at hcap
    have hCI1 := copyStep_copyInv hashFn oldData n acc e hCI
    have ht41 := copyStep_tail_mod hashFn oldData n acc e ht4
    by_cases hocc : occTag e.1 = true
    · have hlt : acc.res < 16 * n := by
        rw [if_pos hocc] at hcap
        omega
      have hres1 := copyStep_res_occ hashFn oldData n acc e hCI hn hocc hlt
      have hcap1 : (copyStep hashFn oldData n acc e).res
          + es.countP (fun x => occTag x.1) ≤ 16 * n := by
        rw [hres1]
        rw [if_pos hocc] at hcap
        omega
      obtain ⟨hmono, hpres⟩ := ih (copyStep hashFn oldData n acc e) hCI1 ht41 hcap1 hbound
      constructor
      · intro cnt k v lh g s hGS
        exact hmono _ _ _ _ _ _
          (copyStep_goodslot_mono hashFn oldData n acc e cnt k v lh g s hGS)
      · intro e' he' hocc'
        rcases List.mem_cons.mp he' with he0 | hemem
        · rw [he0]
          have hstepbound : (copyStep hashFn oldData n acc e).kv.tail
              < maxShardMemSize :=
            Nat.lt_of_le_of_lt (copyAll_tail_ge hashFn oldData n es _) hbound
          obtain ⟨g, s, hGS⟩ := copyStep_goodslot_new hashFn oldData n acc e
            hCI hn hocc hlt ht4 hbytes hstepbound
          exact ⟨g, s, hmono _ _ _ _ _ _ hGS⟩
        · exact hpres e' hemem hocc'
    · rw [Bool.not_eq_true] at hocc
      have hskip := copyStep_skip hashFn oldData n acc e hocc
      have hcap1 : (copyStep hashFn oldData n acc e).res
          + es.countP (fun x => occTag x.1) ≤ 16 * n := by
        rw [hskip]
        rw [if_neg (by simp [hocc])] at hcap
        omega
      obtain ⟨hmono, hpres⟩ := ih (copyStep hashFn oldData n acc e) hCI1 ht41 hcap1 hbound
      constructor
      · intro cnt k v lh g s hGS
        refine hmono _ _ _ _ _ _ ?_
        rw [hskip]
        exact hGS
      · intro e' he' hocc'
        rcases List.mem_cons.mp he' with he0 | hemem
        · rw [he0] at hocc'
          rw [hocc'] at hocc
          cases hocc
        · exact hpres e' hemem hocc'

/-- Every in-bounds slot produces its triple in `slotEntries`. -/
theorem slotEntries_mem (m : Shard) (g s : Nat)
    (hg : g < m.ctrl.length) (hs : s < (m.ctrl.getD g []).length) :
    (((m.ctrl.getD g []).getD s emptyByte : Int),
     ((m.groups.getD g []).getD s 0 : Nat),
     ((m.counters.getD g []).getD s 0 : Nat)) ∈ slotEntries m := by
  unfold slotEntries
  rw [List.mem_flatMap]
  refine ⟨g, List.mem_range.mpr hg, ?_⟩
  rw [List.mem_map]
  exact ⟨s, List.mem_range.mpr hs, rfl⟩

/-- C7: `rehash` rebuilds the table into `n` groups, where
`n = ⌈G · 1.2⌉ = (6G + 4) / 5` — except `n = G` when `dead ≥ resident/2` —
and afterwards `dead = 0` and `limit = n * 14` (`maxAvgGroupLoad`); every
previously occupied (non-EMPTY, non-TOMBSTONE) slot's key/value pair is
present in the new table — some new slot carries the re-hashed `H2` tag
and a descriptor whose `getKey` / `readVal` readback equals the old slot's
— and each re-inserted slot keeps its previous counter value.  Hypotheses:
the structural invariant, a byte-valued old arena, and the rebuilt arena
staying under the shard memory bound (which keeps every new descriptor's
24-bit offset faithful). -/
theorem c7_rehash (hashFn : List Nat → Nat) (m : Shard) (hI : Inv m)
    (hbytes : ∀ j, m.kv.data j < 256)
    (hbound : (rehash hashFn m).kv.tail < maxShardMemSize) :
    ((rehash hashFn m).ctrl.length
      = if m.dead ≥ m.resident / 2 then m.groups.length
        else (6 * m.groups.length + 4) / 5) ∧
    (rehash hashFn m).dead = 0 ∧
    (rehash hashFn m).limit = (rehash hashFn m).ctrl.length * maxAvgGroupLoad ∧
    (∀ g s, g < m.ctrl.length → s < (m.ctrl.getD g []).length →
      occTag ((m.ctrl.getD g []).getD s emptyByte) = true →
      ∃ g' s', g' < (rehash hashFn m).ctrl.length ∧ s' < 16 ∧
        ((rehash hashFn m).ctrl.getD g' []).getD s' emptyByte
          = h2i (hashFn (getKey m.kv.data ((m.groups.getD g []).getD s 0))) ∧
        ((rehash hashFn m).counters.getD g' []).getD s' 0
          = (m.counters.getD g []).getD s 0 ∧
        getKey (rehash hashFn m).kv.data
            (((rehash hashFn m).groups.getD g' []).getD s' 0)
          = getKey m.kv.data ((m.groups.getD g []).getD s 0) ∧
        readVal (rehash hashFn m).kv.data
            (((rehash hashFn m).groups.getD g' []).getD s' 0)
          = readVal m.kv.data ((m.groups.getD g []).getD s 0)) := by
  have hn := nextSize_pos m hI.hpos
  have hCI0 := initCopyAcc_copyInv (nextSize m) m.kv.cap
  have hle := cntP_le_16len usedTag m.ctrl hI.hg16
  have hcnt := slotEntries_countP m occTag
  have hge := nextSize_ge m
  have hpart := cntP_partition m.ctrl
  have hcap : (initCopyAcc (nextSize m) m.kv.cap).res
      + (slotEntries m).countP (fun e => occTag e.1) ≤ 16 * nextSize m := by
    have h0 : (initCopyAcc (nextSize m) m.kv.cap).res = 0 := rfl
    rw [h0, hcnt]
    rw [hI.hcl] at hle
    omega
  have ht40 : (initCopyAcc (nextSize m) m.kv.cap).kv.tail % 4 = 0 := by
    simp [initCopyAcc, newKVHolder]
  have hbound' : (copyAll hashFn m.kv.data (nextSize m) (slotEntries m)
      (initCopyAcc (nextSize m) m.kv.cap)).kv.tail < maxShardMemSize := hbound
  obtain ⟨hmono, hpres⟩ := copyAll_presence hashFn m.kv.data hbytes (nextSize m) hn
    (slotEntries m) (initCopyAcc (nextSize m) m.kv.cap) hCI0 ht40 hcap hbound'
  have hCI := copyAll_copyInv hashFn m.kv.data (nextSize m) (slotEntries m)
    (initCopyAcc (nextSize m) m.kv.cap) hCI0
  have hclr : (rehash hashFn m).ctrl.length = nextSize m := hCI.hcl
  refine ⟨?_, rfl, ?_, ?_⟩
  · rw [hclr]
    rfl
  · have h2 : (rehash hashFn m).limit = nextSize m * maxAvgGroupLoad := rfl
    rw [h2, hclr]
  · intro g s hg hs hocc
    have hmem := slotEntries_mem m g s hg hs
    obtain ⟨g', s', hGS⟩ := hpres _ hmem hocc
    obtain ⟨hg', hs', hbyte, hcnt', hread⟩ := hGS
    obtain ⟨hk2, hv2⟩ := hread (copyAll hashFn m.kv.data (nextSize m)
      (slotEntries m) (initCopyAcc (nextSize m) m.kv.cap)).kv.data
      (fun j _ => rfl)
    exact ⟨g', s', hg', hs', hbyte, hcnt', hk2, hv2⟩

theorem c7_rehash_witness :
    (rehash (fun _ => 0) (wState 100)).dead = 0 ∧
    (rehash (fun _ => 0) (wState 100)).ctrl.length
      = if (wState 100).dead ≥ (wState 100).resident / 2
        then (wState 100).groups.length
        else (6 * (wState 100).groups.length + 4) / 5 := by
  have h := c7_rehash (fun _ => 0) (wState 100)
    ⟨by decide, by decide, by decide, by decide, by decide, by decide, by decide⟩
    (by intro j; simp only [wState]; split_ifs <;> norm_num)
    (by decide)
  exact ⟨h.2.1, h.1⟩

/-! ## The round trip on an arbitrary well-formed shard (C1)

`Get`'s probe loop is simulated against the mutating probe loop of
`RePut`: on the post-state of a successful `RePut`, the two probes agree up
to the slot that was written. -/

theorem scanSlots_congr (p q : Nat → Bool) :
    ∀ fuel start, (∀ t, start ≤ t → t < start + fuel → p t = q t) →
      scanSlots p fuel start = scanSlots q fuel start := by
  intro fuel
  induction fuel with
  | zero => intro start h; rfl
  | succ n ih =>
    intro start h
    unfold scanSlots
    rw [h start (Nat.le_refl _) (by omega)]
    by_cases hq : q start = true
    · rw [if_pos hq, if_pos hq]
    · rw [if_neg hq, if_neg hq]
      exact ih (start + 1) (fun t h1 h2 => h t (by omega) (by omega))

theorem scanSlots_first (p : Nat → Bool) (s : Nat) :
    ∀ fuel start, start ≤ s → s < start + fuel →
      (∀ t, start ≤ t → t < s → p t = false) → p s = true →
      scanSlots p fuel start = some s := by
  intro fuel
  induction fuel with
  | zero => intro start h1 h2 h3 h4; omega
  | succ n ih =>
    intro start h1 h2 h3 h4
    unfold scanSlots
    rcases Nat.eq_or_lt_of_le h1 with heq | hlt
    · rw [heq, h4, if_pos rfl]
    · rw [h3 start (Nat.le_refl _) hlt, if_neg Bool.false_ne_true]
      exact ih (start + 1) hlt (by omega) (fun t ht1 ht2 => h3 t (by omega) ht2) h4

theorem scanSlots_none_of_bounded (p : Nat → Bool) :
    ∀ fuel start, (∀ t, start ≤ t → t < start + fuel → p t = false) →
      scanSlots p fuel start = none := by
  intro fuel
  induction fuel with
  | zero => intro start h; rfl
  | succ n ih =>
    intro start h
    unfold scanSlots
    rw [h start (Nat.le_refl _) (by omega), if_neg Bool.false_ne_true]
    exact ih (start + 1) (fun t h1 h2 => h t (by omega) (by omega))

/-- When the per-group match results and EMPTY scans agree everywhere,
`Get`'s probe loop computes the same result as the mutating probe loop. -/
theorem probeGetLoop_eq_probeLoop (ctrl ctrl' : List (List Int))
    (groups groups' : List (List Nat)) (d d' : Nat → Nat) (key : List Nat)
    (lo : Int) (gl : Nat)
    (Hf : ∀ g', findKeyInGroupGet d' (ctrl'.getD g' []) (groups'.getD g' []) lo key
        = findKeyInGroup d (ctrl.getD g' []) (groups.getD g' []) lo key)
    (He : ∀ g', firstEmptySlot (ctrl'.getD g' []) = firstEmptySlot (ctrl.getD g' [])) :
    ∀ fuel g0, probeGetLoop ctrl' groups' d' key lo gl fuel g0
        = probeLoop ctrl groups d key lo gl fuel g0 := by
  intro fuel
  induction fuel with
  | zero => intro g0; rfl
  | succ n ih =>
    intro g0
    unfold probeGetLoop probeLoop
    rw [Hf g0, He g0]
    cases findKeyInGroup d (ctrl.getD g0 []) (groups.getD g0 []) lo key with
    | some s => rfl
    | none =>
      cases firstEmptySlot (ctrl.getD g0 []) with
      | some s => rfl
      | none => exact ih _

/-- When the mutating probe stopped at the EMPTY slot `(g, s)` and the
post-state holds a match for the key at exactly that slot (every other
group's match result staying `none`), `Get`'s probe finds `(g, s)`. -/
theorem probeGetLoop_found_of_missAt (ctrl ctrl' : List (List Int))
    (groups groups' : List (List Nat)) (d d' : Nat → Nat) (key : List Nat)
    (lo : Int) (gl : Nat) (g s : Nat)
    (Hg : findKeyInGroupGet d' (ctrl'.getD g []) (groups'.getD g []) lo key = some s)
    (Himp : ∀ g', ¬ g' = g →
      findKeyInGroup d (ctrl.getD g' []) (groups.getD g' []) lo key = none →
      findKeyInGroupGet d' (ctrl'.getD g' []) (groups'.getD g' []) lo key = none)
    (He : ∀ g', ¬ g' = g →
      firstEmptySlot (ctrl'.getD g' []) = firstEmptySlot (ctrl.getD g' [])) :
    ∀ fuel g0, probeLoop ctrl groups d key lo gl fuel g0 = .missAt g s →
      probeGetLoop ctrl' groups' d' key lo gl fuel g0 = .found g s := by
  intro fuel
  induction fuel with
  | zero => intro g0 h; simp [probeLoop] at h
  | succ n ih =>
    intro g0 h
    by_cases hgg : g0 = g
    · subst hgg
      unfold probeGetLoop
      rw [Hg]
    · unfold probeLoop at h
      rcases hf : findKeyInGroup d (ctrl.getD g0 []) (groups.getD g0 []) lo key with _ | s0
      · rw [hf] at h
        rcases he : firstEmptySlot (ctrl.getD g0 []) with _ | s0
        · rw [he] at h
          unfold probeGetLoop
          rw [Himp g0 hgg hf, He g0 hgg, he]
          exact ih _ h
        · rw [he] at h
          simp only [PRes.missAt.injEq] at h
          exact absurd h.1 hgg
      · rw [hf] at h
        cases h

/-- Evaluation of `Get` when its probe finds `(g, s)`. -/
theorem get_eval_found (m : Shard) (l : Nat) (k : List Nat) (g s g0 : Nat)
    (hg0 : g0 = probeStart (splitHash l).1 m.groups.length)
    (hp : probeGetLoop m.ctrl m.groups m.kv.data k (h2i l) m.groups.length
        m.groups.length g0 = .found g s) :
    (Get m l k).1 = readVal m.kv.data ((m.groups.getD g []).getD s 0) ∧
    (Get m l k).2.1 = true := by
  simp only [Get]
  rw [← hg0]
  simp only [hp]
  constructor <;> trivial

/-- `setSlot` leaves other groups' rows untouched. -/
theorem setSlot_getD_row_ne {α : Type} (a : List (List α)) (g s : Nat) (x : α)
    (g' : Nat) (h : ¬ g' = g) :
    (setSlot a g s x).getD g' [] = a.getD g' [] := by
  unfold setSlot
  exact getD_set_ne _ _ _ _ _ (fun hc => h hc.symm)

/-- Every Word-A descriptor handed out by `gcSet` is nonzero (the arena
tail is at least 4). -/
theorem gcSet_word_ne (kv : KVHolder) (k v : List Nat) (h4 : 4 ≤ kv.tail) :
    (gcSet kv k v).2 ≠ 0 := by
  simp only [gcSet]
  split_ifs
  · unfold storeUintBytes overLongStoreHeaderH mapTypeHeader
    omega
  · unfold mapTypeHeader
    omega
  · omega

/-- Well-formedness of a shard's record layout, the hypothesis of the
round-trip theorem.  Beyond the structural invariant `Inv` it states what
every reachable shard satisfies: the arena allocation pointer is 4-aligned,
at least 4 (offset 0 is reserved) and leaves a record header of room below
the 64 MiB shard bound (`maxShardMemSize`, keeping 24-bit offset fields
faithful); and every occupied slot holds a nonzero descriptor whose
20-byte key+Word-B block lies in the reserved-to-tail window, with the
key blocks of distinct records pairwise disjoint and every type-0 value
window disjoint from every key block (so in-place value writes cannot
corrupt any stored key). -/
structure WF (M : Shard) : Prop where
  hInv : Inv M
  hgrow : ∀ c ∈ M.groups, c.length = 16
  htail4 : M.kv.tail % 4 = 0
  htail_ge : 4 ≤ M.kv.tail
  htail20 : M.kv.tail + 20 < maxShardMemSize
  hw0 : ∀ g, g < M.ctrl.length → ∀ s, s < 16 →
    occTag ((M.ctrl.getD g []).getD s emptyByte) = true →
    (M.groups.getD g []).getD s 0 ≠ 0
  hk4 : ∀ g, g < M.ctrl.length → ∀ s, s < 16 →
    occTag ((M.ctrl.getD g []).getD s emptyByte) = true →
    4 ≤ offsetOf ((M.groups.getD g []).getD s 0) * 4
  hkt : ∀ g, g < M.ctrl.length → ∀ s, s < 16 →
    occTag ((M.ctrl.getD g []).getD s emptyByte) = true →
    offsetOf ((M.groups.getD g []).getD s 0) * 4 + 20 ≤ M.kv.tail
  hKK : ∀ g, g < M.ctrl.length → ∀ s, s < 16 → ∀ g', g' < M.ctrl.length →
    ∀ s', s' < 16 →
    occTag ((M.ctrl.getD g []).getD s emptyByte) = true →
    occTag ((M.ctrl.getD g' []).getD s' emptyByte) = true →
    ¬ (g = g' ∧ s = s') →
    (offsetOf ((M.groups.getD g []).getD s 0) * 4 + 20
        ≤ offsetOf ((M.groups.getD g' []).getD s' 0) * 4 ∨
     offsetOf ((M.groups.getD g' []).getD s' 0) * 4 + 20
        ≤ offsetOf ((M.groups.getD g []).getD s 0) * 4)
  hVK : ∀ g, g < M.ctrl.length → ∀ s, s < 16 → ∀ g', g' < M.ctrl.length →
    ∀ s', s' < 16 →
    occTag ((M.ctrl.getD g []).getD s emptyByte) = true →
    occTag ((M.ctrl.getD g' []).getD s' emptyByte) = true →
    valTypeOf ((M.groups.getD g []).getD s 0) = 0 →
    (offsetOf (load32 M.kv.data (offsetOf ((M.groups.getD g []).getD s 0) * 4 + 16)) * 4
        + capOrBigSizeOf ((M.groups.getD g []).getD s 0) * 4
        ≤ offsetOf ((M.groups.getD g' []).getD s' 0) * 4 ∨
     offsetOf ((M.groups.getD g' []).getD s' 0) * 4 + 20
        ≤ offsetOf (load32 M.kv.data
            (offsetOf ((M.groups.getD g []).getD s 0) * 4 + 16)) * 4)

/-- On success, `RePut`'s insert block lays out the record exactly as
`gcSet` does, stores `gcSet`'s Word A, tags the slot and bumps the
bookkeeping. -/
theorem rePutInsert_success_eq (m : Shard) (l : Nat) (g s : Nat)
    (k v : List Nat) (hsucc : (rePutInsert m l g s k v).1 = true) :
    (rePutInsert m l g s k v).2
      = { m with groups := setSlot m.groups g s (gcSet m.kv k v).2
                 ctrl := setSlot m.ctrl g s (h2i l)
                 counters := setSlot m.counters g s 1
                 resident := m.resident + 1
                 kv := (gcSet m.kv k v).1 } := by
  simp only [rePutInsert, gcSet] at hsucc ⊢
  split_ifs at hsucc ⊢ <;> rfl

/-- On success, `RePut`'s update block at slot `(g, s)` keeps the control
bytes and counters, rewrites only this slot's Word A (same 24-bit key
offset, still nonzero), touches — below the old tail — only this record's
Word B and (for the in-place path) its type-0 value window, and the new
descriptor reads the new value back from the new arena. -/
theorem rePutUpdate_post (M : Shard) (g s : Nat) (v : List Nat)
    (hg : g < M.groups.length) (hrow : (M.groups.getD g []).length = 16)
    (hs16 : s < 16)
    (hw0 : (M.groups.getD g []).getD s 0 ≠ 0)
    (hk4 : 4 ≤ offsetOf ((M.groups.getD g []).getD s 0) * 4)
    (hkt : offsetOf ((M.groups.getD g []).getD s 0) * 4 + 20 ≤ M.kv.tail)
    (hvk : valTypeOf ((M.groups.getD g []).getD s 0) = 0 →
      (offsetOf ((M.groups.getD g []).getD s 0) * 4 + 20
          ≤ offsetOf (load32 M.kv.data
              (offsetOf ((M.groups.getD g []).getD s 0) * 4 + 16)) * 4 ∨
       offsetOf (load32 M.kv.data
              (offsetOf ((M.groups.getD g []).getD s 0) * 4 + 16)) * 4
          + capOrBigSizeOf ((M.groups.getD g []).getD s 0) * 4
          ≤ offsetOf ((M.groups.getD g []).getD s 0) * 4))
    (ht4 : M.kv.tail % 4 = 0)
    (hTlt : M.kv.tail < maxShardMemSize)
    (hlv : v.length < limitSize)
    (hsucc : (rePutUpdate M g s v).1 = true) :
    (rePutUpdate M g s v).2.ctrl = M.ctrl ∧
    (rePutUpdate M g s v).2.counters = M.counters ∧
    (rePutUpdate M g s v).2.groups.length = M.groups.length ∧
    (∀ g' s', ¬ (g' = g ∧ s' = s) →
      ((rePutUpdate M g s v).2.groups.getD g' []).getD s' 0
        = (M.groups.getD g' []).getD s' 0) ∧
    offsetOf (((rePutUpdate M g s v).2.groups.getD g []).getD s 0)
      = offsetOf ((M.groups.getD g []).getD s 0) ∧
    ((rePutUpdate M g s v).2.groups.getD g []).getD s 0 ≠ 0 ∧
    (∀ j, j < M.kv.tail →
      (j < offsetOf ((M.groups.getD g []).getD s 0) * 4 + 16 ∨
       offsetOf ((M.groups.getD g []).getD s 0) * 4 + 20 ≤ j) →
      (valTypeOf ((M.groups.getD g []).getD s 0) = 0 →
        (j < offsetOf (load32 M.kv.data
              (offsetOf ((M.groups.getD g []).getD s 0) * 4 + 16)) * 4 ∨
         offsetOf (load32 M.kv.data
              (offsetOf ((M.groups.getD g []).getD s 0) * 4 + 16)) * 4
            + capOrBigSizeOf ((M.groups.getD g []).getD s 0) * 4 ≤ j)) →
      (rePutUpdate M g s v).2.kv.data j = M.kv.data j) ∧
    readVal (rePutUpdate M g s v).2.kv.data
      (((rePutUpdate M g s v).2.groups.getD g []).getD s 0) = v := by
  unfold maxShardMemSize at hTlt
  unfold limitSize at hlv
  simp only [rePutUpdate] at hsucc ⊢
  split_ifs at hsucc ⊢ with hc1 hc2 hc3 hc4 hc5 hc6
  · -- long-value append
    set K := offsetOf ((M.groups.getD g []).getD s 0) with hKdef
    have hKlt : K < 16777216 := by rw [hKdef]; unfold offsetOf; omega
    have hss : s < (M.groups.getD g []).length := by rw [hrow]; exact hs16
    have hslot : ((setSlot M.groups g s
        (K * 4 / storeUintBytes + overLongStoreHeaderH + mapTypeHeader)).getD g []).getD s 0
        = K * 4 / storeUintBytes + overLongStoreHeaderH + mapTypeHeader := by
      rw [setSlot_getD_self M.groups g s _ hg]
      exact getD_set_self _ _ _ _ hss
    refine ⟨rfl, rfl, setSlot_length _ _ _ _, ?_, ?_, ?_, ?_, ?_⟩
    · intro g' s' hne
      exact setSlot_getD_ne M.groups g s g' s' _ 0
        (fun hc => hne ⟨hc.1.symm, hc.2.symm⟩)
    · show offsetOf (((setSlot M.groups g s _).getD g []).getD s 0) = K
      rw [hslot]
      unfold offsetOf storeUintBytes overLongStoreHeaderH mapTypeHeader
      omega
    · show ((setSlot M.groups g s _).getD g []).getD s 0 ≠ 0
      rw [hslot]
      unfold storeUintBytes overLongStoreHeaderH mapTypeHeader
      omega
    · intro j hj hcond1 hcond2
      show store32 (writeBytes (store32 M.kv.data M.kv.tail v.length)
          (M.kv.tail + 4) v) (K * 4 + 16) _ j = M.kv.data j
      rcases hcond1 with hA | hA
      · rw [store32_eq_of_lt _ _ _ _ (by omega),
          writeBytes_eq_of_lt _ _ _ _ (by omega),
          store32_eq_of_lt _ _ _ _ (by omega)]
      · rw [store32_eq_of_ge _ _ _ _ (by omega),
          writeBytes_eq_of_lt _ _ _ _ (by omega),
          store32_eq_of_lt _ _ _ _ (by omega)]
    · rw [hslot]
      simp only [readVal]
      have hoW : offsetOf (K * 4 / storeUintBytes + overLongStoreHeaderH + mapTypeHeader)
          = K := by
        unfold offsetOf storeUintBytes overLongStoreHeaderH mapTypeHeader
        omega
      have htyW : ¬ valTypeOf (K * 4 / storeUintBytes + overLongStoreHeaderH
          + mapTypeHeader) = 0 := by
        unfold valTypeOf storeUintBytes overLongStoreHeaderH mapTypeHeader
        omega
      have hcbW : capOrBigSizeOf (K * 4 / storeUintBytes + overLongStoreHeaderH
          + mapTypeHeader) = 127 := by
        unfold capOrBigSizeOf storeUintBytes overLongStoreHeaderH mapTypeHeader
        omega
      rw [hoW]
      have hvh : load32 (store32 (writeBytes (store32 M.kv.data M.kv.tail v.length)
          (M.kv.tail + 4) v) (K * 4 + 16)
          (M.kv.tail / storeUintBytes + overLongStoreHeaderL)) (K * 4 + 16)
          = M.kv.tail / storeUintBytes + overLongStoreHeaderL := by
        rw [load32_store32_self]
        unfold storeUintBytes overLongStoreHeaderL
        omega
      rw [hvh, if_neg htyW, hcbW]
      have hsh : smallSizeOf (M.kv.tail / storeUintBytes + overLongStoreHeaderL)
          = 255 := by
        unfold smallSizeOf storeUintBytes overLongStoreHeaderL
        omega
      have hoh : offsetOf (M.kv.tail / storeUintBytes + overLongStoreHeaderL)
          = M.kv.tail / 4 := by
        unfold offsetOf storeUintBytes overLongStoreHeaderL
        omega
      rw [hsh, hoh]
      have hsent : (255 : Nat) + 127 * 256 = overLongSize := by
        unfold overLongSize
        norm_num
      rw [if_pos hsent]
      have ht44 : M.kv.tail / 4 * 4 = M.kv.tail := by omega
      rw [ht44]
      have hpre : load32 (store32 (writeBytes (store32 M.kv.data M.kv.tail v.length)
          (M.kv.tail + 4) v) (K * 4 + 16)
          (M.kv.tail / storeUintBytes + overLongStoreHeaderL)) M.kv.tail
          = v.length := by
        have h1 : load32 (store32 (writeBytes (store32 M.kv.data M.kv.tail v.length)
            (M.kv.tail + 4) v) (K * 4 + 16)
            (M.kv.tail / storeUintBytes + overLongStoreHeaderL)) M.kv.tail
            = load32 (writeBytes (store32 M.kv.data M.kv.tail v.length)
              (M.kv.tail + 4) v) M.kv.tail := by
          apply load32_congr
          intro j hj1 hj2
          exact store32_eq_of_ge _ _ _ _ (by omega)
        have h2 : load32 (writeBytes (store32 M.kv.data M.kv.tail v.length)
            (M.kv.tail + 4) v) M.kv.tail
            = load32 (store32 M.kv.data M.kv.tail v.length) M.kv.tail := by
          apply load32_congr
          intro j hj1 hj2
          exact writeBytes_eq_of_lt _ _ _ _ (by omega)
        rw [h1, h2, load32_store32_self]
        omega
      rw [hpre]
      have hcong : readBytes (store32 (writeBytes (store32 M.kv.data M.kv.tail v.length)
          (M.kv.tail + 4) v) (K * 4 + 16)
          (M.kv.tail / storeUintBytes + overLongStoreHeaderL)) (M.kv.tail + 4) v.length
          = readBytes (writeBytes (store32 M.kv.data M.kv.tail v.length)
            (M.kv.tail + 4) v) (M.kv.tail + 4) v.length := by
        apply readBytes_congr
        intro j hj1 hj2
        exact store32_eq_of_ge _ _ _ _ (by omega)
      rw [hcong]
      exact readBytes_writeBytes_self v _ _
  · -- medium-value append
    set K := offsetOf ((M.groups.getD g []).getD s 0) with hKdef
    have hKlt : K < 16777216 := by rw [hKdef]; unfold offsetOf; omega
    have hlv32 : v.length < 32767 := by unfold overLongSize at hc1; omega
    have hss : s < (M.groups.getD g []).length := by rw [hrow]; exact hs16
    have hslot : ((setSlot M.groups g s
        (K * 4 / 4 + v.length / 256 % 128 * 16777216 + mapTypeHeader)).getD g []).getD s 0
        = K * 4 / 4 + v.length / 256 % 128 * 16777216 + mapTypeHeader := by
      rw [setSlot_getD_self M.groups g s _ hg]
      exact getD_set_self _ _ _ _ hss
    refine ⟨rfl, rfl, setSlot_length _ _ _ _, ?_, ?_, ?_, ?_, ?_⟩
    · intro g' s' hne
      exact setSlot_getD_ne M.groups g s g' s' _ 0
        (fun hc => hne ⟨hc.1.symm, hc.2.symm⟩)
    · show offsetOf (((setSlot M.groups g s _).getD g []).getD s 0) = K
      rw [hslot]
      unfold offsetOf mapTypeHeader
      omega
    · show ((setSlot M.groups g s _).getD g []).getD s 0 ≠ 0
      rw [hslot]
      unfold mapTypeHeader
      omega
    · intro j hj hcond1 hcond2
      show store32 (writeBytes M.kv.data M.kv.tail v) (K * 4 + 16) _ j = M.kv.data j
      rcases hcond1 with hA | hA
      · rw [store32_eq_of_lt _ _ _ _ (by omega),
          writeBytes_eq_of_lt _ _ _ _ (by omega)]
      · rw [store32_eq_of_ge _ _ _ _ (by omega),
          writeBytes_eq_of_lt _ _ _ _ (by omega)]
    · rw [hslot]
      simp only [readVal]
      have hoW : offsetOf (K * 4 / 4 + v.length / 256 % 128 * 16777216 + mapTypeHeader)
          = K := by
        unfold offsetOf mapTypeHeader
        omega
      have htyW : ¬ valTypeOf (K * 4 / 4 + v.length / 256 % 128 * 16777216
          + mapTypeHeader) = 0 := by
        unfold valTypeOf mapTypeHeader
        omega
      have hcbW : capOrBigSizeOf (K * 4 / 4 + v.length / 256 % 128 * 16777216
          + mapTypeHeader) = v.length / 256 := by
        unfold capOrBigSizeOf mapTypeHeader
        omega
      rw [hoW]
      have hvh : load32 (store32 (writeBytes M.kv.data M.kv.tail v) (K * 4 + 16)
          (M.kv.tail / 4 + v.length % 256 * 16777216)) (K * 4 + 16)
          = M.kv.tail / 4 + v.length % 256 * 16777216 := by
        rw [load32_store32_self]
        omega
      rw [hvh, if_neg htyW, hcbW]
      have hsh : smallSizeOf (M.kv.tail / 4 + v.length % 256 * 16777216)
          = v.length % 256 := by
        unfold smallSizeOf
        omega
      rw [hsh]
      have hsentn : ¬ (v.length % 256 + v.length / 256 * 256 = overLongSize) := by
        unfold overLongSize
        omega
      rw [if_neg hsentn]
      have hoh : offsetOf (M.kv.tail / 4 + v.length % 256 * 16777216)
          = M.kv.tail / 4 := by
        unfold offsetOf
        omega
      rw [hoh]
      have ht44 : M.kv.tail / 4 * 4 = M.kv.tail := by omega
      rw [ht44]
      have hcnt : v.length % 256 + v.length / 256 * 256 = v.length := by omega
      rw [hcnt]
      have hcong : readBytes (store32 (writeBytes M.kv.data M.kv.tail v) (K * 4 + 16)
          (M.kv.tail / 4 + v.length % 256 * 16777216)) M.kv.tail v.length
          = readBytes (writeBytes M.kv.data M.kv.tail v) M.kv.tail v.length := by
        apply readBytes_congr
        intro j hj1 hj2
        exact store32_eq_of_ge _ _ _ _ (by omega)
      rw [hcong]
      exact readBytes_writeBytes_self v _ _
  · -- in-place update
    set K := offsetOf ((M.groups.getD g []).getD s 0) with hKdef
    set VO := offsetOf (load32 M.kv.data (K * 4 + 16)) with hVOdef
    have hKlt : K < 16777216 := by rw [hKdef]; unfold offsetOf; omega
    have hVOlt : VO < 16777216 := by rw [hVOdef]; unfold offsetOf; omega
    have hlv256 : v.length < 256 := by unfold overShortSize at hc3; omega
    refine ⟨rfl, rfl, rfl, fun g' s' hne => rfl, rfl, hw0, ?_, ?_⟩
    · intro j hj hcond1 hcond2
      show writeBytes (store32 M.kv.data (K * 4 + 16) (VO + v.length * 16777216))
          (VO * 4) v j = M.kv.data j
      rcases hcond2 hc5.1 with hB | hB <;> rcases hcond1 with hA | hA
      · rw [writeBytes_eq_of_lt _ _ _ _ (by omega),
          store32_eq_of_lt _ _ _ _ (by omega)]
      · rw [writeBytes_eq_of_lt _ _ _ _ (by omega),
          store32_eq_of_ge _ _ _ _ (by omega)]
      · rw [writeBytes_eq_of_ge _ _ _ _ (by omega),
          store32_eq_of_lt _ _ _ _ (by omega)]
      · rw [writeBytes_eq_of_ge _ _ _ _ (by omega),
          store32_eq_of_ge _ _ _ _ (by omega)]
    · simp only [readVal]
      rw [if_pos hc5.1]
      have hvh : load32 (writeBytes (store32 M.kv.data (K * 4 + 16)
          (VO + v.length * 16777216)) (VO * 4) v) (K * 4 + 16)
          = VO + v.length * 16777216 := by
        have h1 : load32 (writeBytes (store32 M.kv.data (K * 4 + 16)
            (VO + v.length * 16777216)) (VO * 4) v) (K * 4 + 16)
            = load32 (store32 M.kv.data (K * 4 + 16)
              (VO + v.length * 16777216)) (K * 4 + 16) := by
          apply load32_congr
          intro j hj1 hj2
          rcases hvk hc5.1 with hA | hA
          · exact writeBytes_eq_of_lt _ _ _ _ (by omega)
          · exact writeBytes_eq_of_ge _ _ _ _ (by omega)
        rw [h1, load32_store32_self]
        omega
      rw [hvh]
      have hsh : smallSizeOf (VO + v.length * 16777216) = v.length := by
        unfold smallSizeOf
        omega
      have hoh : offsetOf (VO + v.length * 16777216) = VO := by
        unfold offsetOf
        omega
      rw [hsh, hoh]
      exact readBytes_writeBytes_self v _ _
  · -- generic append
    set K := offsetOf ((M.groups.getD g []).getD s 0) with hKdef
    have hKlt : K < 16777216 := by rw [hKdef]; unfold offsetOf; omega
    have hlv256 : v.length < 256 := by unfold overShortSize at hc3; omega
    have hss : s < (M.groups.getD g []).length := by rw [hrow]; exact hs16
    have hslot : ((setSlot M.groups g s
        (K * 4 / 4 + Cap4Size v.length / 4 * 16777216)).getD g []).getD s 0
        = K * 4 / 4 + Cap4Size v.length / 4 * 16777216 := by
      rw [setSlot_getD_self M.groups g s _ hg]
      exact getD_set_self _ _ _ _ hss
    refine ⟨rfl, rfl, setSlot_length _ _ _ _, ?_, ?_, ?_, ?_, ?_⟩
    · intro g' s' hne
      exact setSlot_getD_ne M.groups g s g' s' _ 0
        (fun hc => hne ⟨hc.1.symm, hc.2.symm⟩)
    · show offsetOf (((setSlot M.groups g s _).getD g []).getD s 0) = K
      rw [hslot]
      unfold offsetOf
      omega
    · show ((setSlot M.groups g s _).getD g []).getD s 0 ≠ 0
      rw [hslot]
      omega
    · intro j hj hcond1 hcond2
      show store32 (writeBytes M.kv.data M.kv.tail v) (K * 4 + 16) _ j = M.kv.data j
      rcases hcond1 with hA | hA
      · rw [store32_eq_of_lt _ _ _ _ (by omega),
          writeBytes_eq_of_lt _ _ _ _ (by omega)]
      · rw [store32_eq_of_ge _ _ _ _ (by omega),
          writeBytes_eq_of_lt _ _ _ _ (by omega)]
    · rw [hslot]
      simp only [readVal]
      have hcap256 : Cap4Size v.length ≤ 256 := by
        unfold Cap4Size
        omega
      have htyW : valTypeOf (K * 4 / 4 + Cap4Size v.length / 4 * 16777216) = 0 := by
        unfold valTypeOf
        omega
      have hoW : offsetOf (K * 4 / 4 + Cap4Size v.length / 4 * 16777216) = K := by
        unfold offsetOf
        omega
      rw [hoW]
      have hvh : load32 (store32 (writeBytes M.kv.data M.kv.tail v) (K * 4 + 16)
          (M.kv.tail / 4 + v.length * 16777216)) (K * 4 + 16)
          = M.kv.tail / 4 + v.length * 16777216 := by
        rw [load32_store32_self]
        omega
      rw [hvh, if_pos htyW]
      have hsh : smallSizeOf (M.kv.tail / 4 + v.length * 16777216) = v.length := by
        unfold smallSizeOf
        omega
      have hoh : offsetOf (M.kv.tail / 4 + v.length * 16777216) = M.kv.tail / 4 := by
        unfold offsetOf
        omega
      rw [hsh, hoh]
      have ht44 : M.kv.tail / 4 * 4 = M.kv.tail := by omega
      rw [ht44]
      have hcong : readBytes (store32 (writeBytes M.kv.data M.kv.tail v) (K * 4 + 16)
          (M.kv.tail / 4 + v.length * 16777216)) M.kv.tail v.length
          = readBytes (writeBytes M.kv.data M.kv.tail v) M.kv.tail v.length := by
        apply readBytes_congr
        intro j hj1 hj2
        exact store32_eq_of_ge _ _ _ _ (by omega)
      rw [hcong]
      exact readBytes_writeBytes_self v _ _

/-! ## C1 -/

/-- C1: round-trip on an arbitrary well-formed shard — for every key `k`
(16 bytes) and value `v` with `|v| < limitSize`, whenever
`RePut(hash, k, v)` returns `true` — updating an existing record through
any of its four update branches, or inserting into a table that may
already hold other records (possibly after the entry rehash) — an
immediately following `Get(hash, k)` returns `(v, true)` with the value
byte-equal to `v`.  `WF` is record-layout well-formedness of the probed
state, i.e. of the shard after `RePut`'s conditional entry rehash. -/
theorem c1_reput_get_roundtrip (hashFn : List Nat → Nat) (m : Shard) (l : Nat)
    (k v : List Nat)
    (hWF : WF (if m.resident ≥ m.limit then rehash hashFn m else m))
    (hk : k.length = 16) (hv : v.length < limitSize)
    (hsucc : (RePut hashFn m l k v).1 = true) :
    (Get (RePut hashFn m l k v).2 l k).1 = v ∧
    (Get (RePut hashFn m l k v).2 l k).2.1 = true := by
  by_cases h1 : m.kv.tail ≥ m.kv.limit
  · exfalso
    have hbad : RePut hashFn m l k v = (false, m) := by
      simp only [RePut]
      rw [if_pos h1]
    rw [hbad] at hsucc
    exact absurd hsucc (by simp)
  by_cases h2 : m.rehashing = true
  · exfalso
    have hbad : RePut hashFn m l k v = (false, m) := by
      simp only [RePut]
      rw [if_neg h1, if_pos h2]
    rw [hbad] at hsucc
    exact absurd hsucc (by simp)
  set M : Shard := if m.resident ≥ m.limit then rehash hashFn m else m with hM
  have hun : RePut hashFn m l k v
      = (match probeShard M l k with
         | PRes.found g s => rePutUpdate M g s v
         | PRes.missAt g s => rePutInsert M l g s k v
         | PRes.nofuel => (false, M)) := by
    rw [hM]
    simp only [RePut]
    rw [if_neg h1, if_neg h2]
  rw [hun] at hsucc ⊢
  revert hsucc
  cases hpr : probeShard M l k with
  | nofuel =>
    intro hsucc
    exact absurd hsucc (by simp)
  | found g s =>
    intro hsucc
    show (Get (rePutUpdate M g s v).2 l k).1 = v ∧
      (Get (rePutUpdate M g s v).2 l k).2.1 = true
    have hsucc' : (rePutUpdate M g s v).1 = true := hsucc
    obtain ⟨hgc, hsc, hoccb⟩ := probeShard_found_facts M l k g s hWF.hInv hpr
    obtain ⟨hs16, hbyte, hkeyold⟩ :=
      findKeyInGroup_some _ _ _ _ _ _ (probeShard_found M l k g s hpr)
    have hgg : g < M.groups.length := by rw [← hWF.hInv.hcl]; exact hgc
    have hrow : (M.groups.getD g []).length = 16 :=
      hWF.hgrow _ (getD_mem _ _ _ hgg)
    obtain ⟨hctrl_eq, hcnt_eq, hglen_eq, hother, hoff, hw0new, hframe, hval⟩ :=
      rePutUpdate_post M g s v hgg hrow hs16
        (hWF.hw0 g hgc s hs16 hoccb)
        (hWF.hk4 g hgc s hs16 hoccb)
        (hWF.hkt g hgc s hs16 hoccb)
        (fun ht0 => (hWF.hVK g hgc s hs16 g hgc s hs16 hoccb hoccb ht0).symm)
        hWF.htail4 (by have := hWF.htail20; omega) hv hsucc'
    set post := (rePutUpdate M g s v).2 with hpost
    have hkeypres : ∀ g' s', g' < M.ctrl.length → s' < 16 →
        occTag ((M.ctrl.getD g' []).getD s' emptyByte) = true →
        readBytes post.kv.data (offsetOf ((M.groups.getD g' []).getD s' 0) * 4) 16
          = readBytes M.kv.data (offsetOf ((M.groups.getD g' []).getD s' 0) * 4) 16 := by
      intro g' s' hg' hs' hocc'
      apply readBytes_congr
      intro j hj1 hj2
      apply hframe j
      · have := hWF.hkt g' hg' s' hs' hocc'
        omega
      · by_cases hsame : g' = g ∧ s' = s
        · rw [hsame.1, hsame.2] at hj2
          omega
        · have hKK := hWF.hKK g' hg' s' hs' g hgc s hs16 hocc' hoccb hsame
          omega
      · intro ht0
        have hVK := hWF.hVK g hgc s hs16 g' hg' s' hs' hoccb hocc' ht0
        omega
    have Hf : ∀ g', findKeyInGroupGet post.kv.data (post.ctrl.getD g' [])
        (post.groups.getD g' []) (h2i l) k
        = findKeyInGroup M.kv.data (M.ctrl.getD g' []) (M.groups.getD g' [])
          (h2i l) k := by
      intro g'
      rw [hctrl_eq]
      unfold findKeyInGroupGet findKeyInGroup
      apply scanSlots_congr
      intro t ht0 ht16
      have ht16' : t < 16 := by omega
      by_cases hb : (M.ctrl.getD g' []).getD t emptyByte = h2i l
      · have hocc' : occTag ((M.ctrl.getD g' []).getD t emptyByte) = true := by
          rw [hb]; exact (tags_of_h2i l).2.2
        have hg'lt : g' < M.ctrl.length := by
          by_contra hcon
          push_neg at hcon
          rw [List.getD_eq_default _ _ hcon] at hb
          have hb' : emptyByte = h2i l := by simpa using hb
          exact h2i_ne_empty l hb'.symm
        by_cases hsame : g' = g ∧ t = s
        · obtain ⟨hg2, ht2⟩ := hsame
          rw [hg2, ht2] at hb ⊢
          rw [hoff]
          have e1 : decide ((M.ctrl.getD g []).getD s emptyByte = h2i l) = true :=
            decide_eq_true hb
          have e2 : decide ((post.groups.getD g []).getD s 0 ≠ 0) = true :=
            decide_eq_true hw0new
          have e3 : readBytes post.kv.data
              (offsetOf ((M.groups.getD g []).getD s 0) * 4) 16
              = getKey M.kv.data ((M.groups.getD g []).getD s 0) := by
            rw [hkeypres g s hgc hs16 hoccb]
            rfl
          rw [e1, e2, e3]
          simp
        · rw [hother g' t hsame]
          have e2 : decide ((M.groups.getD g' []).getD t 0 ≠ 0) = true :=
            decide_eq_true (hWF.hw0 g' hg'lt t ht16' hocc')
          have e3 : readBytes post.kv.data
              (offsetOf ((M.groups.getD g' []).getD t 0) * 4) 16
              = getKey M.kv.data ((M.groups.getD g' []).getD t 0) := by
            rw [hkeypres g' t hg'lt ht16' hocc']
            rfl
          have e1 : decide ((M.ctrl.getD g' []).getD t emptyByte = h2i l) = true :=
            decide_eq_true hb
          rw [e1, e2, e3]
          simp
      · have e1 : decide ((M.ctrl.getD g' []).getD t emptyByte = h2i l) = false :=
          decide_eq_false hb
        rw [e1]
        simp
    have He : ∀ g', firstEmptySlot (post.ctrl.getD g' [])
        = firstEmptySlot (M.ctrl.getD g' []) := by
      intro g'
      rw [hctrl_eq]
    have hloop : probeLoop M.ctrl M.groups M.kv.data k (h2i l) M.groups.length
        M.groups.length (probeStart (splitHash l).1 M.groups.length)
        = PRes.found g s := hpr
    have hget1 : probeGetLoop post.ctrl post.groups post.kv.data k (h2i l)
        M.groups.length M.groups.length
        (probeStart (splitHash l).1 M.groups.length) = PRes.found g s := by
      rw [probeGetLoop_eq_probeLoop M.ctrl post.ctrl M.groups post.groups
        M.kv.data post.kv.data k (h2i l) M.groups.length Hf He
        M.groups.length (probeStart (splitHash l).1 M.groups.length)]
      exact hloop
    have hget : probeGetLoop post.ctrl post.groups post.kv.data k (h2i l)
        post.groups.length post.groups.length
        (probeStart (splitHash l).1 post.groups.length) = PRes.found g s := by
      rw [hglen_eq]
      exact hget1
    obtain ⟨hv1, hv2⟩ := get_eval_found post l k g s _ rfl hget
    exact ⟨hv1.trans hval, hv2⟩
  | missAt g s =>
    intro hsucc
    show (Get (rePutInsert M l g s k v).2 l k).1 = v ∧
      (Get (rePutInsert M l g s k v).2 l k).2.1 = true
    have hsucc' : (rePutInsert M l g s k v).1 = true := hsucc
    obtain ⟨hgc, hsc, hbyteE⟩ := probeShard_missAt_facts M l k g s hWF.hInv hpr
    obtain ⟨hfnone, hfes⟩ := probeShard_missAt M l k g s hpr
    have hs16 : s < 16 := (firstEmptySlot_some _ _ hfes).1
    have hgg : g < M.groups.length := by rw [← hWF.hInv.hcl]; exact hgc
    have hrow16 : (M.groups.getD g []).length = 16 :=
      hWF.hgrow _ (getD_mem _ _ _ hgg)
    have hcrow16 : (M.ctrl.getD g []).length = 16 :=
      hWF.hInv.hg16 _ (getD_mem _ _ _ hgc)
    have heq := rePutInsert_success_eq M l g s k v hsucc'
    have hv32 : v.length < 4294967296 := by unfold limitSize at hv; omega
    have hrb := gcSet_readback M.kv k v hk hv32 hWF.htail4 hWF.htail20
      (rePutInsert M l g s k v).2.kv.data (fun j hj => by rw [heq])
    set post := (rePutInsert M l g s k v).2 with hpost
    have hctrlrow : post.ctrl.getD g [] = (M.ctrl.getD g []).set s (h2i l) := by
      rw [heq]
      exact setSlot_getD_self M.ctrl g s _ hgc
    have hgrouprow : post.groups.getD g []
        = (M.groups.getD g []).set s (gcSet M.kv k v).2 := by
      rw [heq]
      exact setSlot_getD_self M.groups g s _ hgg
    have hwslot : (post.groups.getD g []).getD s 0 = (gcSet M.kv k v).2 := by
      rw [hgrouprow]
      exact getD_set_self _ _ _ _ (by rw [hrow16]; exact hs16)
    have hbslot : (post.ctrl.getD g []).getD s emptyByte = h2i l := by
      rw [hctrlrow]
      exact getD_set_self _ _ _ _ (by rw [hcrow16]; exact hs16)
    have hrowc : ∀ g', ¬ g' = g → post.ctrl.getD g' [] = M.ctrl.getD g' [] := by
      intro g' hne
      rw [heq]
      exact setSlot_getD_row_ne M.ctrl g s _ g' hne
    have hrowg : ∀ g', ¬ g' = g →
        post.groups.getD g' [] = M.groups.getD g' [] := by
      intro g' hne
      rw [heq]
      exact setSlot_getD_row_ne M.groups g s _ g' hne
    have hframe : ∀ j, j < M.kv.tail → post.kv.data j = M.kv.data j := by
      intro j hj
      have h1 : post.kv.data j = (gcSet M.kv k v).1.data j := by rw [heq]
      rw [h1]
      exact gcSet_frame M.kv k v j hj
    have hkeypres : ∀ g' t, g' < M.ctrl.length → t < 16 →
        occTag ((M.ctrl.getD g' []).getD t emptyByte) = true →
        readBytes post.kv.data (offsetOf ((M.groups.getD g' []).getD t 0) * 4) 16
          = readBytes M.kv.data (offsetOf ((M.groups.getD g' []).getD t 0) * 4) 16 := by
      intro g' t hg' ht hocc'
      apply readBytes_congr
      intro j hj1 hj2
      apply hframe
      have := hWF.hkt g' hg' t ht hocc'
      omega
    have Hg : findKeyInGroupGet post.kv.data (post.ctrl.getD g [])
        (post.groups.getD g []) (h2i l) k = some s := by
      unfold findKeyInGroupGet
      refine scanSlots_first _ s 16 0 (Nat.zero_le _) (by omega) ?_ ?_
      · intro t ht0 hts
        have ht16 : t < 16 := by omega
        have hbrow : (post.ctrl.getD g []).getD t emptyByte
            = (M.ctrl.getD g []).getD t emptyByte := by
          rw [hctrlrow]
          exact getD_set_ne _ _ _ _ _ (by omega)
        have hwrow : (post.groups.getD g []).getD t 0
            = (M.groups.getD g []).getD t 0 := by
          rw [hgrouprow]
          exact getD_set_ne _ _ _ _ _ (by omega)
        rw [hbrow, hwrow]
        by_cases hb : (M.ctrl.getD g []).getD t emptyByte = h2i l
        · have hocc' : occTag ((M.ctrl.getD g []).getD t emptyByte) = true := by
            rw [hb]; exact (tags_of_h2i l).2.2
          have hold : (decide ((M.ctrl.getD g []).getD t emptyByte = h2i l) &&
              decide (getKey M.kv.data ((M.groups.getD g []).getD t 0) = k))
              = false :=
            scanSlots_none _ 16 0 hfnone t (Nat.zero_le _) (by omega)
          rw [decide_eq_true hb, Bool.true_and] at hold
          have e3 : readBytes post.kv.data
              (offsetOf ((M.groups.getD g []).getD t 0) * 4) 16
              = getKey M.kv.data ((M.groups.getD g []).getD t 0) := by
            rw [hkeypres g t hgc ht16 hocc']
            rfl
          rw [e3, hold]
          simp
        · rw [decide_eq_false hb]
          simp
      · rw [hbslot, hwslot, decide_eq_true (gcSet_word_ne M.kv k v hWF.htail_ge)]
        have e3 : readBytes post.kv.data (offsetOf (gcSet M.kv k v).2 * 4) 16
            = k := hrb.1
        rw [decide_eq_true e3]
        simp
    have Himp : ∀ g', ¬ g' = g →
        findKeyInGroup M.kv.data (M.ctrl.getD g' []) (M.groups.getD g' [])
          (h2i l) k = none →
        findKeyInGroupGet post.kv.data (post.ctrl.getD g' [])
          (post.groups.getD g' []) (h2i l) k = none := by
      intro g' hne hnone
      rw [hrowc g' hne, hrowg g' hne]
      unfold findKeyInGroupGet
      apply scanSlots_none_of_bounded
      intro t ht0 ht16
      have ht16' : t < 16 := by omega
      by_cases hb : (M.ctrl.getD g' []).getD t emptyByte = h2i l
      · have hocc' : occTag ((M.ctrl.getD g' []).getD t emptyByte) = true := by
          rw [hb]; exact (tags_of_h2i l).2.2
        have hg'lt : g' < M.ctrl.length := by
          by_contra hcon
          push_neg at hcon
          rw [List.getD_eq_default _ _ hcon] at hb
          have hb' : emptyByte = h2i l := by simpa using hb
          exact h2i_ne_empty l hb'.symm
        have hold : (decide ((M.ctrl.getD g' []).getD t emptyByte = h2i l) &&
            decide (getKey M.kv.data ((M.groups.getD g' []).getD t 0) = k))
            = false :=
          scanSlots_none _ 16 0 hnone t (Nat.zero_le _) (by omega)
        rw [decide_eq_true hb, Bool.true_and] at hold
        have e3 : readBytes post.kv.data
            (offsetOf ((M.groups.getD g' []).getD t 0) * 4) 16
            = getKey M.kv.data ((M.groups.getD g' []).getD t 0) := by
          rw [hkeypres g' t hg'lt ht16' hocc']
          rfl
        rw [e3, hold]
        simp
      · rw [decide_eq_false hb]
        simp
    have He : ∀ g', ¬ g' = g →
        firstEmptySlot (post.ctrl.getD g' [])
          = firstEmptySlot (M.ctrl.getD g' []) := by
      intro g' hne
      rw [hrowc g' hne]
    have hloop : probeLoop M.ctrl M.groups M.kv.data k (h2i l) M.groups.length
        M.groups.length (probeStart (splitHash l).1 M.groups.length)
        = PRes.missAt g s := hpr
    have hget1 : probeGetLoop post.ctrl post.groups post.kv.data k (h2i l)
        M.groups.length M.groups.length
        (probeStart (splitHash l).1 M.groups.length) = PRes.found g s :=
      probeGetLoop_found_of_missAt M.ctrl post.ctrl M.groups post.groups
        M.kv.data post.kv.data k (h2i l) M.groups.length g s Hg Himp He
        M.groups.length (probeStart (splitHash l).1 M.groups.length) hloop
    have hglen : post.groups.length = M.groups.length := by
      rw [heq]
      exact setSlot_length _ _ _ _
    have hget : probeGetLoop post.ctrl post.groups post.kv.data k (h2i l)
        post.groups.length post.groups.length
        (probeStart (splitHash l).1 post.groups.length) = PRes.found g s := by
      rw [hglen]
      exact hget1
    obtain ⟨hv1, hv2⟩ := get_eval_found post l k g s _ rfl hget
    refine ⟨?_, hv2⟩
    rw [hv1, hwslot]
    exact hrb.2

theorem wState_occ_zero : ∀ s, s < 16 →
    occTag (((wState 100).ctrl.getD 0 []).getD s emptyByte) = true → s = 0 := by
  decide

theorem wState_wf : WF (wState 100) := by
  refine ⟨⟨by decide, by decide, by decide, by decide, by decide, by decide,
    by decide⟩, by decide, by decide, by decide, by decide, by decide,
    by decide, by decide, ?_, ?_⟩
  · intro g hg s hs g' hg' s' hs' h1 h2 h3
    have hgl : (wState 100).ctrl.length = 1 := by decide
    have hg0 : g = 0 := by omega
    have hg0' : g' = 0 := by omega
    subst hg0
    subst hg0'
    have hs0 := wState_occ_zero s hs h1
    have hs0' := wState_occ_zero s' hs' h2
    exact absurd ⟨rfl, hs0.trans hs0'.symm⟩ h3
  · intro g hg s hs g' hg' s' hs' h1 h2 ht0
    have hgl : (wState 100).ctrl.length = 1 := by decide
    have hg0 : g = 0 := by omega
    have hg0' : g' = 0 := by omega
    subst hg0
    subst hg0'
    have hs0 := wState_occ_zero s hs h1
    have hs0' := wState_occ_zero s' hs' h2
    subst hs0
    subst hs0'
    decide

theorem c1_reput_get_roundtrip_witness :
    (Get (RePut (fun _ => 0) (wState 100) 5 wKey [9]).2 5 wKey).1 = [9] ∧
    (Get (RePut (fun _ => 0) (wState 100) 5 wKey [9]).2 5 wKey).2.1 = true :=
  c1_reput_get_roundtrip (fun _ => 0) (wState 100) 5 wKey [9] wState_wf
    (by decide) (by decide) (by decide)

end VMap
